import Mathlib

/-!
# Realtime service: state engine, subscriber priming and replication decoder

A shallow embedding of `apps/realtime-service` (`state.go`, `main.go`,
`replication.go`, `snapshot.go`).

Conventions of the embedding

* `uuid.UUID` is a natural number (`uuid.Nil` is `0`); `time.Time` is an
  integer instant, `Before` is `<`, the zero time is `0`.
* A Go `map[uuid.UUID]V` is an association list with distinct keys
  (`AList`); `m[k] = v` is `AList.insert`, `delete(m, k)` is `AList.erase`.
  `range` over a map visits the entries in the stored order, which is one of
  the orders Go may pick.
* A `map[uuid.UUID]struct{}` is a `Finset UUID`.
* `uint64` arithmetic is arithmetic on `Nat` modulo `2 ^ 64`.
* A buffered channel is the list of the events it holds, oldest first; the
  non-blocking send `select { case ch <- e: default: }` appends when the
  buffer is below its capacity and does nothing otherwise.
* Records are passed by value: the Go code never mutates a `*RunState` after
  `UpdateRun` has stored it.
* Each call on the state engine is one step (`Op`), taken under the engine's lock.
  `Op.sendInitial` is `sendInitialState` run with no other call in between; since the method
  holds the lock only while it reads the record map, the session of one handler is also run
  step by step (`handlerTurn`), the read and each send being steps that `UpdateRun` calls
  may separate.
* A decoder call ends in an `Outcome`: a value, an `error`, or a panic; every `data[i]` and
  `data[lo:hi]` of the source is an `index` or `slice` that panics out of range.
* The calls into `uuid`, `time` and `encoding/json` are parameters (`Codecs`); `time.Now()`
  is the parameter `now`.
* The calls into `encoding/gob` and `zstd` are parameters (`SnapshotCodec`) over an abstract
  type of byte strings; the snapshot file and its temporary file are a `Disk`.
-/

namespace Realtime

abbrev UUID := Nat

abbrev Time := Int

/-- Go `map[uuid.UUID]V`. -/
abbrev GoMap (V : Type) := AList (fun _ : UUID => V)

/-- Go `map[uuid.UUID]struct{}`. -/
abbrev IdSet := Finset UUID

/-- Go `map[string]interface{}` as the decoder fills it: every value is a string. -/
abbrev Columns := AList (fun _ : String => String)

structure RunState where
  ID : UUID
  EnvID : UUID
  Tags : List UUID
  Status : String
  UpdatedAt : Time
  CreatedAt : Time
  Seq : Nat
  Data : Columns
deriving DecidableEq

structure StreamFilter where
  RunID : Option UUID
  EnvID : Option UUID
  Tags : List UUID
  CreatedAt : Option Time
deriving DecidableEq

structure StreamEvent where
  ID : String
  EventType : String
  Data : RunState
deriving DecidableEq

/-- The `Events` field is the content of the buffered channel. -/
structure Connection where
  Filter : StreamFilter
  LastEventID : String
  Events : List StreamEvent
  ID : UUID
deriving DecidableEq

structure StateManager where
  runs : GoMap RunState
  envIndex : GoMap IdSet
  tagIndex : GoMap IdSet
  connections : GoMap Connection
  subByRun : GoMap IdSet
  subByTag : GoMap IdSet
  subByEnv : GoMap IdSet
  sequence : Nat
  recentEvents : GoMap (List StreamEvent)
deriving DecidableEq

structure Snapshot where
  Runs : GoMap RunState
  LSN : String
  Timestamp : Time
  Sequence : Nat
deriving DecidableEq

def NewStateManager : StateManager :=
  { runs := ∅, envIndex := ∅, tagIndex := ∅, connections := ∅,
    subByRun := ∅, subByTag := ∅, subByEnv := ∅, sequence := 0, recentEvents := ∅ }

/-- The pattern `if idx[k] == nil { idx[k] = make(...) }; idx[k][id] = struct{}{}`. -/
def indexAdd (idx : GoMap IdSet) (k id : UUID) : GoMap IdSet :=
  match idx.lookup k with
  | none => idx.insert k {id}
  | some bucket => idx.insert k (insert id bucket)

/-- The pattern
`if b, exists := idx[k]; exists { delete(b, id); if len(b) == 0 { delete(idx, k) } }`. -/
def indexRemove (idx : GoMap IdSet) (k id : UUID) : GoMap IdSet :=
  match idx.lookup k with
  | none => idx
  | some bucket =>
    if (bucket.erase id).card = 0 then idx.erase k else idx.insert k (bucket.erase id)

def addToIndexes (sm : StateManager) (run : RunState) : StateManager :=
  { sm with
    envIndex := indexAdd sm.envIndex run.EnvID run.ID
    tagIndex := run.Tags.foldl (fun idx tag => indexAdd idx tag run.ID) sm.tagIndex }

def removeFromIndexes (sm : StateManager) (run : RunState) : StateManager :=
  { sm with
    envIndex := indexRemove sm.envIndex run.EnvID run.ID
    tagIndex := run.Tags.foldl (fun idx tag => indexRemove idx tag run.ID) sm.tagIndex }

def matchesFilter (run : RunState) (filter : StreamFilter) : Bool :=
  if filter.RunID.isSome && filter.RunID != some run.ID then false
  else if filter.EnvID.isSome && filter.EnvID != some run.EnvID then false
  else if (match filter.CreatedAt with
           | some floor => decide (run.CreatedAt < floor)
           | none => false) then false
  else if filter.Tags.length > 0 then
    filter.Tags.any (fun filterTag => run.Tags.any (fun runTag => filterTag == runTag))
  else true

/-- Capacity of the channel `NewConnection` makes. -/
def eventsCap : Nat := 256

/-- Non-blocking send `select { case ch <- e: default: }`. -/
def trySend (ch : List StreamEvent) (e : StreamEvent) : List StreamEvent :=
  if ch.length < eventsCap then ch ++ [e] else ch

/-- Apply `f` to every value of a map, keys untouched. -/
def mapValues {V : Type} (f : V → V) (m : GoMap V) : GoMap V :=
  ⟨m.entries.map (fun e => ⟨e.1, f e.2⟩), by
    have h := m.nodupKeys
    unfold List.NodupKeys at *
    have hk : (m.entries.map (fun e => (⟨e.1, f e.2⟩ : Sigma fun _ : UUID => V))).keys
        = m.entries.keys := by
      simp [List.keys, List.map_map, Function.comp_def]
    rw [hk]; exact h⟩

/-- The event `broadcastUpdate` builds: `fmt.Sprintf("%d", run.Seq)`, "delta", the record. -/
def deltaEvent (run : RunState) : StreamEvent :=
  { ID := toString run.Seq, EventType := "delta", Data := run }

def broadcastUpdate (sm : StateManager) (run : RunState) : StateManager :=
  let event := deltaEvent run
  let events := (sm.recentEvents.lookup run.ID).getD []
  let events := if events.length ≥ 128 then events.drop 1 else events
  let events := events ++ [event]
  { sm with
    recentEvents := sm.recentEvents.insert run.ID events
    connections := mapValues
      (fun conn => if matchesFilter run conn.Filter
        then { conn with Events := trySend conn.Events event } else conn)
      sm.connections }

def UpdateRun (sm : StateManager) (run : RunState) : StateManager :=
  let sm := { sm with sequence := (sm.sequence + 1) % 2 ^ 64 }
  let run := { run with Seq := sm.sequence }
  let sm := match sm.runs.lookup run.ID with
    | some existing => removeFromIndexes sm existing
    | none => sm
  let sm := { sm with runs := sm.runs.insert run.ID run }
  let sm := addToIndexes sm run
  broadcastUpdate sm run

def RemoveRun (sm : StateManager) (runID : UUID) : StateManager :=
  match sm.runs.lookup runID with
  | some existing =>
    let sm := removeFromIndexes sm existing
    { sm with runs := sm.runs.erase runID, recentEvents := sm.recentEvents.erase runID }
  | none => sm

def GetMatchingRuns (sm : StateManager) (filter : StreamFilter) : List RunState :=
  (sm.runs.entries.filter (fun e => matchesFilter e.2 filter)).map (fun e => e.2)

def AddConnection (sm : StateManager) (conn : Connection) : StateManager :=
  { sm with
    connections := sm.connections.insert conn.ID conn
    subByRun := match conn.Filter.RunID with
      | some r => indexAdd sm.subByRun r conn.ID
      | none => sm.subByRun
    subByEnv := match conn.Filter.EnvID with
      | some e => indexAdd sm.subByEnv e conn.ID
      | none => sm.subByEnv
    subByTag := conn.Filter.Tags.foldl (fun idx tag => indexAdd idx tag conn.ID) sm.subByTag }

def RemoveConnection (sm : StateManager) (conn : Connection) : StateManager :=
  { sm with
    connections := sm.connections.erase conn.ID
    subByRun := match conn.Filter.RunID with
      | some r => indexRemove sm.subByRun r conn.ID
      | none => sm.subByRun
    subByEnv := match conn.Filter.EnvID with
      | some e => indexRemove sm.subByEnv e conn.ID
      | none => sm.subByEnv
    subByTag := conn.Filter.Tags.foldl (fun idx tag => indexRemove idx tag conn.ID) sm.subByTag }

/-- The connection `NewConnection` returns; `id` is the value `uuid.New()` draws. -/
def NewConnection (filter : StreamFilter) (lastEventID : String) (id : UUID) : Connection :=
  { Filter := filter, LastEventID := lastEventID, Events := [], ID := id }

/-- The event `sendInitialState` builds for one record. -/
def initialEvent (run : RunState) : StreamEvent :=
  { ID := toString run.Seq, EventType := "initial", Data := run }

/-- The loop of `sendInitialState`: enqueue until the first send that would block. -/
def sendInitialLoop : List RunState → List StreamEvent → List StreamEvent
  | [], ch => ch
  | run :: rest, ch =>
    if ch.length < eventsCap then sendInitialLoop rest (ch ++ [initialEvent run]) else ch

/-- Method `Server.sendInitialState`, run with no other goroutine in between. The channel of
`conn` is the one held by the entry registered under `conn.ID`; `handleStream` calls this
between `AddConnection` and `RemoveConnection`, so the entry is there. The method holds the
read lock only inside `GetMatchingRuns`; its run interleaved with `UpdateRun` calls is
`handlerTurn` below. -/
def sendInitialState (sm : StateManager) (conn : Connection) : StateManager :=
  match sm.connections.lookup conn.ID with
  | some c =>
    let c := { c with Events := sendInitialLoop (GetMatchingRuns sm conn.Filter) c.Events }
    { sm with connections := sm.connections.insert conn.ID c }
  | none => sm

/-- The stream writer of `handleStream` taking one event off the channel. -/
def receiveEvent (sm : StateManager) (connID : UUID) : StateManager :=
  match sm.connections.lookup connID with
  | some c =>
    let c := { c with Events := c.Events.drop 1 }
    { sm with connections := sm.connections.insert connID c }
  | none => sm

def RestoreFromSnapshot (sm : StateManager) (snapshot : Snapshot) : StateManager :=
  let sm := { sm with
    runs := snapshot.Runs, sequence := snapshot.Sequence, envIndex := ∅, tagIndex := ∅ }
  snapshot.Runs.entries.foldl (fun sm e => addToIndexes sm e.2) sm

/-- One call on the state engine. -/
inductive Op where
  | updateRun (run : RunState)
  | removeRun (runID : UUID)
  | addConnection (conn : Connection)
  | removeConnection (conn : Connection)
  | sendInitial (conn : Connection)
  | receive (connID : UUID)
  | restore (snapshot : Snapshot)

def step (sm : StateManager) : Op → StateManager
  | .updateRun run => UpdateRun sm run
  | .removeRun runID => RemoveRun sm runID
  | .addConnection conn => AddConnection sm conn
  | .removeConnection conn => RemoveConnection sm conn
  | .sendInitial conn => sendInitialState sm conn
  | .receive connID => receiveEvent sm connID
  | .restore snapshot => RestoreFromSnapshot sm snapshot

/-- Run a sequence of calls, first call first. -/
def exec (sm : StateManager) (ops : List Op) : StateManager :=
  ops.foldl step sm

/-! ## Replication decoder (`replication.go`) -/

/-- How a Go call ends: with a value, with a non-nil `error`, or in a run-time panic
(index or slice bound out of range). -/
inductive Outcome (α : Type) where
  | ok (a : α)
  | error (msg : String)
  | panic
deriving DecidableEq

def Outcome.bind {α β : Type} (x : Outcome α) (f : α → Outcome β) : Outcome β :=
  match x with
  | .ok a => f a
  | .error msg => .error msg
  | .panic => .panic

instance : Monad Outcome where
  pure := Outcome.ok
  bind := Outcome.bind

/-- The expression `data[pos]`: panics when `pos` is not below `len(data)`. -/
def index (data : List Nat) (pos : Nat) : Outcome Nat :=
  match data[pos]? with
  | some b => .ok b
  | none => .panic

/-- The expression `data[lo:hi]`: panics unless `lo ≤ hi ≤ len(data)`. -/
def slice (data : List Nat) (lo hi : Nat) : Outcome (List Nat) :=
  if lo ≤ hi ∧ hi ≤ data.length then .ok ((data.drop lo).take (hi - lo)) else .panic

/-- The conversion `string(bytes)`: the bytes are kept, each as the character of that code. -/
def bytesToString (bytes : List Nat) : String :=
  String.mk (bytes.map Char.ofNat)

/-- The expression `uint16(b0)<<8 | uint16(b1)`. -/
def be16 (b0 b1 : Nat) : Nat :=
  ((b0 <<< 8) ||| b1) % 2 ^ 16

/-- The expression `uint32(b0)<<24 | uint32(b1)<<16 | uint32(b2)<<8 | uint32(b3)`. -/
def be32 (b0 b1 b2 b3 : Nat) : Nat :=
  ((b0 <<< 24) ||| (b1 <<< 16) ||| (b2 <<< 8) ||| b3) % 2 ^ 32

/-- In `New` and `Old`, `none` is the nil map. -/
structure TaskRunChange where
  Operation : String
  Old : Option Columns
  New : Option Columns
  LSN : String
deriving DecidableEq

/-- The `switch i` of `parseChangeMessage`: positions 0 to 5 are named, the others are
not stored. -/
def storeColumn (columnData : Columns) (i : Nat) (colData : String) : Columns :=
  match i with
  | 0 => columnData.insert "id" colData
  | 1 => columnData.insert "runtime_environment_id" colData
  | 2 => columnData.insert "status" colData
  | 3 => columnData.insert "created_at" colData
  | 4 => columnData.insert "updated_at" colData
  | 5 => columnData.insert "tags" colData
  | _ => columnData

/-- The column loop of `parseChangeMessage`,
`for i := uint16(0); i < numCols && pos < len(data); i++`, with `remaining = numCols - i`;
`break` returns the columns gathered so far. -/
def parseColumns (data : List Nat) :
    (remaining : Nat) → (i pos : Nat) → Columns → Outcome Columns
  | 0, _, _, columnData => .ok columnData
  | remaining + 1, i, pos, columnData =>
    if pos < data.length then do
      if pos ≥ data.length then return columnData
      let colType ← index data pos
      let pos := pos + 1
      if colType = 'n'.toNat then
        parseColumns data remaining (i + 1) pos columnData
      else if pos + 4 ≥ data.length then return columnData
      else do
        let b0 ← index data pos
        let b1 ← index data (pos + 1)
        let b2 ← index data (pos + 2)
        let b3 ← index data (pos + 3)
        let colLen := be32 b0 b1 b2 b3
        let pos := pos + 4
        if pos + colLen > data.length then return columnData
        else do
          let colBytes ← slice data pos (pos + colLen)
          let colData := bytesToString colBytes
          let pos := pos + colLen
          parseColumns data remaining (i + 1) pos (storeColumn columnData i colData)
    else .ok columnData

def parseChangeMessage (operation : String) (data : List Nat) : Outcome TaskRunChange := do
  let change : TaskRunChange :=
    { Operation := operation, New := some ∅, Old := some ∅, LSN := "" }
  if data.length < 4 then return change
  let pos := 0
  let r0 ← index data pos
  let r1 ← index data (pos + 1)
  let r2 ← index data (pos + 2)
  let r3 ← index data (pos + 3)
  let _ := be32 r0 r1 r2 r3
  let pos := pos + 4
  let pos := if operation = "UPDATE" then pos + 1 else pos
  let tupleType ← index data pos
  let pos := pos + 1
  if tupleType ≠ 'N'.toNat then return change
  if pos + 2 ≥ data.length then return change
  let n0 ← index data pos
  let n1 ← index data (pos + 1)
  let numCols := be16 n0 n1
  let pos := pos + 2
  let columnData ← parseColumns data numCols 0 pos ∅
  if operation = "DELETE" then return { change with Old := some columnData }
  else return { change with New := some columnData }

/-- The three library calls `changeToRunState` makes: `uuid.Parse`,
`time.Parse(time.RFC3339, _)` and `json.Unmarshal(_, &tags)` with `tags []uuid.UUID`;
`none` is a non-nil `err`. -/
structure Codecs where
  uuidParse : String → Option UUID
  timeParse : String → Option Time
  unmarshalTags : String → Option (List UUID)

/-- Function `changeToRunState`; `now` is the value of `time.Now()`. The record starts from the zero
value of every field but `UpdatedAt` and `Data`; each typed field is assigned only when its
column is present and parses, so it is the parsed value or else the zero value. -/
def changeToRunState (lib : Codecs) (now : Time) (change : TaskRunChange) : Outcome RunState :=
  let chosen : Option Columns :=
    match change.New with
    | some d => some d
    | none => change.Old
  match chosen with
  | none => .error "no data in change"
  | some data =>
    .ok
      { UpdatedAt := now
        Data := data
        ID := ((data.lookup "id").bind lib.uuidParse).getD 0
        EnvID := ((data.lookup "runtime_environment_id").bind lib.uuidParse).getD 0
        Status := (data.lookup "status").getD ""
        CreatedAt := ((data.lookup "created_at").bind lib.timeParse).getD 0
        Tags := ((data.lookup "tags").bind lib.unmarshalTags).getD []
        Seq := 0 }

def handleInsert (lib : Codecs) (now : Time) (sm : StateManager) (data : List Nat) :
    Outcome StateManager := do
  let change ← parseChangeMessage "INSERT" data
  let run ← changeToRunState lib now change
  return UpdateRun sm run

def handleUpdate (lib : Codecs) (now : Time) (sm : StateManager) (data : List Nat) :
    Outcome StateManager := do
  let change ← parseChangeMessage "UPDATE" data
  let run ← changeToRunState lib now change
  return UpdateRun sm run

def handleDelete (lib : Codecs) (now : Time) (sm : StateManager) (data : List Nat) :
    Outcome StateManager := do
  let change ← parseChangeMessage "DELETE" data
  if change.Old.isSome then
    let run ← changeToRunState lib now change
    let run := { run with Status := "deleted" }
    return UpdateRun sm run
  else return sm

def parseLogicalMessage (lib : Codecs) (now : Time) (sm : StateManager) (data : List Nat) :
    Outcome StateManager := do
  if data.length = 0 then return sm
  let msgType ← index data 0
  if msgType = 'B'.toNat then return sm
  else if msgType = 'C'.toNat then return sm
  else if msgType = 'I'.toNat then handleInsert lib now sm (data.drop 1)
  else if msgType = 'U'.toNat then handleUpdate lib now sm (data.drop 1)
  else if msgType = 'D'.toNat then handleDelete lib now sm (data.drop 1)
  else return sm

def handleXLogData (lib : Codecs) (now : Time) (sm : StateManager) (data : List Nat) :
    Outcome StateManager :=
  if data.length < 24 then .error "XLogData too short"
  else parseLogicalMessage lib now sm (data.drop 24)

/-- The status reply goes to the database connection; the state engine is not touched. -/
def handleKeepalive (sm : StateManager) (_data : List Nat) : Outcome StateManager :=
  .ok sm

def handleCopyData (lib : Codecs) (now : Time) (sm : StateManager) (data : List Nat) :
    Outcome StateManager := do
  if data.length = 0 then return sm
  let msgType ← index data 0
  if msgType = 'w'.toNat then handleXLogData lib now sm (data.drop 1)
  else if msgType = 'k'.toNat then handleKeepalive sm (data.drop 1)
  else return sm

/-! ## Snapshot manager (`snapshot.go`) -/

/-- The library calls of `CreateSnapshot` and `LoadSnapshot`, over the type `B` of byte
strings: `gobEncode` is `gob.NewEncoder(&buf).Encode(snapshot)`, `compress` is
`EncodeAll` of the zstd writer, `decompress` is `DecodeAll` of the zstd reader, `gobDecode`
is `gob.NewDecoder(_).Decode(&snapshot)`; `none` is a non-nil `err`. -/
structure SnapshotCodec (B : Type) where
  gobEncode : Snapshot → Option B
  compress : B → B
  decompress : B → Option B
  gobDecode : B → Option Snapshot

/-- The two files the snapshot manager touches: `filename` and `filename + ".tmp"`; `none`
is a file that does not exist. Writes and renames are taken to succeed. -/
structure Disk (B : Type) where
  file : Option B
  temp : Option B

/-- The copy loop of `CreateSnapshot`:
`for id, run := range sm.state.runs { snapshot.Runs[id] = run }`. -/
def copyRuns (runs : GoMap RunState) : GoMap RunState :=
  runs.entries.foldl (fun m e => m.insert e.1 e.2) ∅

/-- The snapshot value `CreateSnapshot` builds under the read lock; `now` is `time.Now()`. -/
def takeSnapshot (sm : StateManager) (lsn : String) (now : Time) : Snapshot :=
  { Runs := copyRuns sm.runs, LSN := lsn, Timestamp := now, Sequence := sm.sequence }

def CreateSnapshot {B : Type} (codec : SnapshotCodec B) (now : Time) (sm : StateManager)
    (lsn : String) (disk : Disk B) : Outcome (Disk B) :=
  let snapshot := takeSnapshot sm lsn now
  match codec.gobEncode snapshot with
  | none => .error "failed to encode snapshot"
  | some buf =>
    let compressed := codec.compress buf
    let disk := { disk with temp := some compressed }
    .ok { file := disk.temp, temp := none }

/-- The result `(nil, nil)` for a missing file is `.ok none`. -/
def LoadSnapshot {B : Type} (codec : SnapshotCodec B) (disk : Disk B) :
    Outcome (Option Snapshot) :=
  match disk.file with
  | none => .ok none
  | some data =>
    match codec.decompress data with
    | none => .error "failed to decompress snapshot"
    | some decompressed =>
      match codec.gobDecode decompressed with
      | none => .error "failed to decode snapshot"
      | some snapshot => .ok (some snapshot)

/-! ## Library parsers -/

/-- Value of one hexadecimal digit. -/
def hexDigit (c : Char) : Option Nat :=
  if '0' ≤ c ∧ c ≤ '9' then some (c.toNat - '0'.toNat)
  else if 'a' ≤ c ∧ c ≤ 'f' then some (c.toNat - 'a'.toNat + 10)
  else if 'A' ≤ c ∧ c ≤ 'F' then some (c.toNat - 'A'.toNat + 10)
  else none

/-- Canonical uuid text `xxxxxxxx-xxxx-xxxx-xxxx-xxxxxxxxxxxx` to its 128-bit value. -/
def parseCanonicalUUID (s : String) : Option UUID :=
  let cs := s.toList
  if cs.length = 36 ∧ cs[8]? = some '-' ∧ cs[13]? = some '-' ∧ cs[18]? = some '-'
      ∧ cs[23]? = some '-' then
    (cs.filter (fun c => c != '-')).foldl
      (fun acc c => acc.bind (fun n => (hexDigit c).map (fun d => 16 * n + d))) (some 0)
  else none

/-- Value of a run of decimal digits. -/
def digitsValue (cs : List Char) : Option Nat :=
  cs.foldl (fun acc c => acc.bind (fun n =>
    if '0' ≤ c ∧ c ≤ '9' then some (10 * n + (c.toNat - '0'.toNat)) else none)) (some 0)

/-- Days from 0001-01-01 to the first day of month `m` of year `y` (proleptic Gregorian). -/
def daysBefore (y m : Nat) : Nat :=
  let leap := (y % 4 = 0 ∧ y % 100 ≠ 0) ∨ y % 400 = 0
  let cum := [0, 31, 59, 90, 120, 151, 181, 212, 243, 273, 304, 334]
  365 * (y - 1) + (y - 1) / 4 - (y - 1) / 100 + (y - 1) / 400 + cum.getD (m - 1) 0
    + (if leap ∧ m > 2 then 1 else 0)

/-- Instants written `YYYY-MM-DDTHH:MM:SSZ`, in seconds from the zero time. -/
def parseInstant (s : String) : Option Time :=
  let cs := s.toList
  if cs.length = 20 ∧ cs[4]? = some '-' ∧ cs[7]? = some '-' ∧ cs[10]? = some 'T'
      ∧ cs[13]? = some ':' ∧ cs[16]? = some ':' ∧ cs[19]? = some 'Z' then
    match digitsValue (cs.take 4), digitsValue ((cs.drop 5).take 2),
        digitsValue ((cs.drop 8).take 2), digitsValue ((cs.drop 11).take 2),
        digitsValue ((cs.drop 14).take 2), digitsValue ((cs.drop 17).take 2) with
    | some y, some m, some d, some hh, some mm, some ss =>
      if 1 ≤ y ∧ 1 ≤ m ∧ m ≤ 12 ∧ 1 ≤ d ∧ d ≤ 31 ∧ hh < 24 ∧ mm < 60 ∧ ss < 60 then
        some (Int.ofNat (((daysBefore y m + (d - 1)) * 24 + hh) * 3600 + mm * 60 + ss))
      else none
    | _, _, _, _, _, _ => none
  else none

/-- JSON arrays of canonical uuid strings, written without white space. -/
def parseTagArray (s : String) : Option (List UUID) :=
  let cs := s.toList
  if cs.head? = some '[' ∧ cs.getLast? = some ']' then
    let inner := (cs.drop 1).take (cs.length - 2)
    if inner = [] then some []
    else
      (inner.splitOn ',').foldr (fun item acc =>
        if item.head? = some (Char.ofNat 34) ∧ item.getLast? = some (Char.ofNat 34) ∧ 2 ≤ item.length then
          match parseCanonicalUUID (String.mk ((item.drop 1).take (item.length - 2))), acc with
          | some u, some us => some (u :: us)
          | _, _ => none
        else none) (some [])
  else none

/-- Stand-ins for `uuid.Parse`, `time.Parse(time.RFC3339, _)` and `json.Unmarshal` on the
texts the sample frames carry: canonical uuid text, whole-second UTC instants and compact
arrays of uuid strings. -/
def sampleCodecs : Codecs :=
  { uuidParse := parseCanonicalUUID, timeParse := parseInstant, unmarshalTags := parseTagArray }

/-! ## Sample frames and values -/

/-- Big-endian bytes of a 16-bit value. -/
def u16be (n : Nat) : List Nat := [n / 2 ^ 8 % 256, n % 256]

/-- Big-endian bytes of a 32-bit value. -/
def u32be (n : Nat) : List Nat := [n / 2 ^ 24 % 256, n / 2 ^ 16 % 256, n / 2 ^ 8 % 256, n % 256]

/-- Bytes of an ASCII text. -/
def stringBytes (s : String) : List Nat := s.toList.map Char.toNat

/-- A text column: tag `t`, length, bytes. -/
def textColumn (s : String) : List Nat := 't'.toNat :: (u32be s.length ++ stringBytes s)

/-- A null column: tag `n`. -/
def nullColumn : List Nat := ['n'.toNat]

/-- A tuple section after its marker: column count, then the columns. -/
def tupleData (cols : List (List Nat)) : List Nat := u16be cols.length ++ cols.flatten

/-- Body of an insert or delete message after its tag: relation oid, tuple marker, tuple. -/
def changeBody (oid : Nat) (tupleType : Char) (cols : List (List Nat)) : List Nat :=
  u32be oid ++ [tupleType.toNat] ++ tupleData cols

/-- A CopyData payload: tag `w`, a 24-byte header, the logical message. -/
def xlogFrame (msgType : Char) (body : List Nat) : List Nat :=
  'w'.toNat :: (List.replicate 24 0 ++ msgType.toNat :: body)

/-- The id 11111111-1111-1111-1111-111111111111. -/
def idX : UUID := 0x11111111111111111111111111111111

/-- The filter with only `run_id` set, to `idX`. -/
def filterX : StreamFilter := { RunID := some idX, EnvID := none, Tags := [], CreatedAt := none }

/-- The row of scenario 1, as six text columns. -/
def rowX : List (List Nat) :=
  [textColumn "11111111-1111-1111-1111-111111111111",
   textColumn "22222222-2222-2222-2222-222222222222",
   textColumn "QUEUED", textColumn "2024-01-01T00:00:00Z", textColumn "2024-01-01T00:00:00Z",
   textColumn "[]"]

/-- A live record with id 1, env 2 and tag 7. -/
def runA : RunState :=
  { ID := 1, EnvID := 2, Tags := [7], Status := "QUEUED", UpdatedAt := 0, CreatedAt := 0,
    Seq := 0, Data := ∅ }

/-- The record `runA` as a tombstone. -/
def tombstoneA : RunState :=
  { runA with Status := "deleted" }

/-- A live record with id 2 and env 5. -/
def runB : RunState :=
  { ID := 2, EnvID := 5, Tags := [], Status := "QUEUED", UpdatedAt := 0, CreatedAt := 0,
    Seq := 1, Data := ∅ }

/-- A snapshot that holds `runB` twice, under key 2 and also under key 1. -/
def misfiledSnapshot : Snapshot :=
  { Runs := ((∅ : GoMap RunState).insert 2 runB).insert 1 runB, LSN := "0/0", Timestamp := 0,
    Sequence := 1 }

/-- A snapshot that holds `runB` under its own id. -/
def keyedSnapshot : Snapshot :=
  { Runs := (∅ : GoMap RunState).insert 2 runB, LSN := "0/0", Timestamp := 0, Sequence := 1 }

/-- A new connection with id 9 that filters on env 2. -/
def connE : Connection :=
  NewConnection { RunID := none, EnvID := some 2, Tags := [], CreatedAt := none } "" 9

/-- The content of the channel of the connection registered under `id`; empty when there is
none. -/
def queueOf (sm : StateManager) (id : UUID) : List StreamEvent :=
  ((sm.connections.lookup id).map (fun c => c.Events)).getD []

/-! ## Well-formed tuples and further sample values -/

/-- One column of a tuple as the database sends it: null, or text with its bytes. -/
def encodeColumn : Option (List Nat) → List Nat
  | none => ['n'.toNat]
  | some bytes => 't'.toNat :: (u32be bytes.length ++ bytes)

/-- The columns of a tuple, one after the other. -/
def encodeColumns (cols : List (Option (List Nat))) : List Nat :=
  (cols.map encodeColumn).flatten

/-- The map the column loop is to gather from the columns `cols`, the first of which has
position `i`: each text column stored by the `switch i`, null columns skipped. -/
def storeColumns (acc : Columns) (i : Nat) : List (Option (List Nat)) → Columns
  | [] => acc
  | none :: cols => storeColumns acc (i + 1) cols
  | some bytes :: cols => storeColumns (storeColumn acc i (bytesToString bytes)) (i + 1) cols

/-- The tuple does not end in an empty text column with nothing after it (`rest` is what
follows the tuple in the message). -/
def closedTuple : List (Option (List Nat)) → List Nat → Bool
  | [], _ => true
  | [some []], rest => !rest.isEmpty
  | _ :: cols, rest => closedTuple cols rest

/-- The column count fits 16 bits and every text length fits 32 bits. -/
def fitsWire (cols : List (Option (List Nat))) : Bool :=
  decide (cols.length < 2 ^ 16) &&
    cols.all (fun c => match c with
      | some bytes => decide (bytes.length < 2 ^ 32)
      | none => true)

/-- The keys of the `switch i` of `parseChangeMessage`, by position. -/
def schemaKeys : List String :=
  ["id", "runtime_environment_id", "status", "created_at", "updated_at", "tags"]

/-- The text of column `j` of a tuple, when there is such a column and it is not null. -/
def columnText (cols : List (Option (List Nat))) (j : Nat) : Option String :=
  (cols.getD j none).map bytesToString

/-- The record `changeToRunState` builds from an empty column map. -/
def blankRun (now : Time) : RunState :=
  { ID := 0, EnvID := 0, Tags := [], Status := "", UpdatedAt := now, CreatedAt := 0, Seq := 0,
    Data := ∅ }

/-- The typed fields of a record, tags as a set; the opaque `Data` map is left out. -/
def RunState.typed (run : RunState) :
    UUID × UUID × Finset UUID × String × Time × Time × Nat :=
  (run.ID, run.EnvID, run.Tags.toFinset, run.Status, run.CreatedAt, run.UpdatedAt, run.Seq)

/-- Snapshot `t` carries what snapshot `s` carries, up to the `Data` maps, the order of tags
and the timestamp. -/
def Snapshot.sameTyped (s t : Snapshot) : Prop :=
  t.LSN = s.LSN ∧ t.Sequence = s.Sequence ∧
    ∀ k, (t.Runs.lookup k).map RunState.typed = (s.Runs.lookup k).map RunState.typed

/-- A CopyData payload with a given 24-byte header. -/
def xlogFrameWith (header : List Nat) (msgType : Char) (body : List Nat) : List Nat :=
  'w'.toNat :: (header ++ msgType.toNat :: body)

/-- Body of an update message after its tag, as pgoutput lays it out: relation oid, an
optional old tuple behind its marker `K` or `O`, then `N` and the new tuple. -/
def updateBody (oid : Nat) (old : Option (Char × List (Option (List Nat))))
    (new : List (Option (List Nat))) : List Nat :=
  u32be oid ++
    (match old with
      | some (marker, cols) => marker.toNat :: (u16be cols.length ++ encodeColumns cols)
      | none => []) ++
    'N'.toNat :: (u16be new.length ++ encodeColumns new)

/-- The row of scenario 1, column by column. -/
def colsX : List (Option (List Nat)) :=
  [some (stringBytes "11111111-1111-1111-1111-111111111111"),
   some (stringBytes "22222222-2222-2222-2222-222222222222"),
   some (stringBytes "QUEUED"), some (stringBytes "2024-01-01T00:00:00Z"),
   some (stringBytes "2024-01-01T00:00:05Z"), some (stringBytes "[]")]

/-- The row of scenario 2: the row of scenario 1 with status EXECUTING. -/
def colsExecuting : List (Option (List Nat)) :=
  colsX.set 2 (some (stringBytes "EXECUTING"))

/-- The row of scenario 1 with an empty text in the last column. -/
def colsEmptyLast : List (Option (List Nat)) :=
  colsX.set 5 (some [])

/-- The row of scenario 1 with a seventh column. -/
def colsSeven : List (Option (List Nat)) :=
  colsX ++ [some (stringBytes "extra")]

/-- The row of scenario 1 with one tag, written as a database array literal. -/
def colsLiteralTag : List (Option (List Nat)) :=
  colsX.set 5 (some (stringBytes "\x7b11111111-1111-1111-1111-111111111111\x7d"))

/-- The row of scenario 1 with one tag, written as a JSON array. -/
def colsJsonTag : List (Option (List Nat)) :=
  colsX.set 5 (some (stringBytes "[\x2211111111-1111-1111-1111-111111111111\x22]"))

/-- A 24-byte XLogData header: wal-start 0x16B3710, wal-end 0x16B3748, server clock 0. -/
def walHeader : List Nat :=
  [0, 0, 0, 0, 1, 107, 55, 16] ++ [0, 0, 0, 0, 1, 107, 55, 72] ++ List.replicate 8 0

/-- The row of scenario 2 with its second column sent as unchanged toast (tag `u`). -/
def rowToast : List (List Nat) :=
  (colsExecuting.map encodeColumn).set 1 ['u'.toNat]

/-- The identity serialisation: a byte string is the snapshot itself. -/
def plainCodec : SnapshotCodec Snapshot :=
  { gobEncode := some, compress := id, decompress := some, gobDecode := some }

/-! ## Vocabulary of the properties -/

/-- The calls of claim C1: `UpdateRun`, `RemoveRun`, `AddConnection`, `RemoveConnection`. -/
def Op.isEngineCall : Op → Bool
  | .updateRun _ => true
  | .removeRun _ => true
  | .addConnection _ => true
  | .removeConnection _ => true
  | _ => false

def countUpdates : List Op → Nat
  | [] => 0
  | .updateRun _ :: ops => countUpdates ops + 1
  | _ :: ops => countUpdates ops

/-- The `seq` carried by the record stored under `run.ID` once `UpdateRun sm run` returns. -/
def assignedSeq (sm : StateManager) (run : RunState) : Nat :=
  match (UpdateRun sm run).runs.lookup run.ID with
  | some stored => stored.Seq
  | none => 0

/-- The `seq` values assigned by the `UpdateRun` calls of `ops`, in call order. -/
def assignedSeqs : StateManager → List Op → List Nat
  | _, [] => []
  | sm, .updateRun run :: ops => assignedSeq sm run :: assignedSeqs (UpdateRun sm run) ops
  | sm, op :: ops => assignedSeqs (step sm op) ops


/-- Whether `id` is listed in bucket `k` of an index. -/
def inIndex (idx : GoMap IdSet) (k id : UUID) : Bool :=
  match idx.lookup k with
  | some bucket => decide (id ∈ bucket)
  | none => false


/-- Every record of the snapshot is stored under its own id, as in the snapshots
`CreateSnapshot` writes. -/
def Snapshot.keyed (snapshot : Snapshot) : Bool :=
  snapshot.Runs.entries.all (fun e => e.2.ID == e.1)

/-- Any call but a `RestoreFromSnapshot` of a snapshot that is not keyed by record id. -/
def Op.restoresKeyed : Op → Bool
  | .restore snapshot => snapshot.keyed
  | _ => true

/-- The calls that change the record map: `UpdateRun`, `RemoveRun`, `RestoreFromSnapshot`. -/
def Op.isRecordCall : Op → Bool
  | .updateRun _ => true
  | .removeRun _ => true
  | .restore _ => true
  | _ => false

/-- A record is live when its status is not "deleted". -/
def RunState.live (run : RunState) : Bool :=
  run.Status != "deleted"

/-- Every stored record sits under its own id and is listed in the bucket of its env and
of each of its tags. -/
def RecordsIndexed (sm : StateManager) : Prop :=
  ∀ k r, sm.runs.lookup k = some r →
    r.ID = k ∧ inIndex sm.envIndex r.EnvID r.ID = true ∧
      ∀ t ∈ r.Tags, inIndex sm.tagIndex t r.ID = true


/-- Every registered connection holds at most `eventsCap` events. -/
def QueuesBounded (sm : StateManager) : Prop :=
  ∀ id c, sm.connections.lookup id = some c → c.Events.length ≤ eventsCap

/-- Any call but an `AddConnection` of a connection whose channel already holds events;
`NewConnection` makes the channel empty. -/
def Op.addsFresh : Op → Bool
  | .addConnection conn => conn.Events.isEmpty
  | _ => true

/-- Every stored record sits under its own id and carries a `seq` the counter has reached. -/
def StoreOrdered (sm : StateManager) : Prop :=
  ∀ k r, sm.runs.lookup k = some r → r.ID = k ∧ r.Seq ≤ sm.sequence

/-- No bucket of the index is empty. -/
def NoEmptyBucket (idx : GoMap IdSet) : Prop :=
  ∀ k bucket, idx.lookup k = some bucket → bucket.Nonempty

/-- The state after `runA` and `runB` have been stored. -/
def stateAB : StateManager :=
  exec NewStateManager [Op.updateRun runA, Op.updateRun runB]

/-- A new connection with id 8 and the empty filter. -/
def connAll : Connection :=
  NewConnection { RunID := none, EnvID := none, Tags := [], CreatedAt := none } "" 8

/-- A new connection with id 9 that filters on run 1, env 2 and tags 7 and 7 again. -/
def connFull : Connection :=
  NewConnection { RunID := some 1, EnvID := some 2, Tags := [7, 7], CreatedAt := none } "" 9

/-- The state after 257 records, with ids 0 to 256, have been stored. -/
def crowdedState : StateManager :=
  exec NewStateManager ((List.range 257).map (fun i => Op.updateRun { runB with ID := i }))

/-- Every entry of the record indexes stands for a stored record: an id listed under an env
is the key of a record with that env, an id listed under a tag is the key of a record with
that tag, and no bucket is empty. -/
def IndexSound (sm : StateManager) : Prop :=
  (∀ env id, inIndex sm.envIndex env id = true →
    ∃ r, sm.runs.lookup id = some r ∧ r.EnvID = env) ∧
  (∀ tag id, inIndex sm.tagIndex tag id = true →
    ∃ r, sm.runs.lookup id = some r ∧ tag ∈ r.Tags) ∧
  NoEmptyBucket sm.envIndex ∧ NoEmptyBucket sm.tagIndex

/-- Whether `handleStream` can make the call in state `sm`: it adds a connection made by
`NewConnection`, whose id comes fresh from `uuid.New()` and so is not registered, and its
deferred `RemoveConnection` passes the connection it added, registered with that filter.
The calls of the replication driver and of the snapshot manager are not constrained. -/
def handlerCall (sm : StateManager) : Op → Bool
  | .addConnection conn => (sm.connections.lookup conn.ID).isNone
  | .removeConnection conn =>
    decide ((sm.connections.lookup conn.ID).map (fun c => c.Filter) = some conn.Filter)
  | _ => true

/-- Every call of the sequence is one the program can make in the state it meets. -/
def handlerCalls : StateManager → List Op → Bool
  | _, [] => true
  | sm, op :: ops => handlerCall sm op && handlerCalls (step sm op) ops

/-- Every entry of the subscription indexes stands for a registered connection whose filter
names that run, env or tag, and no bucket is empty. -/
def SubsSound (sm : StateManager) : Prop :=
  (∀ run id, inIndex sm.subByRun run id = true →
    ∃ c, sm.connections.lookup id = some c ∧ c.Filter.RunID = some run) ∧
  (∀ env id, inIndex sm.subByEnv env id = true →
    ∃ c, sm.connections.lookup id = some c ∧ c.Filter.EnvID = some env) ∧
  (∀ tag id, inIndex sm.subByTag tag id = true →
    ∃ c, sm.connections.lookup id = some c ∧ tag ∈ c.Filter.Tags) ∧
  NoEmptyBucket sm.subByRun ∧ NoEmptyBucket sm.subByEnv ∧ NoEmptyBucket sm.subByTag

/-- The recent-event ring of record `id`; empty when the map has no entry. -/
def ringOf (sm : StateManager) (id : UUID) : List StreamEvent :=
  (sm.recentEvents.lookup id).getD []

/-- The delta events the `UpdateRun` calls of `ops` produce for record `id`, in call order:
each is the event `broadcastUpdate` builds from the record once `UpdateRun` has set its
`seq`. -/
def producedFor (id : UUID) : StateManager → List Op → List StreamEvent
  | _, [] => []
  | sm, .updateRun run :: ops =>
    (if run.ID = id then [deltaEvent { run with Seq := (sm.sequence + 1) % 2 ^ 64 }] else [])
      ++ producedFor id (UpdateRun sm run) ops
  | sm, op :: ops => producedFor id (step sm op) ops

/-- Any call but a `RemoveRun` of record `id` or a `RestoreFromSnapshot`. -/
def ringCall (id : UUID) : Op → Bool
  | .removeRun runID => runID != id
  | .restore _ => false
  | _ => true

/-- The last `n` elements of a list, in their order. -/
def lastN {α : Type} (n : Nat) (l : List α) : List α :=
  l.drop (l.length - n)

/-- The number of `UpdateRun` calls for record `id` among `ops`. -/
def countUpdatesFor (id : UUID) : List Op → Nat
  | [] => 0
  | .updateRun run :: ops => (if run.ID = id then 1 else 0) + countUpdatesFor id ops
  | _ :: ops => countUpdatesFor id ops

/-! ## One `handleStream` session, step by step -/

/-- Where the goroutine of `handleStream` stands on its way through `AddConnection(conn)`,
`sendInitialState(conn)` and the stream loop: before `AddConnection`; registered, before
`sendInitialState` calls `GetMatchingRuns`; inside the loop of `sendInitialState`, holding
the records it has read and not yet sent; in the stream loop. -/
inductive Phase where
  | start
  | registered
  | priming (pending : List RunState)
  | streaming

/-- The engine, the position of the handler, and the events the handler has taken off its
channel so far, oldest first. -/
structure Session where
  sm : StateManager
  phase : Phase
  received : List StreamEvent

/-- One scheduling decision: the handler goroutine takes its next step, or the replication
goroutine runs one `UpdateRun` (which holds the write lock for its whole body). -/
inductive Turn where
  | handler
  | update (run : RunState)

/-- The next step of the handler goroutine. `AddConnection`, `GetMatchingRuns` and each
channel operation are steps of their own: `GetMatchingRuns` holds the read lock only while
it collects the records, and the sends of `sendInitialState` run outside the lock, one per
record read, the first send that would block ending the method. In the stream loop a step
takes one event off the channel. The channel is the one of the entry registered under
`conn.ID`, which is there from `AddConnection` on. -/
def handlerTurn (conn : Connection) (s : Session) : Session :=
  match s.phase with
  | .start => { s with sm := AddConnection s.sm conn, phase := .registered }
  | .registered => { s with phase := .priming (GetMatchingRuns s.sm conn.Filter) }
  | .priming [] => { s with phase := .streaming }
  | .priming (run :: rest) =>
    match s.sm.connections.lookup conn.ID with
    | some c =>
      if c.Events.length < eventsCap then
        { s with
          sm := { s.sm with
            connections := s.sm.connections.insert conn.ID
              { c with Events := c.Events ++ [initialEvent run] } }
          phase := .priming rest }
      else { s with phase := .streaming }
    | none => { s with phase := .streaming }
  | .streaming =>
    { s with
      sm := receiveEvent s.sm conn.ID
      received := s.received ++ (queueOf s.sm conn.ID).take 1 }

/-- One turn of the schedule. -/
def turn (conn : Connection) (s : Session) : Turn → Session
  | .handler => handlerTurn conn s
  | .update run => { s with sm := UpdateRun s.sm run }

/-- Run a schedule, first turn first. -/
def runSession (conn : Connection) (s : Session) (turns : List Turn) : Session :=
  turns.foldl (turn conn) s

/-- Every event enqueued on the channel of `conn` so far, in the order of the sends: the
events the handler has received, then the events still in the channel. -/
def Session.enqueued (s : Session) (conn : Connection) : List StreamEvent :=
  s.received ++ queueOf s.sm conn.ID

/-- The number of `UpdateRun` turns of a schedule. -/
def updateTurns : List Turn → Nat
  | [] => 0
  | .update _ :: ts => updateTurns ts + 1
  | .handler :: ts => updateTurns ts

/-- Two events enqueued on one channel, the first earlier: when they concern the same record
id, a later delta event carries a larger `seq` than the earlier event, and a later initial
event is not preceded by another initial event. -/
def EnqueueOrdered (e1 e2 : StreamEvent) : Prop :=
  e1.Data.ID = e2.Data.ID →
    (e2.EventType = "delta" → e1.Data.Seq < e2.Data.Seq) ∧
    (e2.EventType = "initial" → e1.EventType ≠ "initial")

/-- What holds of a session at every point of a schedule: records sit under their own ids
with `seq` values the counter has reached; no enqueued event is ahead of the counter; the
enqueued events are ordered; before `AddConnection` nothing is enqueued; before the read of
`sendInitialState` only delta events are; during the loop the records still to send are
behind the counter, have distinct ids, and none has an initial event yet. -/
def SessionInv (conn : Connection) (s : Session) : Prop :=
  StoreOrdered s.sm ∧
  (∀ e ∈ s.enqueued conn, e.Data.Seq ≤ s.sm.sequence) ∧
  (s.enqueued conn).Pairwise EnqueueOrdered ∧
  match s.phase with
  | .start => s.sm.connections.lookup conn.ID = none ∧ s.received = []
  | .registered => ∀ e ∈ s.enqueued conn, e.EventType = "delta"
  | .priming pending =>
    (∀ r ∈ pending, r.Seq ≤ s.sm.sequence) ∧ pending.Pairwise (fun a b => a.ID ≠ b.ID) ∧
      ∀ e ∈ s.enqueued conn, e.EventType = "initial" → ∀ r ∈ pending, e.Data.ID ≠ r.ID
  | .streaming => True

/-! ## States the program reaches -/

/-- A `RestoreFromSnapshot` call. -/
def Op.isRestore : Op → Bool
  | .restore _ => true
  | _ => false

/-- The states the program reaches. It starts from `NewStateManager`; any call other than
`RestoreFromSnapshot` may follow; `RestoreFromSnapshot` takes what `LoadSnapshot` returns,
the decoding of a file that `CreateSnapshot` wrote from a state the program had reached: a
snapshot with the lsn, the counter and, under every key, the typed record fields of the
snapshot `CreateSnapshot` took. -/
inductive Reachable : StateManager → Prop where
  | fresh : Reachable NewStateManager
  | call (sm : StateManager) (op : Op) :
      Reachable sm → op.isRestore = false → Reachable (step sm op)
  | restore (sm source : StateManager) (lsn : String) (now : Time) (loaded : Snapshot) :
      Reachable sm → Reachable source → (takeSnapshot source lsn now).sameTyped loaded →
      Reachable (RestoreFromSnapshot sm loaded)

/-! ## Frame lemmas -/

@[simp] theorem addToIndexes_runs (sm : StateManager) (r : RunState) :
    (addToIndexes sm r).runs = sm.runs := rfl
@[simp] theorem addToIndexes_sequence (sm : StateManager) (r : RunState) :
    (addToIndexes sm r).sequence = sm.sequence := rfl
@[simp] theorem addToIndexes_connections (sm : StateManager) (r : RunState) :
    (addToIndexes sm r).connections = sm.connections := rfl
@[simp] theorem removeFromIndexes_runs (sm : StateManager) (r : RunState) :
    (removeFromIndexes sm r).runs = sm.runs := rfl
@[simp] theorem removeFromIndexes_sequence (sm : StateManager) (r : RunState) :
    (removeFromIndexes sm r).sequence = sm.sequence := rfl
@[simp] theorem removeFromIndexes_connections (sm : StateManager) (r : RunState) :
    (removeFromIndexes sm r).connections = sm.connections := rfl
@[simp] theorem broadcastUpdate_runs (sm : StateManager) (r : RunState) :
    (broadcastUpdate sm r).runs = sm.runs := rfl
@[simp] theorem broadcastUpdate_sequence (sm : StateManager) (r : RunState) :
    (broadcastUpdate sm r).sequence = sm.sequence := rfl

theorem UpdateRun_sequence (sm : StateManager) (run : RunState) :
    (UpdateRun sm run).sequence = (sm.sequence + 1) % 2 ^ 64 := by
  unfold UpdateRun
  cases h : sm.runs.lookup run.ID <;> simp [h]

theorem UpdateRun_runs (sm : StateManager) (run : RunState) :
    (UpdateRun sm run).runs
      = sm.runs.insert run.ID { run with Seq := (sm.sequence + 1) % 2 ^ 64 } := by
  unfold UpdateRun
  cases h : sm.runs.lookup run.ID <;> simp [h]

theorem RemoveRun_sequence (sm : StateManager) (id : UUID) :
    (RemoveRun sm id).sequence = sm.sequence := by
  unfold RemoveRun
  cases h : sm.runs.lookup id <;> simp

theorem assignedSeq_eq (sm : StateManager) (run : RunState) :
    assignedSeq sm run = (sm.sequence + 1) % 2 ^ 64 := by
  unfold assignedSeq
  rw [UpdateRun_runs, AList.lookup_insert]

theorem step_sequence_engine (sm : StateManager) (op : Op) (h : op.isEngineCall = true) :
    (step sm op).sequence
      = match op with
        | .updateRun _ => (sm.sequence + 1) % 2 ^ 64
        | _ => sm.sequence := by
  cases op <;> simp [Op.isEngineCall] at h
  · exact UpdateRun_sequence sm _
  · exact RemoveRun_sequence sm _
  · rfl
  · rfl

theorem exec_sequence (ops : List Op) :
    ∀ sm : StateManager, (∀ op ∈ ops, op.isEngineCall = true) →
      sm.sequence + countUpdates ops < 2 ^ 64 →
      (exec sm ops).sequence = sm.sequence + countUpdates ops := by
  induction ops with
  | nil => intro sm _ _; simp [exec, countUpdates]
  | cons op ops ih =>
    intro sm hops hn
    have hop := hops op (List.mem_cons_self _ _)
    have hrest : ∀ o ∈ ops, o.isEngineCall = true := fun o ho => hops o (List.mem_cons_of_mem _ ho)
    have hs := step_sequence_engine sm op hop
    have he : exec sm (op :: ops) = exec (step sm op) ops := rfl
    rw [he]
    cases op with
    | updateRun run =>
      simp only [countUpdates] at hn ⊢
      simp only at hs
      have hlt : sm.sequence + 1 < 2 ^ 64 := by omega
      rw [Nat.mod_eq_of_lt hlt] at hs
      rw [ih _ hrest (by rw [hs]; omega), hs]; omega
    | removeRun _ => simp only [countUpdates] at hn ⊢; simp only at hs; rw [ih _ hrest (by rw [hs]; exact hn), hs]
    | addConnection _ => simp only [countUpdates] at hn ⊢; simp only at hs; rw [ih _ hrest (by rw [hs]; exact hn), hs]
    | removeConnection _ => simp only [countUpdates] at hn ⊢; simp only at hs; rw [ih _ hrest (by rw [hs]; exact hn), hs]
    | sendInitial _ => simp [Op.isEngineCall] at hop
    | receive _ => simp [Op.isEngineCall] at hop
    | restore _ => simp [Op.isEngineCall] at hop

theorem assignedSeqs_sorted (ops : List Op) :
    ∀ sm : StateManager, (∀ op ∈ ops, op.isEngineCall = true) →
      sm.sequence + countUpdates ops < 2 ^ 64 →
      (assignedSeqs sm ops).Pairwise (· < ·) ∧ ∀ x ∈ assignedSeqs sm ops, sm.sequence < x := by
  induction ops with
  | nil => intro sm _ _; simp [assignedSeqs]
  | cons op ops ih =>
    intro sm hops hn
    have hop := hops op (List.mem_cons_self _ _)
    have hrest : ∀ o ∈ ops, o.isEngineCall = true := fun o ho => hops o (List.mem_cons_of_mem _ ho)
    have hs := step_sequence_engine sm op hop
    cases op with
    | updateRun run =>
      simp only [countUpdates] at hn
      simp only [step] at hs
      have hlt : sm.sequence + 1 < 2 ^ 64 := by omega
      rw [Nat.mod_eq_of_lt hlt] at hs
      obtain ⟨h1, h2⟩ := ih (UpdateRun sm run) hrest (by rw [hs]; omega)
      simp only [assignedSeqs, assignedSeq_eq, Nat.mod_eq_of_lt hlt]
      refine ⟨List.pairwise_cons.mpr ⟨fun x hx => ?_, h1⟩, fun x hx => ?_⟩
      · have := h2 x hx; omega
      · rcases List.mem_cons.mp hx with h | h
        · omega
        · have := h2 x h; omega
    | removeRun id =>
      simp only [countUpdates] at hn; simp only at hs
      have := ih (step sm (.removeRun id)) hrest (by rw [hs]; exact hn)
      simpa [assignedSeqs, hs] using this
    | addConnection c =>
      simp only [countUpdates] at hn; simp only at hs
      have := ih (step sm (.addConnection c)) hrest (by rw [hs]; exact hn)
      simpa [assignedSeqs, hs] using this
    | removeConnection c =>
      simp only [countUpdates] at hn; simp only at hs
      have := ih (step sm (.removeConnection c)) hrest (by rw [hs]; exact hn)
      simpa [assignedSeqs, hs] using this
    | sendInitial _ => simp [Op.isEngineCall] at hop
    | receive _ => simp [Op.isEngineCall] at hop
    | restore _ => simp [Op.isEngineCall] at hop

/-! ## Index membership -/

theorem inIndex_empty (k id : UUID) : inIndex ∅ k id = false := by
  simp [inIndex]

theorem inIndex_indexAdd (idx : GoMap IdSet) (k id k' id' : UUID) :
    inIndex (indexAdd idx k id) k' id' = true ↔
      (k' = k ∧ id' = id) ∨ inIndex idx k' id' = true := by
  unfold indexAdd inIndex
  by_cases hk : k' = k
  · subst hk
    cases h : idx.lookup k' <;> simp [h, AList.lookup_insert]
  · cases h : idx.lookup k <;> simp [AList.lookup_insert_ne hk, hk]

theorem inIndex_indexRemove (idx : GoMap IdSet) (k id k' id' : UUID) :
    inIndex (indexRemove idx k id) k' id' = true ↔
      inIndex idx k' id' = true ∧ ¬ (k' = k ∧ id' = id) := by
  unfold indexRemove inIndex
  by_cases hk : k' = k
  · subst hk
    cases h : idx.lookup k' with
    | none => simp [h]
    | some bucket =>
      by_cases hc : (bucket.erase id).card = 0
      · have he : bucket.erase id = ∅ := Finset.card_eq_zero.mp hc
        have : id' ∈ bucket → id' = id := by
          intro hm
          by_contra hne
          have : id' ∈ bucket.erase id := Finset.mem_erase.mpr ⟨hne, hm⟩
          rw [he] at this
          exact absurd this (Finset.not_mem_empty _)
        simp only [hc, if_true, AList.lookup_erase, h]
        simp
        exact this
      · simp only [hc, if_false, AList.lookup_insert, h]
        simp [Finset.mem_erase]
        tauto
  · cases h : idx.lookup k with
    | none => simp [h, hk]
    | some bucket =>
      by_cases hc : (bucket.erase id).card = 0
      · simp only [hc, if_true, AList.lookup_erase_ne hk]
        simp [hk]
      · simp only [hc, if_false, AList.lookup_insert_ne hk]
        simp [hk]

theorem inIndex_foldl_indexAdd (tags : List UUID) (id k' id' : UUID) :
    ∀ idx : GoMap IdSet,
      inIndex (tags.foldl (fun idx tag => indexAdd idx tag id) idx) k' id' = true ↔
        (k' ∈ tags ∧ id' = id) ∨ inIndex idx k' id' = true := by
  induction tags with
  | nil => intro idx; simp
  | cons t ts ih =>
    intro idx
    simp only [List.foldl_cons, ih, inIndex_indexAdd, List.mem_cons]
    tauto

theorem inIndex_foldl_indexRemove (tags : List UUID) (id k' id' : UUID) :
    ∀ idx : GoMap IdSet,
      inIndex (tags.foldl (fun idx tag => indexRemove idx tag id) idx) k' id' = true ↔
        inIndex idx k' id' = true ∧ ¬ (k' ∈ tags ∧ id' = id) := by
  induction tags with
  | nil => intro idx; simp
  | cons t ts ih =>
    intro idx
    simp only [List.foldl_cons, ih, inIndex_indexRemove, List.mem_cons]
    tauto

/-! ## Records are indexed -/

@[simp] theorem broadcastUpdate_envIndex (sm : StateManager) (r : RunState) :
    (broadcastUpdate sm r).envIndex = sm.envIndex := rfl
@[simp] theorem broadcastUpdate_tagIndex (sm : StateManager) (r : RunState) :
    (broadcastUpdate sm r).tagIndex = sm.tagIndex := rfl

theorem inIndex_addToIndexes_env (sm : StateManager) (run : RunState) (k id : UUID) :
    inIndex (addToIndexes sm run).envIndex k id = true ↔
      (k = run.EnvID ∧ id = run.ID) ∨ inIndex sm.envIndex k id = true := by
  simp only [addToIndexes, inIndex_indexAdd]

theorem inIndex_addToIndexes_tag (sm : StateManager) (run : RunState) (k id : UUID) :
    inIndex (addToIndexes sm run).tagIndex k id = true ↔
      (k ∈ run.Tags ∧ id = run.ID) ∨ inIndex sm.tagIndex k id = true := by
  simp only [addToIndexes, inIndex_foldl_indexAdd]

theorem inIndex_removeFromIndexes_env (sm : StateManager) (run : RunState) (k id : UUID) :
    inIndex (removeFromIndexes sm run).envIndex k id = true ↔
      inIndex sm.envIndex k id = true ∧ ¬ (k = run.EnvID ∧ id = run.ID) := by
  simp only [removeFromIndexes, inIndex_indexRemove]

theorem inIndex_removeFromIndexes_tag (sm : StateManager) (run : RunState) (k id : UUID) :
    inIndex (removeFromIndexes sm run).tagIndex k id = true ↔
      inIndex sm.tagIndex k id = true ∧ ¬ (k ∈ run.Tags ∧ id = run.ID) := by
  simp only [removeFromIndexes, inIndex_foldl_indexRemove]

theorem recordsIndexed_new : RecordsIndexed NewStateManager := by
  intro k r h
  simp [NewStateManager] at h

theorem recordsIndexed_UpdateRun (sm : StateManager) (run : RunState)
    (h : RecordsIndexed sm) : RecordsIndexed (UpdateRun sm run) := by
  intro k r hk
  rw [UpdateRun_runs] at hk
  by_cases hkey : k = run.ID
  · subst hkey
    rw [AList.lookup_insert] at hk
    cases hk
    unfold UpdateRun
    cases hl : sm.runs.lookup run.ID <;>
      simp [hl, inIndex_addToIndexes_env, inIndex_addToIndexes_tag] <;>
      exact fun t ht => Or.inl ht
  · rw [AList.lookup_insert_ne hkey] at hk
    obtain ⟨hid, henv, htag⟩ := h k r hk
    have hne : r.ID ≠ run.ID := by rw [hid]; exact hkey
    unfold UpdateRun
    cases hl : sm.runs.lookup run.ID with
    | none =>
      simp only [hl, broadcastUpdate_envIndex, broadcastUpdate_tagIndex,
        inIndex_addToIndexes_env, inIndex_addToIndexes_tag]
      exact ⟨hid, Or.inr henv, fun t ht => Or.inr (htag t ht)⟩
    | some existing =>
      have hex : existing.ID = run.ID := (h _ _ hl).1
      simp only [hl, broadcastUpdate_envIndex, broadcastUpdate_tagIndex,
        inIndex_addToIndexes_env, inIndex_addToIndexes_tag]
      refine ⟨hid, Or.inr ?_, fun t ht => Or.inr ?_⟩
      · exact (inIndex_removeFromIndexes_env _ _ _ _).mpr
          ⟨henv, fun hc => hne (hc.2.trans hex)⟩
      · exact (inIndex_removeFromIndexes_tag _ _ _ _).mpr
          ⟨htag t ht, fun hc => hne (hc.2.trans hex)⟩

theorem recordsIndexed_RemoveRun (sm : StateManager) (runID : UUID)
    (h : RecordsIndexed sm) : RecordsIndexed (RemoveRun sm runID) := by
  unfold RemoveRun
  cases hl : sm.runs.lookup runID with
  | none => exact h
  | some existing =>
    have hex : existing.ID = runID := (h _ _ hl).1
    intro k r hk
    simp only [removeFromIndexes_runs] at hk
    by_cases hkey : k = runID
    · subst hkey; simp [AList.lookup_erase] at hk
    · rw [AList.lookup_erase_ne hkey] at hk
      obtain ⟨hid, henv, htag⟩ := h k r hk
      have hne : r.ID ≠ existing.ID := by rw [hid, hex]; exact hkey
      refine ⟨hid, ?_, fun t ht => ?_⟩
      · exact (inIndex_removeFromIndexes_env _ _ _ _).mpr ⟨henv, fun hc => hne hc.2⟩
      · exact (inIndex_removeFromIndexes_tag _ _ _ _).mpr ⟨htag t ht, fun hc => hne hc.2⟩

theorem foldl_addToIndexes_runs (es : List (Σ _ : UUID, RunState)) :
    ∀ sm : StateManager, (es.foldl (fun sm e => addToIndexes sm e.2) sm).runs = sm.runs := by
  induction es with
  | nil => intro sm; rfl
  | cons e es ih => intro sm; simp only [List.foldl_cons, ih, addToIndexes_runs]

theorem foldl_addToIndexes_indexed (es : List (Σ _ : UUID, RunState)) :
    ∀ sm : StateManager, ∀ e ∈ es,
      inIndex (es.foldl (fun sm e => addToIndexes sm e.2) sm).envIndex e.2.EnvID e.2.ID = true ∧
      ∀ t ∈ e.2.Tags,
        inIndex (es.foldl (fun sm e => addToIndexes sm e.2) sm).tagIndex t e.2.ID = true := by
  have keep : ∀ (es : List (Σ _ : UUID, RunState)) (sm : StateManager) (k id : UUID),
      (inIndex sm.envIndex k id = true →
        inIndex (es.foldl (fun sm e => addToIndexes sm e.2) sm).envIndex k id = true) ∧
      (inIndex sm.tagIndex k id = true →
        inIndex (es.foldl (fun sm e => addToIndexes sm e.2) sm).tagIndex k id = true) := by
    intro es
    induction es with
    | nil => intro sm k id; exact ⟨fun h => h, fun h => h⟩
    | cons e es ih =>
      intro sm k id
      simp only [List.foldl_cons]
      exact ⟨fun h => (ih _ k id).1 ((inIndex_addToIndexes_env _ _ _ _).mpr (Or.inr h)),
        fun h => (ih _ k id).2 ((inIndex_addToIndexes_tag _ _ _ _).mpr (Or.inr h))⟩
  induction es with
  | nil => intro sm e he; simp at he
  | cons e0 es ih =>
    intro sm e he
    simp only [List.foldl_cons]
    rcases List.mem_cons.mp he with rfl | hmem
    · exact ⟨(keep es _ _ _).1 ((inIndex_addToIndexes_env _ _ _ _).mpr (Or.inl ⟨rfl, rfl⟩)),
        fun t ht => (keep es _ _ _).2 ((inIndex_addToIndexes_tag _ _ _ _).mpr (Or.inl ⟨ht, rfl⟩))⟩
    · exact ih _ e hmem

theorem recordsIndexed_Restore (sm : StateManager) (snapshot : Snapshot)
    (hk : snapshot.keyed = true) : RecordsIndexed (RestoreFromSnapshot sm snapshot) := by
  intro k r hl
  unfold RestoreFromSnapshot at hl ⊢
  simp only [foldl_addToIndexes_runs] at hl
  have hmem : (⟨k, r⟩ : Σ _ : UUID, RunState) ∈ snapshot.Runs.entries :=
    AList.mem_lookup_iff.mp hl
  have hkey : r.ID = k := by
    have := List.all_eq_true.mp hk ⟨k, r⟩ hmem
    simpa using this
  exact ⟨hkey, foldl_addToIndexes_indexed _ _ ⟨k, r⟩ hmem⟩

theorem recordsIndexed_step (sm : StateManager) (op : Op) (hop : op.restoresKeyed = true)
    (h : RecordsIndexed sm) : RecordsIndexed (step sm op) := by
  cases op with
  | updateRun run => exact recordsIndexed_UpdateRun sm run h
  | removeRun id => exact recordsIndexed_RemoveRun sm id h
  | addConnection c => exact h
  | removeConnection c => exact h
  | sendInitial c =>
    simp only [step, sendInitialState]
    cases sm.connections.lookup c.ID <;> exact h
  | receive id =>
    simp only [step, receiveEvent]
    cases sm.connections.lookup id <;> exact h
  | restore snapshot => exact recordsIndexed_Restore sm snapshot hop

theorem recordsIndexed_exec (ops : List Op) :
    ∀ sm : StateManager, (∀ op ∈ ops, op.restoresKeyed = true) → RecordsIndexed sm →
      RecordsIndexed (exec sm ops) := by
  induction ops with
  | nil => intro sm _ h; exact h
  | cons op ops ih =>
    intro sm hops h
    exact ih (step sm op) (fun o ho => hops o (List.mem_cons_of_mem _ ho))
      (recordsIndexed_step sm op (hops op (List.mem_cons_self _ _)) h)

/-! ## Subscriber queues -/

theorem lookup_mapValues {V : Type} (f : V → V) (m : GoMap V) (k : UUID) :
    (mapValues f m).lookup k = (m.lookup k).map f := by
  obtain ⟨es, nd⟩ := m
  simp only [mapValues, AList.lookup]
  clear nd
  induction es with
  | nil => simp
  | cons e es ih =>
    obtain ⟨k0, v0⟩ := e
    by_cases hk : k = k0
    · subst hk; simp [List.dlookup_cons_eq]
    · have h1 : k ≠ (⟨k0, v0⟩ : Σ _ : UUID, V).1 := hk
      have h2 : k ≠ (⟨k0, f v0⟩ : Σ _ : UUID, V).1 := hk
      rw [List.map_cons, List.dlookup_cons_ne _ _ h2, List.dlookup_cons_ne _ _ h1]
      exact ih

@[simp] theorem matchesFilter_seq (run : RunState) (n : Nat) (filter : StreamFilter) :
    matchesFilter { run with Seq := n } filter = matchesFilter run filter := rfl

theorem UpdateRun_connections (sm : StateManager) (run : RunState) (id : UUID) :
    (UpdateRun sm run).connections.lookup id
      = (sm.connections.lookup id).map (fun conn =>
          if matchesFilter run conn.Filter
          then { conn with
                 Events := trySend conn.Events
                   (deltaEvent { run with Seq := (sm.sequence + 1) % 2 ^ 64 }) }
          else conn) := by
  unfold UpdateRun
  cases h : sm.runs.lookup run.ID <;>
    simp [h, broadcastUpdate, lookup_mapValues]

theorem RemoveRun_connections (sm : StateManager) (id : UUID) :
    (RemoveRun sm id).connections = sm.connections := by
  unfold RemoveRun
  cases h : sm.runs.lookup id <;> simp

theorem foldl_addToIndexes_connections (es : List (Σ _ : UUID, RunState)) :
    ∀ sm : StateManager,
      (es.foldl (fun sm e => addToIndexes sm e.2) sm).connections = sm.connections := by
  induction es with
  | nil => intro sm; rfl
  | cons e es ih => intro sm; simp only [List.foldl_cons, ih, addToIndexes_connections]

theorem Restore_connections (sm : StateManager) (snapshot : Snapshot) :
    (RestoreFromSnapshot sm snapshot).connections = sm.connections := by
  unfold RestoreFromSnapshot
  rw [foldl_addToIndexes_connections]

theorem trySend_length_le (ch : List StreamEvent) (e : StreamEvent)
    (h : ch.length ≤ eventsCap) : (trySend ch e).length ≤ eventsCap := by
  unfold trySend
  split
  · simp; omega
  · exact h

theorem sendInitialLoop_length_le (runs : List RunState) :
    ∀ ch : List StreamEvent, ch.length ≤ eventsCap →
      (sendInitialLoop runs ch).length ≤ eventsCap := by
  induction runs with
  | nil => intro ch h; simpa [sendInitialLoop] using h
  | cons r rs ih =>
    intro ch h
    unfold sendInitialLoop
    split
    · apply ih; simp; omega
    · exact h

theorem queuesBounded_step (sm : StateManager) (op : Op) (hop : op.addsFresh = true)
    (h : QueuesBounded sm) : QueuesBounded (step sm op) := by
  intro id c hl
  cases op with
  | updateRun run =>
    simp only [step, UpdateRun_connections] at hl
    cases hc : sm.connections.lookup id with
    | none => simp [hc] at hl
    | some c0 =>
      simp only [hc, Option.map_some', Option.some.injEq] at hl
      have h0 := h id c0 hc
      subst hl
      split
      · exact trySend_length_le _ _ h0
      · exact h0
  | removeRun rid =>
    simp only [step, RemoveRun_connections] at hl
    exact h id c hl
  | addConnection conn =>
    simp only [step, AddConnection] at hl
    by_cases hk : id = conn.ID
    · subst hk
      rw [AList.lookup_insert] at hl
      cases hl
      simp only [Op.addsFresh, List.isEmpty_iff] at hop
      simp [hop]
    · rw [AList.lookup_insert_ne hk] at hl
      exact h id c hl
  | removeConnection conn =>
    simp only [step, RemoveConnection] at hl
    by_cases hk : id = conn.ID
    · subst hk; simp [AList.lookup_erase] at hl
    · rw [AList.lookup_erase_ne hk] at hl
      exact h id c hl
  | sendInitial conn =>
    simp only [step, sendInitialState] at hl
    cases hc : sm.connections.lookup conn.ID with
    | none => simp only [hc] at hl; exact h id c hl
    | some c0 =>
      simp only [hc] at hl
      by_cases hk : id = conn.ID
      · subst hk
        rw [AList.lookup_insert] at hl
        cases hl
        exact sendInitialLoop_length_le _ _ (h _ c0 hc)
      · rw [AList.lookup_insert_ne hk] at hl
        exact h id c hl
  | receive cid =>
    simp only [step, receiveEvent] at hl
    cases hc : sm.connections.lookup cid with
    | none => simp only [hc] at hl; exact h id c hl
    | some c0 =>
      simp only [hc] at hl
      by_cases hk : id = cid
      · subst hk
        rw [AList.lookup_insert] at hl
        cases hl
        have := h _ c0 hc
        simp only [List.length_drop]
        omega
      · rw [AList.lookup_insert_ne hk] at hl
        exact h id c hl
  | restore snapshot =>
    simp only [step, Restore_connections] at hl
    exact h id c hl

theorem queuesBounded_exec (ops : List Op) :
    ∀ sm : StateManager, (∀ op ∈ ops, op.addsFresh = true) → QueuesBounded sm →
      QueuesBounded (exec sm ops) := by
  induction ops with
  | nil => intro sm _ h; exact h
  | cons op ops ih =>
    intro sm hops h
    exact ih (step sm op) (fun o ho => hops o (List.mem_cons_of_mem _ ho))
      (queuesBounded_step sm op (hops op (List.mem_cons_self _ _)) h)

/-! ## Order of the events of one subscriber -/

theorem storeOrdered_UpdateRun (sm : StateManager) (u : RunState)
    (hn : sm.sequence + 1 < 2 ^ 64) (h : StoreOrdered sm) : StoreOrdered (UpdateRun sm u) := by
  intro k r hl
  rw [UpdateRun_runs, Nat.mod_eq_of_lt hn] at hl
  rw [UpdateRun_sequence, Nat.mod_eq_of_lt hn]
  by_cases hk : k = u.ID
  · subst hk
    rw [AList.lookup_insert] at hl
    cases hl
    exact ⟨rfl, le_refl _⟩
  · rw [AList.lookup_insert_ne hk] at hl
    exact ⟨(h k r hl).1, Nat.le_succ_of_le (h k r hl).2⟩

theorem storeOrdered_RemoveRun (sm : StateManager) (runID : UUID) (h : StoreOrdered sm) :
    StoreOrdered (RemoveRun sm runID) := by
  unfold RemoveRun
  cases hl : sm.runs.lookup runID with
  | none => exact h
  | some existing =>
    intro k r hk
    simp only [removeFromIndexes_runs] at hk
    by_cases hkey : k = runID
    · subst hkey; simp [AList.lookup_erase] at hk
    · rw [AList.lookup_erase_ne hkey] at hk
      exact h k r hk

/-- Every state reached from `NewStateManager` by `UpdateRun`, `RemoveRun`, `AddConnection`
and `RemoveConnection` calls that do not wrap the counter keeps its records under their own
ids, with `seq` values the counter has reached. -/
theorem storeOrdered_exec (ops : List Op) :
    ∀ sm : StateManager, (∀ op ∈ ops, op.isEngineCall = true) →
      sm.sequence + countUpdates ops < 2 ^ 64 → StoreOrdered sm → StoreOrdered (exec sm ops) := by
  induction ops with
  | nil => intro sm _ _ h; exact h
  | cons op ops ih =>
    intro sm hops hn h
    have hop := hops op (List.mem_cons_self _ _)
    have hrest : ∀ o ∈ ops, o.isEngineCall = true := fun o ho => hops o (List.mem_cons_of_mem _ ho)
    have hs := step_sequence_engine sm op hop
    have he : exec sm (op :: ops) = exec (step sm op) ops := rfl
    rw [he]
    cases op with
    | updateRun run =>
      simp only [countUpdates] at hn
      simp only at hs
      have hlt : sm.sequence + 1 < 2 ^ 64 := by omega
      rw [Nat.mod_eq_of_lt hlt] at hs
      exact ih _ hrest (by rw [hs]; omega) (storeOrdered_UpdateRun sm run hlt h)
    | removeRun id =>
      simp only [countUpdates] at hn; simp only at hs
      exact ih _ hrest (by rw [hs]; exact hn) (storeOrdered_RemoveRun sm id h)
    | addConnection c =>
      simp only [countUpdates] at hn; simp only at hs
      exact ih _ hrest (by rw [hs]; exact hn) h
    | removeConnection c =>
      simp only [countUpdates] at hn; simp only at hs
      exact ih _ hrest (by rw [hs]; exact hn) h
    | sendInitial _ => simp [Op.isEngineCall] at hop
    | receive _ => simp [Op.isEngineCall] at hop
    | restore _ => simp [Op.isEngineCall] at hop

theorem trySend_cases (ch : List StreamEvent) (e : StreamEvent) :
    trySend ch e = ch ∨ trySend ch e = ch ++ [e] := by
  unfold trySend
  split
  · exact Or.inr rfl
  · exact Or.inl rfl

/-- What `UpdateRun` leaves in the queue of a registered connection: the old content, or the
old content followed by the delta event of the stamped record. -/
theorem UpdateRun_queue (sm : StateManager) (u : RunState) (cid : UUID) (c : Connection)
    (hc : sm.connections.lookup cid = some c) :
    ∃ c', (UpdateRun sm u).connections.lookup cid = some c' ∧
      (c'.Events = c.Events ∨
        c'.Events = c.Events ++ [deltaEvent { u with Seq := (sm.sequence + 1) % 2 ^ 64 }]) := by
  rw [UpdateRun_connections, hc]
  simp only [Option.map_some']
  split
  · exact ⟨_, rfl, trySend_cases _ _⟩
  · exact ⟨_, rfl, Or.inl rfl⟩

theorem GetMatchingRuns_stored (sm : StateManager) (filter : StreamFilter)
    (hs : StoreOrdered sm) :
    (∀ r ∈ GetMatchingRuns sm filter, sm.runs.lookup r.ID = some r) ∧
    (GetMatchingRuns sm filter).Pairwise (fun a b => a.ID ≠ b.ID) := by
  have hkey : ∀ e ∈ sm.runs.entries, e.2.ID = e.1 ∧ sm.runs.lookup e.1 = some e.2 := by
    rintro ⟨k, r⟩ he
    have hl : sm.runs.lookup k = some r := AList.mem_lookup_iff.mpr he
    exact ⟨(hs k r hl).1, hl⟩
  constructor
  · intro r hr
    unfold GetMatchingRuns at hr
    simp only [List.mem_map, List.mem_filter] at hr
    obtain ⟨e, ⟨he, _⟩, rfl⟩ := hr
    rw [(hkey e he).1]
    exact (hkey e he).2
  · unfold GetMatchingRuns
    rw [List.pairwise_map]
    apply List.Pairwise.filter
    have hp := List.nodupKeys_iff_pairwise.mp sm.runs.nodupKeys
    refine List.Pairwise.imp_of_mem ?_ hp
    intro a b ha hb hne
    rw [(hkey a ha).1, (hkey b hb).1]
    exact hne

/-- What `UpdateRun` leaves in the channel registered under an id: the old content, or the
old content followed by the delta event of the stamped record. -/
theorem queueOf_UpdateRun (sm : StateManager) (u : RunState) (cid : UUID) :
    queueOf (UpdateRun sm u) cid = queueOf sm cid ∨
      queueOf (UpdateRun sm u) cid
        = queueOf sm cid ++ [deltaEvent { u with Seq := (sm.sequence + 1) % 2 ^ 64 }] := by
  unfold queueOf
  cases hc : sm.connections.lookup cid with
  | none =>
    left
    rw [UpdateRun_connections, hc]
    rfl
  | some c =>
    obtain ⟨c', hc', hq⟩ := UpdateRun_queue sm u cid c hc
    rw [hc']
    simpa using hq

theorem queueOf_receiveEvent (sm : StateManager) (cid : UUID) :
    queueOf (receiveEvent sm cid) cid = (queueOf sm cid).drop 1 := by
  unfold receiveEvent queueOf
  cases hc : sm.connections.lookup cid with
  | none => simp [hc]
  | some c => simp [AList.lookup_insert]

theorem storeOrdered_receiveEvent (sm : StateManager) (cid : UUID) (h : StoreOrdered sm) :
    StoreOrdered (receiveEvent sm cid) := by
  unfold receiveEvent
  cases sm.connections.lookup cid <;> exact h

theorem receiveEvent_sequence (sm : StateManager) (cid : UUID) :
    (receiveEvent sm cid).sequence = sm.sequence := by
  unfold receiveEvent
  cases sm.connections.lookup cid <;> rfl

theorem sessionInv_update (conn : Connection) (s : Session) (run : RunState)
    (hn : s.sm.sequence + 1 < 2 ^ 64) (h : SessionInv conn s) :
    SessionInv conn (turn conn s (.update run)) ∧
      (turn conn s (.update run)).sm.sequence = s.sm.sequence + 1 := by
  obtain ⟨hs, hb, hp, hph⟩ := h
  have hseq : (UpdateRun s.sm run).sequence = s.sm.sequence + 1 := by
    rw [UpdateRun_sequence, Nat.mod_eq_of_lt hn]
  have hq := queueOf_UpdateRun s.sm run conn.ID
  rw [Nat.mod_eq_of_lt hn] at hq
  refine ⟨?_, hseq⟩
  have hlog : (turn conn s (.update run)).enqueued conn = s.enqueued conn ∨
      (turn conn s (.update run)).enqueued conn
        = s.enqueued conn ++ [deltaEvent { run with Seq := s.sm.sequence + 1 }] := by
    simp only [turn, Session.enqueued]
    rcases hq with hq | hq
    · left; rw [hq]
    · right; rw [hq, List.append_assoc]
  have hphase : (turn conn s (.update run)).phase = s.phase := rfl
  have hsm : (turn conn s (.update run)).sm = UpdateRun s.sm run := rfl
  have hrec : (turn conn s (.update run)).received = s.received := rfl
  refine ⟨by rw [hsm]; exact storeOrdered_UpdateRun s.sm run hn hs, ?_, ?_, ?_⟩
  · rw [hsm, hseq]
    rcases hlog with hl | hl <;> rw [hl]
    · exact fun e he => Nat.le_succ_of_le (hb e he)
    · intro e he
      rcases List.mem_append.mp he with he | he
      · exact Nat.le_succ_of_le (hb e he)
      · simp only [List.mem_singleton] at he
        subst he
        exact le_refl _
  · rcases hlog with hl | hl <;> rw [hl]
    · exact hp
    · refine List.pairwise_append.mpr ⟨hp, List.pairwise_singleton _ _, ?_⟩
      intro a ha b hb'
      simp only [List.mem_singleton] at hb'
      subst hb'
      intro _
      refine ⟨fun _ => Nat.lt_succ_of_le (hb a ha), ?_⟩
      intro hty
      simp [deltaEvent] at hty
  · rw [hphase]
    cases hp' : s.phase with
    | start =>
      rw [hp'] at hph
      refine ⟨?_, hph.2⟩
      rw [hsm, UpdateRun_connections, hph.1]
      rfl
    | registered =>
      rw [hp'] at hph
      show ∀ e ∈ (turn conn s (.update run)).enqueued conn, e.EventType = "delta"
      rcases hlog with hl | hl <;> rw [hl]
      · exact hph
      · intro e he
        rcases List.mem_append.mp he with he | he
        · exact hph e he
        · simp only [List.mem_singleton] at he
          subst he; rfl
    | priming pending =>
      rw [hp'] at hph
      obtain ⟨h1, h2, h3⟩ := hph
      refine ⟨?_, h2, ?_⟩
      · intro r hr
        rw [hsm, hseq]
        exact Nat.le_succ_of_le (h1 r hr)
      · rcases hlog with hl | hl <;> rw [hl]
        · exact h3
        · intro e he
          rcases List.mem_append.mp he with he | he
          · exact h3 e he
          · simp only [List.mem_singleton] at he
            subst he
            intro hty
            simp [deltaEvent] at hty
    | streaming => trivial

theorem sessionInv_handler (conn : Connection) (s : Session) (hfresh : conn.Events = [])
    (h : SessionInv conn s) :
    SessionInv conn (turn conn s .handler) ∧
      (turn conn s .handler).sm.sequence = s.sm.sequence := by
  obtain ⟨hs, hb, hp, hph⟩ := h
  simp only [turn, handlerTurn]
  cases hp' : s.phase with
  | start =>
    rw [hp'] at hph
    have hq : queueOf (AddConnection s.sm conn) conn.ID = [] := by
      simp [queueOf, AddConnection, AList.lookup_insert, hfresh]
    refine ⟨⟨hs, ?_, ?_, ?_⟩, rfl⟩
    · simp [Session.enqueued, hq, hph.2]
    · simp [Session.enqueued, hq, hph.2]
    · simp [Session.enqueued, hq, hph.2]
  | registered =>
    rw [hp'] at hph
    obtain ⟨hst, hdis⟩ := GetMatchingRuns_stored s.sm conn.Filter hs
    refine ⟨⟨hs, hb, hp, ?_, hdis, ?_⟩, rfl⟩
    · intro r hr
      exact (hs _ _ (hst r hr)).2
    · intro e he hty
      have := hph e he
      rw [this] at hty
      exact absurd hty (by decide)
  | priming pending =>
    rw [hp'] at hph
    obtain ⟨h1, h2, h3⟩ := hph
    cases pending with
    | nil => exact ⟨⟨hs, hb, hp, trivial⟩, rfl⟩
    | cons run rest =>
      simp only
      cases hc : s.sm.connections.lookup conn.ID with
      | none => exact ⟨⟨hs, hb, hp, trivial⟩, rfl⟩
      | some c =>
        simp only
        split
        · have hq0 : queueOf s.sm conn.ID = c.Events := by simp [queueOf, hc]
          have hlog : Session.enqueued
              { s with
                sm := { s.sm with
                  connections := s.sm.connections.insert conn.ID
                    { c with Events := c.Events ++ [initialEvent run] } }
                phase := Phase.priming rest } conn
              = s.enqueued conn ++ [initialEvent run] := by
            simp [Session.enqueued, queueOf, AList.lookup_insert, hc]
          refine ⟨⟨hs, ?_, ?_, ?_⟩, rfl⟩
          · rw [hlog]
            intro e he
            rcases List.mem_append.mp he with he | he
            · exact hb e he
            · simp only [List.mem_singleton] at he
              subst he
              exact h1 run (List.mem_cons_self _ _)
          · rw [hlog]
            refine List.pairwise_append.mpr ⟨hp, List.pairwise_singleton _ _, ?_⟩
            intro a ha b hb'
            simp only [List.mem_singleton] at hb'
            subst hb'
            intro hid
            refine ⟨fun hty => ?_, fun _ hta => ?_⟩
            · simp [initialEvent] at hty
            · exact h3 a ha hta run (List.mem_cons_self _ _) hid
          · refine ⟨fun r hr => h1 r (List.mem_cons_of_mem _ hr), (List.pairwise_cons.mp h2).2, ?_⟩
            rw [hlog]
            intro e he hty r hr
            rcases List.mem_append.mp he with he | he
            · exact h3 e he hty r (List.mem_cons_of_mem _ hr)
            · simp only [List.mem_singleton] at he
              subst he
              exact (List.pairwise_cons.mp h2).1 r hr
        · exact ⟨⟨hs, hb, hp, trivial⟩, rfl⟩
  | streaming =>
    show SessionInv conn
        { sm := receiveEvent s.sm conn.ID, phase := Phase.streaming,
          received := s.received ++ (queueOf s.sm conn.ID).take 1 } ∧
      (receiveEvent s.sm conn.ID).sequence = s.sm.sequence
    have hlog : Session.enqueued
        { sm := receiveEvent s.sm conn.ID, phase := Phase.streaming,
          received := s.received ++ (queueOf s.sm conn.ID).take 1 } conn
        = s.enqueued conn := by
      simp only [Session.enqueued, queueOf_receiveEvent, List.append_assoc,
        List.take_append_drop]
    refine ⟨⟨storeOrdered_receiveEvent _ _ hs, ?_, ?_, trivial⟩, receiveEvent_sequence _ _⟩
    · show ∀ e ∈ Session.enqueued _ conn, e.Data.Seq ≤ (receiveEvent s.sm conn.ID).sequence
      rw [hlog, receiveEvent_sequence]
      exact hb
    · show (Session.enqueued _ conn).Pairwise EnqueueOrdered
      rw [hlog]; exact hp

theorem sessionInv_run (conn : Connection) (hfresh : conn.Events = []) (turns : List Turn) :
    ∀ s : Session, s.sm.sequence + updateTurns turns < 2 ^ 64 → SessionInv conn s →
      SessionInv conn (runSession conn s turns) := by
  induction turns with
  | nil => intro s _ h; exact h
  | cons t ts ih =>
    intro s hn h
    have he : runSession conn s (t :: ts) = runSession conn (turn conn s t) ts := rfl
    rw [he]
    cases t with
    | handler =>
      simp only [updateTurns] at hn
      obtain ⟨a, b⟩ := sessionInv_handler conn s hfresh h
      exact ih _ (by rw [b]; exact hn) a
    | update run =>
      simp only [updateTurns] at hn
      obtain ⟨a, b⟩ := sessionInv_update conn s run (by omega) h
      exact ih _ (by rw [b]; omega) a

/-- The loop of the handler run with no `UpdateRun` in between leaves in the channel what
`sendInitialLoop` computes. -/
theorem priming_alone (conn : Connection) (received : List StreamEvent)
    (pending : List RunState) :
    ∀ (sm : StateManager) (c : Connection), sm.connections.lookup conn.ID = some c →
      ∃ n, (runSession conn { sm := sm, phase := .priming pending, received := received }
              (List.replicate n Turn.handler)).phase = Phase.streaming ∧
        (runSession conn { sm := sm, phase := .priming pending, received := received }
              (List.replicate n Turn.handler)).received = received ∧
        queueOf (runSession conn { sm := sm, phase := .priming pending, received := received }
              (List.replicate n Turn.handler)).sm conn.ID = sendInitialLoop pending c.Events ∧
        (runSession conn { sm := sm, phase := .priming pending, received := received }
              (List.replicate n Turn.handler)).sm.runs = sm.runs ∧
        (runSession conn { sm := sm, phase := .priming pending, received := received }
              (List.replicate n Turn.handler)).sm.sequence = sm.sequence := by
  induction pending with
  | nil =>
    intro sm c hc
    refine ⟨1, rfl, rfl, ?_, rfl, rfl⟩
    show queueOf sm conn.ID = c.Events
    simp [queueOf, hc]
  | cons run rest ih =>
    intro sm c hc
    by_cases hlen : c.Events.length < eventsCap
    · have hstep : turn conn { sm := sm, phase := .priming (run :: rest), received := received }
          Turn.handler
          = { sm := { sm with
                connections := sm.connections.insert conn.ID
                  { c with Events := c.Events ++ [initialEvent run] } },
              phase := .priming rest, received := received } := by
        simp only [turn, handlerTurn, hc, if_pos hlen]
      obtain ⟨n, h1, h2, h3, h4, h5⟩ := ih
        { sm with
          connections := sm.connections.insert conn.ID
            { c with Events := c.Events ++ [initialEvent run] } }
        { c with Events := c.Events ++ [initialEvent run] } (AList.lookup_insert _)
      refine ⟨n + 1, ?_⟩
      have hrun : runSession conn
          { sm := sm, phase := .priming (run :: rest), received := received }
          (List.replicate (n + 1) Turn.handler)
          = runSession conn
              { sm := { sm with
                  connections := sm.connections.insert conn.ID
                    { c with Events := c.Events ++ [initialEvent run] } },
                phase := .priming rest, received := received }
              (List.replicate n Turn.handler) := by
        rw [List.replicate_succ]
        show runSession conn (turn conn _ Turn.handler) _ = _
        rw [hstep]
      rw [hrun]
      refine ⟨h1, h2, ?_, h4, h5⟩
      rw [h3]
      simp only [sendInitialLoop, if_pos hlen]
    · have hstep : turn conn { sm := sm, phase := .priming (run :: rest), received := received }
          Turn.handler
          = { sm := sm, phase := .streaming, received := received } := by
        simp only [turn, handlerTurn, hc, if_neg hlen]
      refine ⟨1, ?_⟩
      have hrun : runSession conn
          { sm := sm, phase := .priming (run :: rest), received := received }
          (List.replicate 1 Turn.handler)
          = { sm := sm, phase := .streaming, received := received } := hstep
      rw [hrun]
      refine ⟨rfl, rfl, ?_, rfl, rfl⟩
      simp [queueOf, hc, sendInitialLoop, if_neg hlen]

/-- Run with no `UpdateRun` in between, the steps of the handler from the call of
`sendInitialState` to its return leave the channel, the records and the counter as the
method `sendInitialState` does. -/
theorem handler_alone_is_sendInitialState (conn : Connection) (received : List StreamEvent)
    (sm : StateManager) (c : Connection) (hc : sm.connections.lookup conn.ID = some c) :
    ∃ n, (runSession conn { sm := sm, phase := .registered, received := received }
            (List.replicate n Turn.handler)).phase = Phase.streaming ∧
      queueOf (runSession conn { sm := sm, phase := .registered, received := received }
            (List.replicate n Turn.handler)).sm conn.ID
        = queueOf (sendInitialState sm conn) conn.ID ∧
      (runSession conn { sm := sm, phase := .registered, received := received }
            (List.replicate n Turn.handler)).sm.runs = (sendInitialState sm conn).runs ∧
      (runSession conn { sm := sm, phase := .registered, received := received }
            (List.replicate n Turn.handler)).sm.sequence
        = (sendInitialState sm conn).sequence := by
  obtain ⟨n, h1, _, h3, h4, h5⟩ :=
    priming_alone conn received (GetMatchingRuns sm conn.Filter) sm c hc
  refine ⟨n + 1, ?_⟩
  have hrun : runSession conn { sm := sm, phase := .registered, received := received }
      (List.replicate (n + 1) Turn.handler)
      = runSession conn
          { sm := sm, phase := .priming (GetMatchingRuns sm conn.Filter), received := received }
          (List.replicate n Turn.handler) := by
    rw [List.replicate_succ]
    rfl
  rw [hrun]
  refine ⟨h1, ?_, ?_, ?_⟩
  · rw [h3]
    simp [sendInitialState, hc, queueOf, AList.lookup_insert]
  · rw [h4]; simp [sendInitialState, hc]
  · rw [h5]; simp [sendInitialState, hc]

/-! ## Decoder on well-formed tuples -/

theorem be16_u16be (n : Nat) (h : n < 2 ^ 16) : be16 (n / 2 ^ 8 % 256) (n % 256) = n := by
  unfold be16
  have h1 : n / 2 ^ 8 % 256 = n / 256 := by
    have : n / 2 ^ 8 < 256 := by omega
    omega
  have hb : n % 256 < 2 ^ 8 := by omega
  rw [h1, Nat.shiftLeft_eq, Nat.mul_comm, ← Nat.mul_add_lt_is_or hb]
  omega

theorem be32_u32be (n : Nat) (h : n < 2 ^ 32) :
    be32 (n / 2 ^ 24 % 256) (n / 2 ^ 16 % 256) (n / 2 ^ 8 % 256) (n % 256) = n := by
  unfold be32
  have e3 : (n / 2 ^ 24 % 256) <<< 24 = 2 ^ 24 * (n / 2 ^ 24 % 256) := by
    rw [Nat.shiftLeft_eq, Nat.mul_comm]
  have e2 : (n / 2 ^ 16 % 256) <<< 16 = 2 ^ 16 * (n / 2 ^ 16 % 256) := by
    rw [Nat.shiftLeft_eq, Nat.mul_comm]
  have e1 : (n / 2 ^ 8 % 256) <<< 8 = 2 ^ 8 * (n / 2 ^ 8 % 256) := by
    rw [Nat.shiftLeft_eq, Nat.mul_comm]
  have hb0 : n % 256 < 2 ^ 8 := by omega
  have hb1 : 2 ^ 8 * (n / 2 ^ 8 % 256) + n % 256 < 2 ^ 16 := by omega
  have hb2 : 2 ^ 16 * (n / 2 ^ 16 % 256) + (2 ^ 8 * (n / 2 ^ 8 % 256) + n % 256) < 2 ^ 24 := by
    omega
  have s1 : 2 ^ 8 * (n / 2 ^ 8 % 256) ||| n % 256
      = 2 ^ 8 * (n / 2 ^ 8 % 256) + n % 256 := (Nat.mul_add_lt_is_or hb0 _).symm
  have s2 : 2 ^ 16 * (n / 2 ^ 16 % 256) ||| (2 ^ 8 * (n / 2 ^ 8 % 256) + n % 256)
      = 2 ^ 16 * (n / 2 ^ 16 % 256) + (2 ^ 8 * (n / 2 ^ 8 % 256) + n % 256) :=
    (Nat.mul_add_lt_is_or hb1 _).symm
  have s3 : 2 ^ 24 * (n / 2 ^ 24 % 256)
        ||| (2 ^ 16 * (n / 2 ^ 16 % 256) + (2 ^ 8 * (n / 2 ^ 8 % 256) + n % 256))
      = 2 ^ 24 * (n / 2 ^ 24 % 256)
        + (2 ^ 16 * (n / 2 ^ 16 % 256) + (2 ^ 8 * (n / 2 ^ 8 % 256) + n % 256)) :=
    (Nat.mul_add_lt_is_or hb2 _).symm
  rw [e3, e2, e1, Nat.lor_assoc, Nat.lor_assoc, s1, s2, s3]
  omega

theorem index_eq {data : List Nat} {pos x : Nat} (h : data[pos]? = some x) :
    index data pos = Outcome.ok x := by
  simp [index, h]

theorem getElem?_append_add (pre l : List Nat) (k : Nat) :
    (pre ++ l)[pre.length + k]? = l[k]? := by
  rw [List.getElem?_append_right (by omega)]
  congr 1
  omega

theorem index_append (pre l : List Nat) (k x : Nat) (h : l[k]? = some x) :
    index (pre ++ l) (pre.length + k) = Outcome.ok x :=
  index_eq (by rw [getElem?_append_add, h])

theorem slice_append (pre bs tail : List Nat) (k : Nat) (l : List Nat)
    (hl : l.length = k) :
    slice (pre ++ (l ++ (bs ++ tail))) (pre.length + k) (pre.length + k + bs.length)
      = Outcome.ok bs := by
  unfold slice
  have h1 : pre.length + k ≤ pre.length + k + bs.length ∧
      pre.length + k + bs.length ≤ (pre ++ (l ++ (bs ++ tail))).length := by
    simp only [List.length_append]
    omega
  rw [if_pos h1]
  congr 1
  have h2 : (pre ++ (l ++ (bs ++ tail))).drop (pre.length + k) = bs ++ tail := by
    rw [← List.append_assoc, List.drop_left' (by simp [hl])]
  rw [h2]
  have h3 : pre.length + k + bs.length - (pre.length + k) = bs.length := by omega
  rw [h3, List.take_left']
  rfl

theorem parseColumns_null (pre tail : List Nat) (n i : Nat) (acc : Columns) :
    parseColumns (pre ++ 'n'.toNat :: tail) (n + 1) i pre.length acc
      = parseColumns (pre ++ 'n'.toNat :: tail) n (i + 1) (pre.length + 1) acc := by
  rw [parseColumns]
  have hlt : pre.length < (pre ++ 'n'.toNat :: tail).length := by simp
  have hi : index (pre ++ 'n'.toNat :: tail) pre.length = Outcome.ok 'n'.toNat :=
    index_append pre _ 0 _ (by simp)
  simp only [hlt, if_true, bind, Outcome.bind, pure, hi, ge_iff_le]
  exact if_neg (Nat.not_le.mpr hlt)

theorem parseColumns_text (pre bs tail : List Nat) (n i : Nat) (acc : Columns)
    (hlen : bs.length < 2 ^ 32) (hmore : 0 < bs.length + tail.length) :
    parseColumns (pre ++ ('t'.toNat :: u32be bs.length ++ (bs ++ tail))) (n + 1) i pre.length acc
      = parseColumns (pre ++ ('t'.toNat :: u32be bs.length ++ (bs ++ tail))) n (i + 1)
          (pre.length + 5 + bs.length) (storeColumn acc i (bytesToString bs)) := by
  rw [parseColumns]
  have hlt : pre.length < (pre ++ ('t'.toNat :: u32be bs.length ++ (bs ++ tail))).length := by
    simp
  have hL : (pre ++ ('t'.toNat :: u32be bs.length ++ (bs ++ tail))).length
      = pre.length + 5 + bs.length + tail.length := by
    simp [u32be]; omega
  have hi0 : index (pre ++ ('t'.toNat :: u32be bs.length ++ (bs ++ tail))) pre.length
      = Outcome.ok 't'.toNat := index_append pre _ 0 _ (by simp)
  have hi1 : index (pre ++ ('t'.toNat :: u32be bs.length ++ (bs ++ tail))) (pre.length + 1)
      = Outcome.ok (bs.length / 2 ^ 24 % 256) := index_append pre _ 1 _ (by simp [u32be])
  have hi2 : index (pre ++ ('t'.toNat :: u32be bs.length ++ (bs ++ tail))) (pre.length + 1 + 1)
      = Outcome.ok (bs.length / 2 ^ 16 % 256) := index_append pre _ 2 _ (by simp [u32be])
  have hi3 : index (pre ++ ('t'.toNat :: u32be bs.length ++ (bs ++ tail))) (pre.length + 1 + 2)
      = Outcome.ok (bs.length / 2 ^ 8 % 256) := index_append pre _ 3 _ (by simp [u32be])
  have hi4 : index (pre ++ ('t'.toNat :: u32be bs.length ++ (bs ++ tail))) (pre.length + 1 + 3)
      = Outcome.ok (bs.length % 256) := index_append pre _ 4 _ (by simp [u32be])
  have hs : slice (pre ++ ('t'.toNat :: u32be bs.length ++ (bs ++ tail))) (pre.length + 1 + 4)
      (pre.length + 1 + 4 + bs.length) = Outcome.ok bs := by
    have := slice_append pre bs tail 5 ('t'.toNat :: u32be bs.length) (by simp [u32be])
    simpa [Nat.add_assoc] using this
  have hne : ¬ ('t'.toNat = 'n'.toNat) := by decide
  have h5 : ¬ (pre.length + 1 + 4 ≥ pre.length + 5 + bs.length + tail.length) := by omega
  have h6 : ¬ (pre.length + 1 + 4 + bs.length > pre.length + 5 + bs.length + tail.length) := by
    omega
  have h7 : pre.length + 1 + 4 + bs.length = pre.length + 5 + bs.length := by omega
  simp only [hlt, if_true, bind, Outcome.bind, pure, hi0, hi1, hi2, hi3, hi4, hne, if_false,
    ge_iff_le, be32_u32be _ hlen, hL, hs, h5, h6, h7]
  rw [if_pos (by omega), if_neg (by omega)]


theorem encodeColumn_ne_nil (c : Option (List Nat)) : encodeColumn c ≠ [] := by
  cases c <;> simp [encodeColumn]

theorem parseColumns_wellFormed (cols : List (Option (List Nat))) :
    ∀ (pre rest : List Nat) (i : Nat) (acc : Columns),
      (∀ bs, some bs ∈ cols → bs.length < 2 ^ 32) →
      closedTuple cols rest = true →
      parseColumns (pre ++ (encodeColumns cols ++ rest)) cols.length i pre.length acc
        = Outcome.ok (storeColumns acc i cols) := by
  induction cols with
  | nil => intro pre rest i acc _ _; rfl
  | cons c cs ih =>
    intro pre rest i acc hlen hclosed
    have hlen' : ∀ bs, some bs ∈ cs → bs.length < 2 ^ 32 :=
      fun bs h => hlen bs (List.mem_cons_of_mem _ h)
    have henc : encodeColumns (c :: cs) = encodeColumn c ++ encodeColumns cs := by
      simp [encodeColumns]
    cases c with
    | none =>
      have hclosed' : closedTuple cs rest = true := by
        cases cs with
        | nil => rfl
        | cons c' cs' => simpa [closedTuple] using hclosed
      have hd : pre ++ (encodeColumns (none :: cs) ++ rest)
          = pre ++ 'n'.toNat :: (encodeColumns cs ++ rest) := by
        rw [henc]; rfl
      have hd' : pre ++ 'n'.toNat :: (encodeColumns cs ++ rest)
          = (pre ++ ['n'.toNat]) ++ (encodeColumns cs ++ rest) := by simp
      rw [hd, List.length_cons, parseColumns_null, hd']
      have := ih (pre ++ ['n'.toNat]) rest (i + 1) acc hlen' hclosed'
      simpa [storeColumns] using this
    | some bs =>
      have hb : bs.length < 2 ^ 32 := hlen bs (List.mem_cons_self _ _)
      have hmore : 0 < bs.length + (encodeColumns cs ++ rest).length := by
        cases cs with
        | nil =>
          cases bs with
          | nil =>
            simp [closedTuple] at hclosed
            have : 0 < rest.length := List.length_pos.mpr hclosed
            simp [encodeColumns]; omega
          | cons b bs => simp
        | cons c' cs' =>
          have : encodeColumn c' ≠ [] := encodeColumn_ne_nil c'
          have : 0 < (encodeColumn c').length := List.length_pos.mpr this
          simp [encodeColumns]; omega
      have hclosed' : closedTuple cs rest = true := by
        cases cs with
        | nil => rfl
        | cons c' cs' =>
          cases bs <;> simp [closedTuple] at hclosed ⊢ <;> exact hclosed
      have hd : pre ++ (encodeColumns (some bs :: cs) ++ rest)
          = pre ++ ('t'.toNat :: u32be bs.length ++ (bs ++ (encodeColumns cs ++ rest))) := by
        rw [henc]; simp [encodeColumn]
      have hd' : pre ++ ('t'.toNat :: u32be bs.length ++ (bs ++ (encodeColumns cs ++ rest)))
          = (pre ++ ('t'.toNat :: u32be bs.length ++ bs)) ++ (encodeColumns cs ++ rest) := by
        simp
      have hl : (pre ++ ('t'.toNat :: u32be bs.length ++ bs)).length
          = pre.length + 5 + bs.length := by
        simp [u32be]; omega
      rw [hd, List.length_cons, parseColumns_text pre bs _ _ i acc hb hmore, hd', ← hl]
      have := ih (pre ++ ('t'.toNat :: u32be bs.length ++ bs)) rest (i + 1)
        (storeColumn acc i (bytesToString bs)) hlen' hclosed'
      simpa [storeColumns] using this

theorem parseChangeMessage_shape (operation : String) (data : List Nat) (change : TaskRunChange)
    (h : parseChangeMessage operation data = Outcome.ok change) :
    change.LSN = "" ∧ change.Operation = operation ∧ change.New.isSome = true ∧
      change.Old.isSome = true := by
  unfold parseChangeMessage at h
  simp only [bind, Outcome.bind, pure] at h
  repeat' split at h
  all_goals first
    | (cases h; done)
    | (cases h; exact ⟨rfl, rfl, rfl, rfl⟩)

theorem fitsWire_text (cols : List (Option (List Nat))) (h : fitsWire cols = true) :
    ∀ bs, some bs ∈ cols → bs.length < 2 ^ 32 := by
  intro bs hbs
  simp only [fitsWire, Bool.and_eq_true, List.all_eq_true] at h
  simpa using h.2 (some bs) hbs

theorem fitsWire_count (cols : List (Option (List Nat))) (h : fitsWire cols = true) :
    cols.length < 2 ^ 16 := by
  simp only [fitsWire, Bool.and_eq_true] at h
  simpa using h.1

/-- On a well-formed insert body whose tuple does not end in an empty text, the decoder
returns the columns of the tuple, each text column under the key of its position. -/
theorem parseChangeMessage_insert (oid : Nat) (cols : List (Option (List Nat)))
    (hfit : fitsWire cols = true) (hclosed : closedTuple cols [] = true) :
    parseChangeMessage "INSERT" (changeBody oid 'N' (cols.map encodeColumn))
      = Outcome.ok { Operation := "INSERT", Old := some ∅,
                     New := some (storeColumns ∅ 0 cols), LSN := "" } := by
  have hn := fitsWire_count cols hfit
  have hdata : changeBody oid 'N' (cols.map encodeColumn)
      = (u32be oid ++ ['N'.toNat] ++ u16be cols.length) ++ (encodeColumns cols ++ []) := by
    simp [changeBody, tupleData, encodeColumns]
  have hpre : (u32be oid ++ ['N'.toNat] ++ u16be cols.length).length = 7 := by
    simp [u32be, u16be]
  cases cols with
  | nil => rfl
  | cons c cs =>
    have hpc := parseColumns_wellFormed (c :: cs) (u32be oid ++ ['N'.toNat] ++ u16be (c :: cs).length)
      [] 0 ∅ (fitsWire_text _ hfit) hclosed
    rw [hpre] at hpc
    have hne : encodeColumn c ≠ [] := encodeColumn_ne_nil c
    have hpos : 0 < (encodeColumn c).length := List.length_pos.mpr hne
    have hlen : 7 < (changeBody oid 'N' ((c :: cs).map encodeColumn)).length := by
      rw [hdata]
      simp only [List.length_append, hpre, encodeColumns, List.map_cons, List.flatten_cons]
      omega
    unfold parseChangeMessage
    have h4 : ¬ ((changeBody oid 'N' ((c :: cs).map encodeColumn)).length < 4) := by omega
    have h7 : ¬ (0 + 4 + 1 + 2 ≥ (changeBody oid 'N' ((c :: cs).map encodeColumn)).length) := by
      omega
    have hix : ∀ k x, (u32be oid ++ ['N'.toNat] ++ u16be (c :: cs).length)[k]? = some x →
        index (changeBody oid 'N' ((c :: cs).map encodeColumn)) k = Outcome.ok x := by
      intro k x hk
      apply index_eq
      rw [hdata]
      have hk7 : k < 7 := by
        rw [← hpre]
        exact (List.getElem?_eq_some_iff.mp hk).1
      rw [List.getElem?_append_left (by omega), hk]
    have i0 := hix 0 _ (by simp [u32be]; rfl)
    have i1 := hix 1 _ (by simp [u32be]; rfl)
    have i2 := hix 2 _ (by simp [u32be]; rfl)
    have i3 := hix 3 _ (by simp [u32be]; rfl)
    have i4 := hix 4 ('N'.toNat) (by simp [u32be])
    have i5 := hix 5 _ (by simp [u32be, u16be]; rfl)
    have i6 := hix 6 _ (by simp [u32be, u16be]; rfl)
    have hN : ¬ ('N'.toNat ≠ 'N'.toNat) := by simp
    have hop1 : ¬ ("INSERT" = "UPDATE") := by decide
    have hop2 : ¬ ("INSERT" = "DELETE") := by decide
    simp only [bind, Outcome.bind, pure, h4, if_false, i0, i1, i2, i3, hop1, Nat.zero_add, i4,
      hN, h7, i5, i6, hop2]
    have hb : be16 ((cs.length + 1) / 256 % 256) ((cs.length + 1) % 256) = (c :: cs).length := by
      have := be16_u16be (cs.length + 1) (by simpa using hn)
      simpa using this
    rw [← hdata] at hpc
    rw [hb, show 4 + 1 + 2 = 7 from rfl, hpc]


/-- What `handleInsert` stores for a well-formed insert body: the record built from the
gathered columns. -/
theorem handleInsert_wellFormed (lib : Codecs) (now : Time) (sm : StateManager) (oid : Nat)
    (cols : List (Option (List Nat))) (hfit : fitsWire cols = true)
    (hclosed : closedTuple cols [] = true) :
    handleCopyData lib now sm (xlogFrame 'I' (changeBody oid 'N' (cols.map encodeColumn)))
      = Outcome.ok (UpdateRun sm
          { UpdatedAt := now
            Data := storeColumns ∅ 0 cols
            ID := (((storeColumns ∅ 0 cols).lookup "id").bind lib.uuidParse).getD 0
            EnvID := (((storeColumns ∅ 0 cols).lookup "runtime_environment_id").bind
              lib.uuidParse).getD 0
            Status := ((storeColumns ∅ 0 cols).lookup "status").getD ""
            CreatedAt := (((storeColumns ∅ 0 cols).lookup "created_at").bind lib.timeParse).getD 0
            Tags := (((storeColumns ∅ 0 cols).lookup "tags").bind lib.unmarshalTags).getD []
            Seq := 0 }) := by
  have hp := parseChangeMessage_insert oid cols hfit hclosed
  have hframe : handleCopyData lib now sm
      (xlogFrame 'I' (changeBody oid 'N' (cols.map encodeColumn)))
      = handleInsert lib now sm (changeBody oid 'N' (cols.map encodeColumn)) := by
    simp [handleCopyData, xlogFrame, index, handleXLogData, parseLogicalMessage, bind,
      Outcome.bind, pure]
  rw [hframe]
  simp only [handleInsert, bind, Outcome.bind, hp, changeToRunState, pure]

theorem storeColumn_eq (acc : Columns) (i : Nat) (text : String) :
    storeColumn acc i text
      = match schemaKeys[i]? with
        | some key => acc.insert key text
        | none => acc := by
  match i with
  | 0 | 1 | 2 | 3 | 4 | 5 => rfl
  | n + 6 => rfl

theorem schemaKeys_injective (i j : Nat) (ki kj : String) (hi : schemaKeys[i]? = some ki)
    (hj : schemaKeys[j]? = some kj) (hne : i ≠ j) : ki ≠ kj := by
  have hi6 : i < 6 := (List.getElem?_eq_some_iff.mp hi).1
  have hj6 : j < 6 := (List.getElem?_eq_some_iff.mp hj).1
  interval_cases i <;> interval_cases j <;> simp [schemaKeys] at hi hj hne ⊢ <;>
    (subst hi; subst hj; decide)

theorem lookup_storeColumn_ne (acc : Columns) (i j : Nat) (text key : String)
    (hj : schemaKeys[j]? = some key) (hne : i ≠ j) :
    (storeColumn acc i text).lookup key = acc.lookup key := by
  rw [storeColumn_eq]
  cases hi : schemaKeys[i]? with
  | none => rfl
  | some ki =>
    have : key ≠ ki := (schemaKeys_injective i j ki key hi hj hne).symm
    simp only [AList.lookup_insert_ne this]

theorem lookup_storeColumn_self (acc : Columns) (j : Nat) (text key : String)
    (hj : schemaKeys[j]? = some key) :
    (storeColumn acc j text).lookup key = some text := by
  rw [storeColumn_eq, hj]
  simp only [AList.lookup_insert]

theorem lookup_storeColumns (cols : List (Option (List Nat))) (j : Nat) (key : String)
    (hj : schemaKeys[j]? = some key) :
    ∀ (acc : Columns) (i : Nat),
      (storeColumns acc i cols).lookup key
        = if i ≤ j then
            match cols.getD (j - i) none with
            | some bytes => some (bytesToString bytes)
            | none => acc.lookup key
          else acc.lookup key := by
  induction cols with
  | nil => intro acc i; simp [storeColumns]
  | cons c cs ih =>
    intro acc i
    rcases Nat.lt_trichotomy i j with hlt | heq | hgt
    · have e : j - i = (j - (i + 1)) + 1 := by omega
      cases c with
      | none =>
        simp only [storeColumns, ih, if_pos (show i + 1 ≤ j by omega), if_pos (Nat.le_of_lt hlt)]
        rw [e, List.getD_cons_succ]
      | some bs =>
        simp only [storeColumns, ih, if_pos (show i + 1 ≤ j by omega), if_pos (Nat.le_of_lt hlt)]
        rw [e, List.getD_cons_succ, lookup_storeColumn_ne acc i j _ key hj (by omega)]
    · subst heq
      cases c with
      | none =>
        simp [storeColumns, ih]
      | some bs =>
        simp [storeColumns, ih, lookup_storeColumn_self acc i _ key hj]
    · cases c with
      | none =>
        simp only [storeColumns, ih, if_neg (show ¬ (i + 1 ≤ j) by omega),
          if_neg (show ¬ (i ≤ j) by omega)]
      | some bs =>
        simp only [storeColumns, ih, if_neg (show ¬ (i + 1 ≤ j) by omega),
          if_neg (show ¬ (i ≤ j) by omega)]
        exact lookup_storeColumn_ne acc i j _ key hj (by omega)

/-- The gathered map holds, under the key of position `j`, the text of column `j`, and
nothing when that column is null or lacking. -/
theorem lookup_storeColumns_zero (cols : List (Option (List Nat))) (j : Nat) (key : String)
    (hj : schemaKeys[j]? = some key) :
    (storeColumns ∅ 0 cols).lookup key = columnText cols j := by
  rw [lookup_storeColumns cols j key hj ∅ 0]
  simp only [Nat.zero_le, if_true, Nat.sub_zero, columnText]
  cases cols.getD j none <;> simp

theorem storeColumns_keys (cols : List (Option (List Nat))) :
    ∀ (acc : Columns) (i : Nat) (key : String), key ∈ (storeColumns acc i cols).keys →
      key ∈ acc.keys ∨ key ∈ schemaKeys := by
  induction cols with
  | nil => intro acc i key h; exact Or.inl h
  | cons c cs ih =>
    intro acc i key h
    cases c with
    | none => exact ih acc (i + 1) key h
    | some bs =>
      rcases ih _ (i + 1) key h with h1 | h1
      · rw [storeColumn_eq] at h1
        cases hi : schemaKeys[i]? with
        | none => rw [hi] at h1; exact Or.inl h1
        | some ki =>
          rw [hi] at h1
          simp only [AList.keys_insert, List.mem_cons] at h1
          rcases h1 with rfl | h1
          · obtain ⟨hlt, hget⟩ := List.getElem?_eq_some_iff.mp hi
            exact Or.inr (hget ▸ List.getElem_mem hlt)
          · exact Or.inl (List.mem_of_mem_erase h1)
      · exact Or.inr h1

theorem storeColumns_beyond (cols extra : List (Option (List Nat))) :
    ∀ (acc : Columns) (i : Nat), 6 ≤ i + cols.length →
      storeColumns acc i (cols ++ extra) = storeColumns acc i cols := by
  induction cols with
  | nil =>
    intro acc i h
    simp only [List.length_nil, Nat.add_zero] at h
    simp only [List.nil_append, storeColumns]
    induction extra generalizing acc i with
    | nil => rfl
    | cons c cs ih2 =>
      cases c with
      | none => simpa [storeColumns] using ih2 acc (i + 1) (by omega)
      | some bs =>
        have hs : storeColumn acc i (bytesToString bs) = acc := by
          rw [storeColumn_eq]
          have : schemaKeys[i]? = none := by
            apply List.getElem?_eq_none
            simp [schemaKeys]; omega
          rw [this]
        simpa [storeColumns, hs] using ih2 acc (i + 1) (by omega)
  | cons c cs ih =>
    intro acc i h
    simp only [List.length_cons] at h
    cases c with
    | none => simpa [storeColumns] using ih acc (i + 1) (by omega)
    | some bs => simpa [storeColumns] using ih _ (i + 1) (by omega)

/-! ## Snapshot restore -/

theorem foldl_addToIndexes_sequence (es : List (Σ _ : UUID, RunState)) :
    ∀ sm : StateManager, (es.foldl (fun sm e => addToIndexes sm e.2) sm).sequence = sm.sequence := by
  induction es with
  | nil => intro sm; rfl
  | cons e es ih => intro sm; simp only [List.foldl_cons, ih, addToIndexes_sequence]

theorem foldl_addToIndexes_subs (es : List (Σ _ : UUID, RunState)) :
    ∀ sm : StateManager,
      (es.foldl (fun sm e => addToIndexes sm e.2) sm).subByRun = sm.subByRun ∧
      (es.foldl (fun sm e => addToIndexes sm e.2) sm).subByEnv = sm.subByEnv ∧
      (es.foldl (fun sm e => addToIndexes sm e.2) sm).subByTag = sm.subByTag ∧
      (es.foldl (fun sm e => addToIndexes sm e.2) sm).recentEvents = sm.recentEvents := by
  induction es with
  | nil => intro sm; exact ⟨rfl, rfl, rfl, rfl⟩
  | cons e es ih => intro sm; simpa [addToIndexes] using ih (addToIndexes sm e.2)

theorem foldl_addToIndexes_inIndex (es : List (Σ _ : UUID, RunState)) (k id : UUID) :
    ∀ sm : StateManager,
      (inIndex (es.foldl (fun sm e => addToIndexes sm e.2) sm).envIndex k id = true ↔
        (∃ e ∈ es, e.2.EnvID = k ∧ e.2.ID = id) ∨ inIndex sm.envIndex k id = true) ∧
      (inIndex (es.foldl (fun sm e => addToIndexes sm e.2) sm).tagIndex k id = true ↔
        (∃ e ∈ es, k ∈ e.2.Tags ∧ e.2.ID = id) ∨ inIndex sm.tagIndex k id = true) := by
  induction es with
  | nil => intro sm; simp
  | cons e es ih =>
    intro sm
    simp only [List.foldl_cons, (ih _).1, (ih _).2, inIndex_addToIndexes_env,
      inIndex_addToIndexes_tag, List.mem_cons, exists_eq_or_imp]
    constructor
    · constructor
      · rintro (h | ⟨h1, h2⟩ | h)
        · exact Or.inl (Or.inr h)
        · exact Or.inl (Or.inl ⟨h1.symm, h2.symm⟩)
        · exact Or.inr h
      · rintro ((⟨h1, h2⟩ | h) | h)
        · exact Or.inr (Or.inl ⟨h1.symm, h2.symm⟩)
        · exact Or.inl h
        · exact Or.inr (Or.inr h)
    · constructor
      · rintro (h | ⟨h1, h2⟩ | h)
        · exact Or.inl (Or.inr h)
        · exact Or.inl (Or.inl ⟨h1, h2.symm⟩)
        · exact Or.inr h
      · rintro ((⟨h1, h2⟩ | h) | h)
        · exact Or.inr (Or.inl ⟨h1, h2.symm⟩)
        · exact Or.inl h
        · exact Or.inr (Or.inr h)

theorem noEmptyBucket_indexAdd (idx : GoMap IdSet) (k id : UUID) (h : NoEmptyBucket idx) :
    NoEmptyBucket (indexAdd idx k id) := by
  intro k' b hb
  unfold indexAdd at hb
  by_cases hk : k' = k
  · subst hk
    cases hl : idx.lookup k' with
    | none =>
      simp only [hl, AList.lookup_insert, Option.some.injEq] at hb
      subst hb; exact Finset.singleton_nonempty _
    | some b0 =>
      simp only [hl, AList.lookup_insert, Option.some.injEq] at hb
      subst hb; exact Finset.insert_nonempty _ _
  · cases hl : idx.lookup k with
    | none =>
      simp only [hl, AList.lookup_insert_ne hk] at hb
      exact h k' b hb
    | some b0 =>
      simp only [hl, AList.lookup_insert_ne hk] at hb
      exact h k' b hb

theorem noEmptyBucket_foldl_indexAdd (tags : List UUID) (id : UUID) :
    ∀ idx : GoMap IdSet, NoEmptyBucket idx →
      NoEmptyBucket (tags.foldl (fun idx tag => indexAdd idx tag id) idx) := by
  induction tags with
  | nil => intro idx h; exact h
  | cons t ts ih => intro idx h; exact ih _ (noEmptyBucket_indexAdd idx t id h)

theorem noEmptyBucket_foldl_addToIndexes (es : List (Σ _ : UUID, RunState)) :
    ∀ sm : StateManager, NoEmptyBucket sm.envIndex → NoEmptyBucket sm.tagIndex →
      NoEmptyBucket (es.foldl (fun sm e => addToIndexes sm e.2) sm).envIndex ∧
      NoEmptyBucket (es.foldl (fun sm e => addToIndexes sm e.2) sm).tagIndex := by
  induction es with
  | nil => intro sm h1 h2; exact ⟨h1, h2⟩
  | cons e es ih =>
    intro sm h1 h2
    exact ih (addToIndexes sm e.2) (noEmptyBucket_indexAdd _ _ _ h1)
      (noEmptyBucket_foldl_indexAdd _ _ _ h2)

theorem RestoreFromSnapshot_runs_sequence (sm : StateManager) (snapshot : Snapshot) :
    (RestoreFromSnapshot sm snapshot).runs = snapshot.Runs ∧
    (RestoreFromSnapshot sm snapshot).sequence = snapshot.Sequence := by
  unfold RestoreFromSnapshot
  exact ⟨foldl_addToIndexes_runs _ _, foldl_addToIndexes_sequence _ _⟩

theorem lookup_foldl_insert (k : UUID) (es : List (Σ _ : UUID, RunState)) :
    ∀ m : GoMap RunState, es.NodupKeys →
      (es.foldl (fun m e => m.insert e.1 e.2) m).lookup k
        = match es.dlookup k with
          | some r => some r
          | none => m.lookup k := by
  induction es with
  | nil => intro m _; rfl
  | cons e es ih =>
    intro m hnd
    obtain ⟨a, b⟩ := e
    have hnd' := List.nodupKeys_of_nodupKeys_cons hnd
    have hna : a ∉ es.keys := List.not_mem_keys_of_nodupKeys_cons hnd
    simp only [List.foldl_cons, ih _ hnd']
    by_cases hk : k = a
    · subst hk
      rw [List.dlookup_eq_none.mpr hna, List.dlookup_cons_eq]
      simp only [AList.lookup_insert]
    · rw [List.dlookup_cons_ne _ _ hk]
      cases es.dlookup k with
      | some r => rfl
      | none => simp only [AList.lookup_insert_ne hk]

theorem lookup_copyRuns (runs : GoMap RunState) (k : UUID) :
    (copyRuns runs).lookup k = runs.lookup k := by
  unfold copyRuns
  rw [lookup_foldl_insert k runs.entries ∅ runs.nodupKeys]
  show (match runs.lookup k with | some r => some r | none => (∅ : GoMap RunState).lookup k)
    = runs.lookup k
  cases runs.lookup k <;> simp


/-! ## No stale index entries -/

theorem noEmptyBucket_indexRemove (idx : GoMap IdSet) (k id : UUID) (h : NoEmptyBucket idx) :
    NoEmptyBucket (indexRemove idx k id) := by
  intro k' b hb
  unfold indexRemove at hb
  cases hl : idx.lookup k with
  | none => rw [hl] at hb; exact h k' b hb
  | some b0 =>
    rw [hl] at hb
    by_cases hc : (b0.erase id).card = 0
    · simp only [hc, if_true] at hb
      by_cases hk : k' = k
      · subst hk; simp [AList.lookup_erase] at hb
      · rw [AList.lookup_erase_ne hk] at hb
        exact h k' b hb
    · simp only [hc, if_false] at hb
      by_cases hk : k' = k
      · subst hk
        rw [AList.lookup_insert] at hb
        cases hb
        exact Finset.card_pos.mp (Nat.pos_of_ne_zero hc)
      · rw [AList.lookup_insert_ne hk] at hb
        exact h k' b hb

theorem noEmptyBucket_foldl_indexRemove (tags : List UUID) (id : UUID) :
    ∀ idx : GoMap IdSet, NoEmptyBucket idx →
      NoEmptyBucket (tags.foldl (fun idx tag => indexRemove idx tag id) idx) := by
  induction tags with
  | nil => intro idx h; exact h
  | cons t ts ih => intro idx h; exact ih _ (noEmptyBucket_indexRemove idx t id h)

theorem noEmptyBucket_empty : NoEmptyBucket (∅ : GoMap IdSet) := by
  intro k b hb; simp at hb

theorem UpdateRun_envIndex (sm : StateManager) (run : RunState) :
    (UpdateRun sm run).envIndex
      = indexAdd
          (match sm.runs.lookup run.ID with
            | some existing => indexRemove sm.envIndex existing.EnvID existing.ID
            | none => sm.envIndex)
          run.EnvID run.ID := by
  unfold UpdateRun
  cases h : sm.runs.lookup run.ID <;> simp [h, addToIndexes, removeFromIndexes, broadcastUpdate]

theorem UpdateRun_tagIndex (sm : StateManager) (run : RunState) :
    (UpdateRun sm run).tagIndex
      = run.Tags.foldl (fun idx tag => indexAdd idx tag run.ID)
          (match sm.runs.lookup run.ID with
            | some existing =>
              existing.Tags.foldl (fun idx tag => indexRemove idx tag existing.ID) sm.tagIndex
            | none => sm.tagIndex) := by
  unfold UpdateRun
  cases h : sm.runs.lookup run.ID <;> simp [h, addToIndexes, removeFromIndexes, broadcastUpdate]

theorem indexSound_new : IndexSound NewStateManager := by
  refine ⟨?_, ?_, noEmptyBucket_empty, noEmptyBucket_empty⟩ <;>
    intro k id h <;> simp [NewStateManager, inIndex] at h

theorem indexSound_UpdateRun (sm : StateManager) (run : RunState)
    (hk : RecordsIndexed sm) (h : IndexSound sm) : IndexSound (UpdateRun sm run) := by
  obtain ⟨henv, htag, hne, hnt⟩ := h
  have hself : (UpdateRun sm run).runs.lookup run.ID
      = some { run with Seq := (sm.sequence + 1) % 2 ^ 64 } := by
    rw [UpdateRun_runs, AList.lookup_insert]
  have hother : ∀ id, id ≠ run.ID → (UpdateRun sm run).runs.lookup id = sm.runs.lookup id := by
    intro id hid
    rw [UpdateRun_runs, AList.lookup_insert_ne hid]
  refine ⟨?_, ?_, ?_, ?_⟩
  · intro env id hin
    rw [UpdateRun_envIndex, inIndex_indexAdd] at hin
    rcases hin with ⟨he, hi⟩ | hin
    · subst he; subst hi; exact ⟨_, hself, rfl⟩
    · by_cases hid : id = run.ID
      · exfalso
        subst hid
        cases hl : sm.runs.lookup run.ID with
        | none =>
          rw [hl] at hin
          obtain ⟨r, hr, _⟩ := henv env run.ID hin
          rw [hl] at hr; cases hr
        | some existing =>
          rw [hl] at hin
          obtain ⟨hin', hnot⟩ := (inIndex_indexRemove _ _ _ _ _).mp hin
          obtain ⟨r, hr, hre⟩ := henv env run.ID hin'
          rw [hl] at hr; cases hr
          exact hnot ⟨hre.symm, ((hk _ _ hl).1).symm⟩
      · have hin' : inIndex sm.envIndex env id = true := by
          cases hl : sm.runs.lookup run.ID with
          | none => rw [hl] at hin; exact hin
          | some existing =>
            rw [hl] at hin
            exact ((inIndex_indexRemove _ _ _ _ _).mp hin).1
        obtain ⟨r, hr, hre⟩ := henv env id hin'
        exact ⟨r, by rw [hother id hid]; exact hr, hre⟩
  · intro tag id hin
    rw [UpdateRun_tagIndex, inIndex_foldl_indexAdd] at hin
    rcases hin with ⟨ht, hi⟩ | hin
    · subst hi; exact ⟨_, hself, ht⟩
    · by_cases hid : id = run.ID
      · exfalso
        subst hid
        cases hl : sm.runs.lookup run.ID with
        | none =>
          rw [hl] at hin
          obtain ⟨r, hr, _⟩ := htag tag run.ID hin
          rw [hl] at hr; cases hr
        | some existing =>
          rw [hl] at hin
          obtain ⟨hin', hnot⟩ := (inIndex_foldl_indexRemove _ _ _ _ _).mp hin
          obtain ⟨r, hr, hrt⟩ := htag tag run.ID hin'
          rw [hl] at hr; cases hr
          exact hnot ⟨hrt, ((hk _ _ hl).1).symm⟩
      · have hin' : inIndex sm.tagIndex tag id = true := by
          cases hl : sm.runs.lookup run.ID with
          | none => rw [hl] at hin; exact hin
          | some existing =>
            rw [hl] at hin
            exact ((inIndex_foldl_indexRemove _ _ _ _ _).mp hin).1
        obtain ⟨r, hr, hrt⟩ := htag tag id hin'
        exact ⟨r, by rw [hother id hid]; exact hr, hrt⟩
  · rw [UpdateRun_envIndex]
    apply noEmptyBucket_indexAdd
    cases sm.runs.lookup run.ID with
    | none => exact hne
    | some existing => exact noEmptyBucket_indexRemove _ _ _ hne
  · rw [UpdateRun_tagIndex]
    apply noEmptyBucket_foldl_indexAdd
    cases sm.runs.lookup run.ID with
    | none => exact hnt
    | some existing => exact noEmptyBucket_foldl_indexRemove _ _ _ hnt

theorem indexSound_RemoveRun (sm : StateManager) (runID : UUID)
    (hk : RecordsIndexed sm) (h : IndexSound sm) : IndexSound (RemoveRun sm runID) := by
  obtain ⟨henv, htag, hne, hnt⟩ := h
  unfold RemoveRun
  cases hl : sm.runs.lookup runID with
  | none => exact ⟨henv, htag, hne, hnt⟩
  | some existing =>
    have hex : existing.ID = runID := (hk _ _ hl).1
    refine ⟨?_, ?_, ?_, ?_⟩
    · intro env id hin
      obtain ⟨hin', hnot⟩ := (inIndex_indexRemove _ _ _ _ _).mp hin
      obtain ⟨r, hr, hre⟩ := henv env id hin'
      by_cases hid : id = runID
      · exfalso
        subst hid
        rw [hl] at hr; cases hr
        exact hnot ⟨hre.symm, hex.symm⟩
      · exact ⟨r, by simp only [removeFromIndexes_runs, AList.lookup_erase_ne hid]; exact hr, hre⟩
    · intro tag id hin
      obtain ⟨hin', hnot⟩ := (inIndex_foldl_indexRemove _ _ _ _ _).mp hin
      obtain ⟨r, hr, hrt⟩ := htag tag id hin'
      by_cases hid : id = runID
      · exfalso
        subst hid
        rw [hl] at hr; cases hr
        exact hnot ⟨hrt, hex.symm⟩
      · exact ⟨r, by simp only [removeFromIndexes_runs, AList.lookup_erase_ne hid]; exact hr, hrt⟩
    · exact noEmptyBucket_indexRemove _ _ _ hne
    · exact noEmptyBucket_foldl_indexRemove _ _ _ hnt

theorem indexSound_Restore (sm : StateManager) (snapshot : Snapshot)
    (hkeyed : snapshot.keyed = true) : IndexSound (RestoreFromSnapshot sm snapshot) := by
  have hruns : (RestoreFromSnapshot sm snapshot).runs = snapshot.Runs :=
    (RestoreFromSnapshot_runs_sequence sm snapshot).1
  have hkey : ∀ e ∈ snapshot.Runs.entries, e.2.ID = e.1 := by
    intro e he
    have := List.all_eq_true.mp hkeyed e he
    simpa using this
  have hlook : ∀ e ∈ snapshot.Runs.entries, snapshot.Runs.lookup e.2.ID = some e.2 := by
    rintro ⟨k, r⟩ he
    rw [hkey ⟨k, r⟩ he]
    exact AList.mem_lookup_iff.mpr he
  refine ⟨?_, ?_, ?_, ?_⟩
  · intro env id hin
    unfold RestoreFromSnapshot at hin
    rw [(foldl_addToIndexes_inIndex _ env id _).1] at hin
    simp only [inIndex_empty, Bool.false_eq_true, or_false] at hin
    obtain ⟨e, he, hee, hei⟩ := hin
    exact ⟨e.2, by rw [hruns, ← hei]; exact hlook e he, hee⟩
  · intro tag id hin
    unfold RestoreFromSnapshot at hin
    rw [(foldl_addToIndexes_inIndex _ tag id _).2] at hin
    simp only [inIndex_empty, Bool.false_eq_true, or_false] at hin
    obtain ⟨e, he, het, hei⟩ := hin
    exact ⟨e.2, by rw [hruns, ← hei]; exact hlook e he, het⟩
  · unfold RestoreFromSnapshot
    exact (noEmptyBucket_foldl_addToIndexes _ _ noEmptyBucket_empty noEmptyBucket_empty).1
  · unfold RestoreFromSnapshot
    exact (noEmptyBucket_foldl_addToIndexes _ _ noEmptyBucket_empty noEmptyBucket_empty).2

theorem indexSound_step (sm : StateManager) (op : Op) (hop : op.restoresKeyed = true)
    (hk : RecordsIndexed sm) (h : IndexSound sm) : IndexSound (step sm op) := by
  cases op with
  | updateRun run => exact indexSound_UpdateRun sm run hk h
  | removeRun id => exact indexSound_RemoveRun sm id hk h
  | addConnection c => exact h
  | removeConnection c => exact h
  | sendInitial c =>
    simp only [step, sendInitialState]
    cases sm.connections.lookup c.ID <;> exact h
  | receive id =>
    simp only [step, receiveEvent]
    cases sm.connections.lookup id <;> exact h
  | restore snapshot => exact indexSound_Restore sm snapshot hop

theorem indexSound_exec (ops : List Op) :
    ∀ sm : StateManager, (∀ op ∈ ops, op.restoresKeyed = true) → RecordsIndexed sm →
      IndexSound sm → IndexSound (exec sm ops) := by
  induction ops with
  | nil => intro sm _ _ h; exact h
  | cons op ops ih =>
    intro sm hops hk h
    have hop := hops op (List.mem_cons_self _ _)
    exact ih (step sm op) (fun o ho => hops o (List.mem_cons_of_mem _ ho))
      (recordsIndexed_step sm op hop hk) (indexSound_step sm op hop hk h)

/-! ## Subscription indexes -/

/-- Two indexes without empty buckets that list the same ids under the same keys hold the
same bucket under every key. -/
theorem index_ext (a b : GoMap IdSet) (ha : NoEmptyBucket a) (hb : NoEmptyBucket b)
    (h : ∀ k id, inIndex a k id = inIndex b k id) : ∀ k, a.lookup k = b.lookup k := by
  intro k
  cases hla : a.lookup k with
  | none =>
    cases hlb : b.lookup k with
    | none => rfl
    | some bb =>
      obtain ⟨x, hx⟩ := hb k bb hlb
      have := h k x
      simp [inIndex, hla, hlb, hx] at this
  | some ba =>
    cases hlb : b.lookup k with
    | none =>
      obtain ⟨x, hx⟩ := ha k ba hla
      have := h k x
      simp [inIndex, hla, hlb, hx] at this
    | some bb =>
      congr 1
      ext x
      have := h k x
      simpa [inIndex, hla, hlb] using this

theorem subsSound_new : SubsSound NewStateManager := by
  refine ⟨?_, ?_, ?_, noEmptyBucket_empty, noEmptyBucket_empty, noEmptyBucket_empty⟩ <;>
    intro k id h <;> simp [NewStateManager, inIndex] at h

/-- A step that keeps the subscription indexes and the filter of every registered
connection keeps `SubsSound`. -/
theorem subsSound_of_frame (sm sm' : StateManager) (h : SubsSound sm)
    (hr : sm'.subByRun = sm.subByRun) (he : sm'.subByEnv = sm.subByEnv)
    (ht : sm'.subByTag = sm.subByTag)
    (hc : ∀ id c, sm.connections.lookup id = some c →
      ∃ c', sm'.connections.lookup id = some c' ∧ c'.Filter = c.Filter) :
    SubsSound sm' := by
  obtain ⟨h1, h2, h3, n1, n2, n3⟩ := h
  refine ⟨?_, ?_, ?_, hr ▸ n1, he ▸ n2, ht ▸ n3⟩
  · intro k id hin
    rw [hr] at hin
    obtain ⟨c, hl, hf⟩ := h1 k id hin
    obtain ⟨c', hl', hf'⟩ := hc id c hl
    exact ⟨c', hl', by rw [hf']; exact hf⟩
  · intro k id hin
    rw [he] at hin
    obtain ⟨c, hl, hf⟩ := h2 k id hin
    obtain ⟨c', hl', hf'⟩ := hc id c hl
    exact ⟨c', hl', by rw [hf']; exact hf⟩
  · intro k id hin
    rw [ht] at hin
    obtain ⟨c, hl, hf⟩ := h3 k id hin
    obtain ⟨c', hl', hf'⟩ := hc id c hl
    exact ⟨c', hl', by rw [hf']; exact hf⟩

theorem UpdateRun_subs (sm : StateManager) (run : RunState) :
    (UpdateRun sm run).subByRun = sm.subByRun ∧ (UpdateRun sm run).subByEnv = sm.subByEnv ∧
      (UpdateRun sm run).subByTag = sm.subByTag := by
  unfold UpdateRun
  cases h : sm.runs.lookup run.ID <;>
    simp [h, addToIndexes, removeFromIndexes, broadcastUpdate]

theorem RemoveRun_subs (sm : StateManager) (id : UUID) :
    (RemoveRun sm id).subByRun = sm.subByRun ∧ (RemoveRun sm id).subByEnv = sm.subByEnv ∧
      (RemoveRun sm id).subByTag = sm.subByTag := by
  unfold RemoveRun
  cases h : sm.runs.lookup id <;> simp [removeFromIndexes]

theorem subsSound_AddConnection (sm : StateManager) (conn : Connection)
    (hfresh : sm.connections.lookup conn.ID = none) (h : SubsSound sm) :
    SubsSound (AddConnection sm conn) := by
  obtain ⟨h1, h2, h3, n1, n2, n3⟩ := h
  have hkeep : ∀ id c, sm.connections.lookup id = some c →
      (AddConnection sm conn).connections.lookup id = some c := by
    intro id c hl
    have hne : id ≠ conn.ID := by
      intro he; rw [he, hfresh] at hl; cases hl
    simp only [AddConnection, AList.lookup_insert_ne hne, hl]
  have hself : (AddConnection sm conn).connections.lookup conn.ID = some conn := by
    simp only [AddConnection, AList.lookup_insert]
  refine ⟨?_, ?_, ?_, ?_, ?_, ?_⟩
  · intro k id hin
    simp only [AddConnection] at hin
    cases hf : conn.Filter.RunID with
    | none =>
      rw [hf] at hin
      obtain ⟨c, hl, hc⟩ := h1 k id hin
      exact ⟨c, hkeep id c hl, hc⟩
    | some r =>
      rw [hf] at hin
      rcases (inIndex_indexAdd _ _ _ _ _).mp hin with ⟨hk, hi⟩ | hin
      · subst hk; subst hi; exact ⟨conn, hself, hf⟩
      · obtain ⟨c, hl, hc⟩ := h1 k id hin
        exact ⟨c, hkeep id c hl, hc⟩
  · intro k id hin
    simp only [AddConnection] at hin
    cases hf : conn.Filter.EnvID with
    | none =>
      rw [hf] at hin
      obtain ⟨c, hl, hc⟩ := h2 k id hin
      exact ⟨c, hkeep id c hl, hc⟩
    | some r =>
      rw [hf] at hin
      rcases (inIndex_indexAdd _ _ _ _ _).mp hin with ⟨hk, hi⟩ | hin
      · subst hk; subst hi; exact ⟨conn, hself, hf⟩
      · obtain ⟨c, hl, hc⟩ := h2 k id hin
        exact ⟨c, hkeep id c hl, hc⟩
  · intro k id hin
    simp only [AddConnection] at hin
    rcases (inIndex_foldl_indexAdd _ _ _ _ _).mp hin with ⟨hk, hi⟩ | hin
    · subst hi; exact ⟨conn, hself, hk⟩
    · obtain ⟨c, hl, hc⟩ := h3 k id hin
      exact ⟨c, hkeep id c hl, hc⟩
  · simp only [AddConnection]
    cases conn.Filter.RunID with
    | none => exact n1
    | some r => exact noEmptyBucket_indexAdd _ _ _ n1
  · simp only [AddConnection]
    cases conn.Filter.EnvID with
    | none => exact n2
    | some r => exact noEmptyBucket_indexAdd _ _ _ n2
  · exact noEmptyBucket_foldl_indexAdd _ _ _ n3

theorem subsSound_RemoveConnection (sm : StateManager) (conn : Connection)
    (hreg : (sm.connections.lookup conn.ID).map (fun c => c.Filter) = some conn.Filter)
    (h : SubsSound sm) : SubsSound (RemoveConnection sm conn) := by
  obtain ⟨h1, h2, h3, n1, n2, n3⟩ := h
  have hfilter : ∀ c, sm.connections.lookup conn.ID = some c → c.Filter = conn.Filter := by
    intro c hl
    rw [hl] at hreg
    simpa using hreg
  have hkeep : ∀ id c, id ≠ conn.ID → sm.connections.lookup id = some c →
      (RemoveConnection sm conn).connections.lookup id = some c := by
    intro id c hne hl
    simp only [RemoveConnection, AList.lookup_erase_ne hne, hl]
  refine ⟨?_, ?_, ?_, ?_, ?_, ?_⟩
  · intro k id hin
    simp only [RemoveConnection] at hin
    cases hf : conn.Filter.RunID with
    | none =>
      rw [hf] at hin
      obtain ⟨c, hl, hc⟩ := h1 k id hin
      by_cases hid : id = conn.ID
      · subst hid
        rw [hfilter c hl, hf] at hc; cases hc
      · exact ⟨c, hkeep id c hid hl, hc⟩
    | some r =>
      rw [hf] at hin
      obtain ⟨hin', hnot⟩ := (inIndex_indexRemove _ _ _ _ _).mp hin
      obtain ⟨c, hl, hc⟩ := h1 k id hin'
      by_cases hid : id = conn.ID
      · subst hid
        rw [hfilter c hl, hf] at hc
        cases hc
        exact absurd ⟨rfl, rfl⟩ hnot
      · exact ⟨c, hkeep id c hid hl, hc⟩
  · intro k id hin
    simp only [RemoveConnection] at hin
    cases hf : conn.Filter.EnvID with
    | none =>
      rw [hf] at hin
      obtain ⟨c, hl, hc⟩ := h2 k id hin
      by_cases hid : id = conn.ID
      · subst hid
        rw [hfilter c hl, hf] at hc; cases hc
      · exact ⟨c, hkeep id c hid hl, hc⟩
    | some r =>
      rw [hf] at hin
      obtain ⟨hin', hnot⟩ := (inIndex_indexRemove _ _ _ _ _).mp hin
      obtain ⟨c, hl, hc⟩ := h2 k id hin'
      by_cases hid : id = conn.ID
      · subst hid
        rw [hfilter c hl, hf] at hc
        cases hc
        exact absurd ⟨rfl, rfl⟩ hnot
      · exact ⟨c, hkeep id c hid hl, hc⟩
  · intro k id hin
    simp only [RemoveConnection] at hin
    obtain ⟨hin', hnot⟩ := (inIndex_foldl_indexRemove _ _ _ _ _).mp hin
    obtain ⟨c, hl, hc⟩ := h3 k id hin'
    by_cases hid : id = conn.ID
    · subst hid
      rw [hfilter c hl] at hc
      exact absurd ⟨hc, rfl⟩ hnot
    · exact ⟨c, hkeep id c hid hl, hc⟩
  · simp only [RemoveConnection]
    cases conn.Filter.RunID with
    | none => exact n1
    | some r => exact noEmptyBucket_indexRemove _ _ _ n1
  · simp only [RemoveConnection]
    cases conn.Filter.EnvID with
    | none => exact n2
    | some r => exact noEmptyBucket_indexRemove _ _ _ n2
  · exact noEmptyBucket_foldl_indexRemove _ _ _ n3

theorem subsSound_step (sm : StateManager) (op : Op) (hop : handlerCall sm op = true)
    (h : SubsSound sm) : SubsSound (step sm op) := by
  cases op with
  | updateRun run =>
    obtain ⟨a, b, c⟩ := UpdateRun_subs sm run
    refine subsSound_of_frame sm _ h a b c ?_
    intro id conn hl
    have hu := UpdateRun_connections sm run id
    rw [hl, Option.map_some'] at hu
    refine ⟨_, hu, ?_⟩
    dsimp only
    split <;> rfl
  | removeRun id =>
    obtain ⟨a, b, c⟩ := RemoveRun_subs sm id
    refine subsSound_of_frame sm _ h a b c ?_
    intro id' conn hl
    exact ⟨conn, by simp only [step, RemoveRun_connections, hl], rfl⟩
  | addConnection c =>
    simp only [handlerCall, Option.isNone_iff_eq_none] at hop
    exact subsSound_AddConnection sm c hop h
  | removeConnection c =>
    simp only [handlerCall, decide_eq_true_eq] at hop
    exact subsSound_RemoveConnection sm c hop h
  | sendInitial c =>
    simp only [step, sendInitialState]
    cases hl : sm.connections.lookup c.ID with
    | none => exact h
    | some c0 =>
      refine subsSound_of_frame sm _ h rfl rfl rfl ?_
      intro id conn hl'
      by_cases hid : id = c.ID
      · subst hid
        rw [hl] at hl'; cases hl'
        exact ⟨_, AList.lookup_insert _, rfl⟩
      · exact ⟨conn, by simp only [AList.lookup_insert_ne hid, hl'], rfl⟩
  | receive cid =>
    simp only [step, receiveEvent]
    cases hl : sm.connections.lookup cid with
    | none => exact h
    | some c0 =>
      refine subsSound_of_frame sm _ h rfl rfl rfl ?_
      intro id conn hl'
      by_cases hid : id = cid
      · subst hid
        rw [hl] at hl'; cases hl'
        exact ⟨_, AList.lookup_insert _, rfl⟩
      · exact ⟨conn, by simp only [AList.lookup_insert_ne hid, hl'], rfl⟩
  | restore snapshot =>
    have hs := foldl_addToIndexes_subs snapshot.Runs.entries
      { sm with runs := snapshot.Runs, sequence := snapshot.Sequence, envIndex := ∅,
                tagIndex := ∅ }
    refine subsSound_of_frame sm _ h hs.1 hs.2.1 hs.2.2.1 ?_
    intro id conn hl
    exact ⟨conn, by simp only [step, Restore_connections, hl], rfl⟩

theorem subsSound_exec (ops : List Op) :
    ∀ sm : StateManager, handlerCalls sm ops = true → SubsSound sm →
      SubsSound (exec sm ops) := by
  induction ops with
  | nil => intro sm _ h; exact h
  | cons op ops ih =>
    intro sm hops h
    simp only [handlerCalls, Bool.and_eq_true] at hops
    exact ih (step sm op) hops.2 (subsSound_step sm op hops.1 h)

/-! ## Initial events -/

theorem sendInitialLoop_take (runs : List RunState) :
    ∀ ch : List StreamEvent,
      sendInitialLoop runs ch = ch ++ (runs.take (eventsCap - ch.length)).map initialEvent := by
  induction runs with
  | nil => intro ch; simp [sendInitialLoop]
  | cons r rs ih =>
    intro ch
    unfold sendInitialLoop
    split
    · next h =>
      rw [ih]
      have e : eventsCap - ch.length = (eventsCap - (ch ++ [initialEvent r]).length) + 1 := by
        simp only [List.length_append, List.length_singleton]; omega
      rw [e, List.take_succ_cons]
      simp
    · next h =>
      have e : eventsCap - ch.length = 0 := by omega
      simp [e]

@[simp] theorem GetMatchingRuns_AddConnection (sm : StateManager) (conn : Connection)
    (filter : StreamFilter) :
    GetMatchingRuns (AddConnection sm conn) filter = GetMatchingRuns sm filter := rfl

/-! ## Adding and removing a connection -/

theorem RemoveRun_lookup_self (sm : StateManager) (id : UUID) :
    (RemoveRun sm id).runs.lookup id = none := by
  unfold RemoveRun
  cases h : sm.runs.lookup id with
  | none => simpa using h
  | some r => simp [removeFromIndexes]

theorem AddRemove_frame (sm : StateManager) (c : Connection) :
    (RemoveConnection (AddConnection sm c) c).runs = sm.runs ∧
    (RemoveConnection (AddConnection sm c) c).envIndex = sm.envIndex ∧
    (RemoveConnection (AddConnection sm c) c).tagIndex = sm.tagIndex ∧
    (RemoveConnection (AddConnection sm c) c).sequence = sm.sequence ∧
    (RemoveConnection (AddConnection sm c) c).recentEvents = sm.recentEvents :=
  ⟨rfl, rfl, rfl, rfl, rfl⟩

theorem AddRemove_connections (sm : StateManager) (c : Connection)
    (hfresh : sm.connections.lookup c.ID = none) (id : UUID) :
    (RemoveConnection (AddConnection sm c) c).connections.lookup id
      = sm.connections.lookup id := by
  simp only [RemoveConnection, AddConnection]
  by_cases hid : id = c.ID
  · subst hid
    rw [AList.lookup_erase, hfresh]
  · rw [AList.lookup_erase_ne hid, AList.lookup_insert_ne hid]

/-- Membership in the subscription indexes after `AddConnection` then `RemoveConnection` of
a connection that no index lists. -/
theorem AddRemove_inIndex (sm : StateManager) (c : Connection) (h : SubsSound sm)
    (hfresh : sm.connections.lookup c.ID = none) (k id : UUID) :
    inIndex (RemoveConnection (AddConnection sm c) c).subByRun k id = inIndex sm.subByRun k id ∧
    inIndex (RemoveConnection (AddConnection sm c) c).subByEnv k id = inIndex sm.subByEnv k id ∧
    inIndex (RemoveConnection (AddConnection sm c) c).subByTag k id
      = inIndex sm.subByTag k id := by
  obtain ⟨h1, h2, h3, -, -, -⟩ := h
  have a1 : ∀ k, ¬ inIndex sm.subByRun k c.ID = true := by
    intro k hin
    obtain ⟨c0, hl, -⟩ := h1 k c.ID hin
    rw [hfresh] at hl; cases hl
  have a2 : ∀ k, ¬ inIndex sm.subByEnv k c.ID = true := by
    intro k hin
    obtain ⟨c0, hl, -⟩ := h2 k c.ID hin
    rw [hfresh] at hl; cases hl
  have a3 : ∀ k, ¬ inIndex sm.subByTag k c.ID = true := by
    intro k hin
    obtain ⟨c0, hl, -⟩ := h3 k c.ID hin
    rw [hfresh] at hl; cases hl
  refine ⟨?_, ?_, ?_⟩
  · rw [Bool.eq_iff_iff]
    simp only [RemoveConnection, AddConnection]
    cases hf : c.Filter.RunID with
    | none => exact Iff.rfl
    | some r =>
      simp only [inIndex_indexRemove, inIndex_indexAdd]
      constructor
      · rintro ⟨hh | hh, hn⟩
        · exact absurd hh hn
        · exact hh
      · intro hh
        refine ⟨Or.inr hh, ?_⟩
        rintro ⟨-, rfl⟩
        exact a1 k hh
  · rw [Bool.eq_iff_iff]
    simp only [RemoveConnection, AddConnection]
    cases hf : c.Filter.EnvID with
    | none => exact Iff.rfl
    | some r =>
      simp only [inIndex_indexRemove, inIndex_indexAdd]
      constructor
      · rintro ⟨hh | hh, hn⟩
        · exact absurd hh hn
        · exact hh
      · intro hh
        refine ⟨Or.inr hh, ?_⟩
        rintro ⟨-, rfl⟩
        exact a2 k hh
  · rw [Bool.eq_iff_iff]
    simp only [RemoveConnection, AddConnection]
    simp only [inIndex_foldl_indexRemove, inIndex_foldl_indexAdd]
    constructor
    · rintro ⟨hh | hh, hn⟩
      · exact absurd hh hn
      · exact hh
    · intro hh
      refine ⟨Or.inr hh, ?_⟩
      rintro ⟨-, rfl⟩
      exact a3 k hh

/-! ## Recent-event ring -/

theorem lastN_nil {α : Type} (n : Nat) : lastN n ([] : List α) = [] := by
  simp [lastN]

theorem lastN_length {α : Type} (n : Nat) (l : List α) :
    (lastN n l).length = min l.length n := by
  simp only [lastN, List.length_drop]; omega

theorem lastN_sublist {α : Type} (n : Nat) (l : List α) : (lastN n l).Sublist l :=
  List.drop_sublist _ _

/-- One turn of the ring: dropping the oldest of 128 events and appending the new one keeps
the last 128 of the history. -/
theorem lastN_step {α : Type} (H : List α) (e : α) :
    (if (lastN 128 H).length ≥ 128 then (lastN 128 H).drop 1 else lastN 128 H) ++ [e]
      = lastN 128 (H ++ [e]) := by
  rw [lastN_length]
  by_cases h : 128 ≤ H.length
  · have h1 : min H.length 128 ≥ 128 := by omega
    rw [if_pos h1]
    simp only [lastN, List.drop_drop, List.length_append, List.length_singleton]
    rw [List.drop_append_of_le_length (by omega)]
    have e1 : ∀ a b : Nat, a = b → H.drop a ++ [e] = H.drop b ++ [e] := by
      intro a b hab; rw [hab]
    apply e1
    omega
  · have h1 : ¬ min H.length 128 ≥ 128 := by omega
    rw [if_neg h1]
    simp only [lastN, List.length_append, List.length_singleton]
    have e1 : H.length - 128 = 0 := by omega
    have e2 : H.length + 1 - 128 = 0 := by omega
    rw [e1, e2]
    simp

theorem ringOf_UpdateRun_self (sm : StateManager) (run : RunState) :
    ringOf (UpdateRun sm run) run.ID
      = (if (ringOf sm run.ID).length ≥ 128 then (ringOf sm run.ID).drop 1 else ringOf sm run.ID)
          ++ [deltaEvent { run with Seq := (sm.sequence + 1) % 2 ^ 64 }] := by
  unfold UpdateRun ringOf
  cases h : sm.runs.lookup run.ID <;>
    simp [h, broadcastUpdate, addToIndexes, removeFromIndexes, AList.lookup_insert]

theorem ringOf_UpdateRun_ne (sm : StateManager) (run : RunState) (id : UUID)
    (hne : id ≠ run.ID) : ringOf (UpdateRun sm run) id = ringOf sm id := by
  unfold UpdateRun ringOf
  cases h : sm.runs.lookup run.ID <;>
    simp [h, broadcastUpdate, addToIndexes, removeFromIndexes, AList.lookup_insert_ne hne]

theorem ringOf_RemoveRun_ne (sm : StateManager) (runID id : UUID) (hne : id ≠ runID) :
    ringOf (RemoveRun sm runID) id = ringOf sm id := by
  unfold RemoveRun ringOf
  cases h : sm.runs.lookup runID <;> simp [removeFromIndexes, AList.lookup_erase_ne hne]

/-- A call that is neither `RemoveRun` of the id, a restore, nor an `UpdateRun` of the id
leaves the ring of the id. -/
theorem ringOf_step (sm : StateManager) (id : UUID) (op : Op) (hop : ringCall id op = true) :
    ringOf (step sm op) id
      = match op with
        | .updateRun run =>
          if run.ID = id then
            (if (ringOf sm id).length ≥ 128 then (ringOf sm id).drop 1 else ringOf sm id)
              ++ [deltaEvent { run with Seq := (sm.sequence + 1) % 2 ^ 64 }]
          else ringOf sm id
        | _ => ringOf sm id := by
  cases op with
  | updateRun run =>
    simp only [step]
    by_cases hid : run.ID = id
    · subst hid; rw [if_pos rfl]; exact ringOf_UpdateRun_self sm run
    · rw [if_neg hid]; exact ringOf_UpdateRun_ne sm run id (fun h => hid h.symm)
  | removeRun runID =>
    simp only [ringCall, bne_iff_ne, ne_eq] at hop
    exact ringOf_RemoveRun_ne sm runID id (fun h => hop h.symm)
  | addConnection c => rfl
  | removeConnection c => rfl
  | sendInitial c =>
    simp only [step, sendInitialState]
    cases sm.connections.lookup c.ID <;> rfl
  | receive cid =>
    simp only [step, receiveEvent]
    cases sm.connections.lookup cid <;> rfl
  | restore s => simp [ringCall] at hop

theorem step_sequence_ring (sm : StateManager) (id : UUID) (op : Op)
    (hop : ringCall id op = true) :
    (step sm op).sequence
      = match op with
        | .updateRun _ => (sm.sequence + 1) % 2 ^ 64
        | _ => sm.sequence := by
  cases op with
  | updateRun run => exact UpdateRun_sequence sm run
  | removeRun runID => exact RemoveRun_sequence sm runID
  | addConnection c => rfl
  | removeConnection c => rfl
  | sendInitial c =>
    simp only [step, sendInitialState]
    cases sm.connections.lookup c.ID <;> rfl
  | receive cid =>
    simp only [step, receiveEvent]
    cases sm.connections.lookup cid <;> rfl
  | restore s => simp [ringCall] at hop

/-- The ring follows the history of the delta events produced for the id. -/
theorem ringOf_exec (id : UUID) (ops : List Op) :
    ∀ (sm : StateManager) (H : List StreamEvent),
      (∀ op ∈ ops, ringCall id op = true) → ringOf sm id = lastN 128 H →
      ringOf (exec sm ops) id = lastN 128 (H ++ producedFor id sm ops) := by
  induction ops with
  | nil => intro sm H _ h; simpa [exec, producedFor] using h
  | cons op ops ih =>
    intro sm H hops h
    have hop := hops op (List.mem_cons_self _ _)
    have hrest : ∀ o ∈ ops, ringCall id o = true :=
      fun o ho => hops o (List.mem_cons_of_mem _ ho)
    have hstep := ringOf_step sm id op hop
    have hexec : exec sm (op :: ops) = exec (step sm op) ops := rfl
    rw [hexec]
    cases op with
    | updateRun run =>
      simp only at hstep
      simp only [producedFor]
      by_cases hid : run.ID = id
      · rw [if_pos hid] at hstep
        rw [if_pos hid, ← List.append_assoc]
        refine ih _ _ hrest ?_
        rw [hstep, h, lastN_step]
      · rw [if_neg hid] at hstep
        rw [if_neg hid, List.nil_append]
        exact ih _ _ hrest (hstep.trans h)
    | removeRun r => exact ih _ _ hrest (hstep.trans h)
    | addConnection c => exact ih _ _ hrest (hstep.trans h)
    | removeConnection c => exact ih _ _ hrest (hstep.trans h)
    | sendInitial c => exact ih _ _ hrest (hstep.trans h)
    | receive c => exact ih _ _ hrest (hstep.trans h)
    | restore s => simp [ringCall] at hop

/-- While the counter does not wrap, the delta events produced for an id carry `seq` values
above the counter they started from, strictly increasing in call order. -/
theorem producedFor_sorted (id : UUID) (ops : List Op) :
    ∀ sm : StateManager, (∀ op ∈ ops, ringCall id op = true) →
      sm.sequence + countUpdates ops < 2 ^ 64 →
      (∀ e ∈ producedFor id sm ops, sm.sequence < e.Data.Seq) ∧
      (producedFor id sm ops).Pairwise (fun a b => a.Data.Seq < b.Data.Seq) := by
  induction ops with
  | nil => intro sm _ _; simp [producedFor]
  | cons op ops ih =>
    intro sm hops hn
    have hop := hops op (List.mem_cons_self _ _)
    have hrest : ∀ o ∈ ops, ringCall id o = true :=
      fun o ho => hops o (List.mem_cons_of_mem _ ho)
    have hseq := step_sequence_ring sm id op hop
    cases op with
    | updateRun run =>
      simp only [countUpdates] at hn
      have hm : (sm.sequence + 1) % 2 ^ 64 = sm.sequence + 1 := Nat.mod_eq_of_lt (by omega)
      simp only [step, hm] at hseq
      obtain ⟨h1, h2⟩ := ih (UpdateRun sm run) hrest (by rw [hseq]; omega)
      rw [hseq] at h1
      simp only [producedFor, hm]
      constructor
      · intro e he
        rcases List.mem_append.mp he with he | he
        · split at he
          · simp only [List.mem_singleton] at he
            subst he; simp [deltaEvent]
          · cases he
        · have := h1 e he; omega
      · rw [List.pairwise_append]
        refine ⟨?_, h2, ?_⟩
        · split
          · exact List.pairwise_singleton _ _
          · exact List.Pairwise.nil
        · intro a ha b hb
          split at ha
          · simp only [List.mem_singleton] at ha
            subst ha
            have := h1 b hb
            simp only [deltaEvent]; omega
          · cases ha
    | removeRun r =>
      simp only [countUpdates] at hn
      simp only [step] at hseq
      have := ih (RemoveRun sm r) hrest (by rw [hseq]; exact hn)
      rw [hseq] at this
      simpa only [producedFor, step] using this
    | addConnection c =>
      simp only [countUpdates] at hn
      simp only [step] at hseq
      have := ih (AddConnection sm c) hrest (by rw [hseq]; exact hn)
      rw [hseq] at this
      simpa only [producedFor, step] using this
    | removeConnection c =>
      simp only [countUpdates] at hn
      simp only [step] at hseq
      have := ih (RemoveConnection sm c) hrest (by rw [hseq]; exact hn)
      rw [hseq] at this
      simpa only [producedFor, step] using this
    | sendInitial c =>
      simp only [countUpdates] at hn
      simp only [step] at hseq
      have := ih (sendInitialState sm c) hrest (by rw [hseq]; exact hn)
      rw [hseq] at this
      simpa only [producedFor, step] using this
    | receive c =>
      simp only [countUpdates] at hn
      simp only [step] at hseq
      have := ih (receiveEvent sm c) hrest (by rw [hseq]; exact hn)
      rw [hseq] at this
      simpa only [producedFor, step] using this
    | restore s => simp [ringCall] at hop

/-- Every event produced for an id is a delta event of a record with that id, named by the
decimal rendering of its `seq`. -/
theorem producedFor_shape (id : UUID) (ops : List Op) :
    ∀ sm : StateManager, ∀ e ∈ producedFor id sm ops,
      e.EventType = "delta" ∧ e.Data.ID = id ∧ e.ID = toString e.Data.Seq := by
  induction ops with
  | nil => intro sm e he; simp [producedFor] at he
  | cons op ops ih =>
    intro sm e he
    cases op with
    | updateRun run =>
      simp only [producedFor] at he
      rcases List.mem_append.mp he with he | he
      · split at he
        · next hid =>
          simp only [List.mem_singleton] at he
          subst he
          exact ⟨rfl, hid, rfl⟩
        · cases he
      · exact ih _ e he
    | removeRun r => exact ih _ e (by simpa only [producedFor] using he)
    | addConnection c => exact ih _ e (by simpa only [producedFor] using he)
    | removeConnection c => exact ih _ e (by simpa only [producedFor] using he)
    | sendInitial c => exact ih _ e (by simpa only [producedFor] using he)
    | receive c => exact ih _ e (by simpa only [producedFor] using he)
    | restore s => exact ih _ e (by simpa only [producedFor] using he)

theorem producedFor_length (id : UUID) (ops : List Op) :
    ∀ sm : StateManager, (producedFor id sm ops).length = countUpdatesFor id ops := by
  induction ops with
  | nil => intro sm; rfl
  | cons op ops ih =>
    intro sm
    cases op with
    | updateRun run =>
      simp only [producedFor, countUpdatesFor, List.length_append, ih]
      split <;> rfl
    | removeRun r => simp only [producedFor, countUpdatesFor, ih]
    | addConnection c => simp only [producedFor, countUpdatesFor, ih]
    | removeConnection c => simp only [producedFor, countUpdatesFor, ih]
    | sendInitial c => simp only [producedFor, countUpdatesFor, ih]
    | receive c => simp only [producedFor, countUpdatesFor, ih]
    | restore s => simp only [producedFor, countUpdatesFor, ih]

/-! ## Program-reachable states -/

/-- A snapshot with the typed record fields of a snapshot taken from a state whose records
sit under their own ids files each record under its own id. -/
theorem keyed_of_sameTyped (source : StateManager) (lsn : String) (now : Time)
    (loaded : Snapshot) (hk : RecordsIndexed source)
    (hs : (takeSnapshot source lsn now).sameTyped loaded) : loaded.keyed = true := by
  unfold Snapshot.keyed
  rw [List.all_eq_true]
  rintro ⟨k, r⟩ he
  have hl : loaded.Runs.lookup k = some r := AList.mem_lookup_iff.mpr he
  have h := hs.2.2 k
  rw [hl] at h
  simp only [takeSnapshot, lookup_copyRuns, Option.map_some'] at h
  cases hsrc : source.runs.lookup k with
  | none => rw [hsrc] at h; cases h
  | some r0 =>
    rw [hsrc] at h
    simp only [Option.map_some', Option.some.injEq] at h
    have hid : r.ID = r0.ID := congrArg (fun t => t.1) h
    simp only [beq_iff_eq]
    rw [hid]
    exact (hk k r0 hsrc).1

theorem recordsIndexed_of_reachable (sm : StateManager) (h : Reachable sm) :
    RecordsIndexed sm := by
  induction h with
  | fresh => exact recordsIndexed_new
  | call sm op _ hop ih =>
    refine recordsIndexed_step sm op ?_ ih
    cases op <;> first | rfl | (simp [Op.isRestore] at hop)
  | restore sm source lsn now loaded _ _ hs ih ihs =>
    exact recordsIndexed_Restore sm loaded (keyed_of_sameTyped source lsn now loaded ihs hs)

/-! ## The claims -/

theorem countUpdates_append (pre post : List Op) :
    countUpdates (pre ++ post) = countUpdates pre + countUpdates post := by
  induction pre with
  | nil => simp [countUpdates]
  | cons op pre ih =>
    cases op <;> simp [countUpdates, ih]
    omega

/-- C1. From `NewStateManager`, along any sequence of `UpdateRun`, `RemoveRun`,
`AddConnection` and `RemoveConnection` calls with fewer than 2^64 updates: each `UpdateRun`
stores the record with `seq` equal to the previous counter plus one and makes that the new
counter, no other call changes the counter, and the `seq` values assigned are strictly
increasing in call order, hence never repeated. -/
theorem seq_strictly_increasing (ops : List Op)
    (hops : ∀ op ∈ ops, op.isEngineCall = true) (hn : countUpdates ops < 2 ^ 64) :
    (∀ pre op post, ops = pre ++ op :: post →
      match op with
      | .updateRun run =>
        (step (exec NewStateManager pre) op).runs.lookup run.ID
            = some { run with Seq := (exec NewStateManager pre).sequence + 1 } ∧
          (step (exec NewStateManager pre) op).sequence
            = (exec NewStateManager pre).sequence + 1
      | _ => (step (exec NewStateManager pre) op).sequence
            = (exec NewStateManager pre).sequence) ∧
    (assignedSeqs NewStateManager ops).Pairwise (· < ·) ∧
    (assignedSeqs NewStateManager ops).Nodup := by
  have hsorted := (assignedSeqs_sorted ops NewStateManager hops (by simpa [NewStateManager] using hn)).1
  refine ⟨?_, hsorted, hsorted.imp (fun h => Nat.ne_of_lt h)⟩
  intro pre op post hsplit
  have hpre : ∀ o ∈ pre, o.isEngineCall = true := fun o ho =>
    hops o (by rw [hsplit]; exact List.mem_append_left _ ho)
  have hop : op.isEngineCall = true :=
    hops op (by rw [hsplit]; exact List.mem_append_right _ (List.mem_cons_self _ _))
  have hcount : countUpdates pre + countUpdates [op] ≤ countUpdates ops := by
    rw [hsplit, countUpdates_append]
    have : countUpdates (op :: post) = countUpdates [op] + countUpdates post :=
      countUpdates_append [op] post
    omega
  have hseq : (exec NewStateManager pre).sequence = countUpdates pre := by
    have := exec_sequence pre NewStateManager hpre (by simp [NewStateManager]; omega)
    simpa [NewStateManager] using this
  have hstep := step_sequence_engine (exec NewStateManager pre) op hop
  cases op with
  | updateRun run =>
    have h1 : (exec NewStateManager pre).sequence + 1 < 2 ^ 64 := by
      simp only [countUpdates] at hcount
      omega
    simp only at hstep ⊢
    rw [Nat.mod_eq_of_lt h1] at hstep
    refine ⟨?_, hstep⟩
    simp only [step]
    rw [UpdateRun_runs, AList.lookup_insert, Nat.mod_eq_of_lt h1]
  | removeRun _ => exact hstep
  | addConnection _ => exact hstep
  | removeConnection _ => exact hstep
  | sendInitial _ => simp [Op.isEngineCall] at hop
  | receive _ => simp [Op.isEngineCall] at hop
  | restore _ => simp [Op.isEngineCall] at hop

/-- Witness of C1: insert, update, remove and re-insert of one record around a connection
being added and removed. -/
theorem seq_strictly_increasing_witness :
    (∀ op ∈ [Op.updateRun runA, .addConnection connE, .updateRun runA, .removeRun 1,
        .removeConnection connE, .updateRun runA], op.isEngineCall = true) ∧
    countUpdates [Op.updateRun runA, .addConnection connE, .updateRun runA, .removeRun 1,
        .removeConnection connE, .updateRun runA] < 2 ^ 64 ∧
    (assignedSeqs NewStateManager [Op.updateRun runA, .addConnection connE, .updateRun runA,
        .removeRun 1, .removeConnection connE, .updateRun runA]).Pairwise (· < ·) :=
  ⟨by decide, by decide,
    (seq_strictly_increasing [Op.updateRun runA, .addConnection connE, .updateRun runA,
        .removeRun 1, .removeConnection connE, .updateRun runA] (by decide) (by decide)).2.1⟩


/-- C2. `GetMatchingRuns` returns exactly the records of the record map that satisfy the
filter: a record is in the list if and only if some key holds it and it matches, and the list
is the image of a duplicate-free enumeration of the matching map entries, so every such entry
contributes exactly once. -/
theorem GetMatchingRuns_exact (sm : StateManager) (filter : StreamFilter) :
    (∀ r, r ∈ GetMatchingRuns sm filter ↔
      (∃ k, sm.runs.lookup k = some r) ∧ matchesFilter r filter = true) ∧
    ∃ es : List (Σ _ : UUID, RunState),
      es.Nodup ∧
      (∀ k r, (⟨k, r⟩ : Σ _ : UUID, RunState) ∈ es ↔
        sm.runs.lookup k = some r ∧ matchesFilter r filter = true) ∧
      GetMatchingRuns sm filter = es.map (fun e => e.2) := by
  have hmem : ∀ k r, sm.runs.lookup k = some r ↔ (⟨k, r⟩ : Σ _ : UUID, RunState) ∈ sm.runs.entries := by
    intro k r
    exact AList.mem_lookup_iff
  refine ⟨fun r => ?_, sm.runs.entries.filter (fun e => matchesFilter e.2 filter), ?_, ?_, rfl⟩
  · unfold GetMatchingRuns
    simp only [List.mem_map, List.mem_filter]
    constructor
    · rintro ⟨⟨k, r'⟩, ⟨he, hm⟩, rfl⟩
      exact ⟨⟨k, (hmem k r').mpr he⟩, hm⟩
    · rintro ⟨⟨k, hk⟩, hm⟩
      exact ⟨⟨k, r⟩, ⟨(hmem k r).mp hk, hm⟩, rfl⟩
  · have hnd : sm.runs.entries.Nodup := by
      have h := sm.runs.nodupKeys
      unfold List.NodupKeys List.keys at h
      exact List.Nodup.of_map _ h
    exact hnd.filter _
  · intro k r
    simp only [List.mem_filter, hmem]

/-- C3. `matchesFilter` returns true exactly when the filter's `run_id` is absent or equals
the record id, its `env_id` is absent or equals the record env id, its `created_at` is absent
or not later than the record's `created_at`, and its tag list is empty or shares a tag with
the record. -/
theorem matchesFilter_iff (run : RunState) (filter : StreamFilter) :
    matchesFilter run filter = true ↔
      (filter.RunID = none ∨ filter.RunID = some run.ID) ∧
      (filter.EnvID = none ∨ filter.EnvID = some run.EnvID) ∧
      (filter.CreatedAt = none ∨ ∃ floor, filter.CreatedAt = some floor ∧ floor ≤ run.CreatedAt) ∧
      (filter.Tags = [] ∨ ∃ t, t ∈ filter.Tags ∧ t ∈ run.Tags) := by
  obtain ⟨rid, eid, tags, cat⟩ := filter
  unfold matchesFilter
  cases rid <;> cases eid <;> cases cat <;> cases tags <;>
    simp [not_lt]

/-- Remark on hand-built snapshots. `RestoreFromSnapshot` does not check its argument: given
a snapshot that files record 2 under keys 1 and 2, which no `CreateSnapshot` writes, a
`RemoveRun` of key 1 leaves record 2 stored and live while bucket 5 of `envIndex`, the env
of the record, no longer lists it. -/
theorem misfiled_restore_unindexes_live_record :
    (∀ op ∈ [Op.restore misfiledSnapshot, Op.removeRun 1], op.isRecordCall = true) ∧
    (exec NewStateManager [Op.restore misfiledSnapshot, Op.removeRun 1]).runs.lookup 2
      = some runB ∧
    runB.live = true ∧
    inIndex (exec NewStateManager [Op.restore misfiledSnapshot, Op.removeRun 1]).envIndex
      runB.EnvID runB.ID = false :=
  ⟨by decide, rfl, by decide, by decide⟩

/-- C4. In every state the program reaches from `NewStateManager` by `UpdateRun`, `RemoveRun`
and `RestoreFromSnapshot` (which takes the snapshot `LoadSnapshot` returns, written by
`CreateSnapshot` from a state the program had reached), every live record of the record map
has its id in `envIndex[env_id]` and in `tagIndex[t]` for each of its tags. -/
theorem live_records_indexed (sm : StateManager) (hreach : Reachable sm)
    (k : UUID) (r : RunState) (hl : sm.runs.lookup k = some r) (_hlive : r.live = true) :
    inIndex sm.envIndex r.EnvID r.ID = true ∧
      ∀ t ∈ r.Tags, inIndex sm.tagIndex t r.ID = true :=
  (recordsIndexed_of_reachable sm hreach k r hl).2

/-- Witness of C4: the snapshot taken after `runA` and `runB` were stored is restored into a
fresh state, then `runA` is updated. -/
theorem live_records_indexed_witness :
    Reachable (UpdateRun (RestoreFromSnapshot NewStateManager (takeSnapshot stateAB "0/0" 0))
      runA) ∧
    (UpdateRun (RestoreFromSnapshot NewStateManager (takeSnapshot stateAB "0/0" 0))
      runA).runs.lookup 2 = some { runB with Seq := 2 } ∧
    ({ runB with Seq := 2 } : RunState).live = true ∧
    inIndex (UpdateRun (RestoreFromSnapshot NewStateManager (takeSnapshot stateAB "0/0" 0))
      runA).envIndex 5 2 = true :=
  ⟨Reachable.call _ (Op.updateRun runA)
      (Reachable.restore NewStateManager stateAB "0/0" 0 _ Reachable.fresh
        (Reachable.call _ (Op.updateRun runB)
          (Reachable.call _ (Op.updateRun runA) Reachable.fresh rfl) rfl)
        ⟨rfl, rfl, fun _ => rfl⟩) rfl,
    rfl, by decide,
    (live_records_indexed _
      (Reachable.call _ (Op.updateRun runA)
        (Reachable.restore NewStateManager stateAB "0/0" 0 _ Reachable.fresh
          (Reachable.call _ (Op.updateRun runB)
            (Reachable.call _ (Op.updateRun runA) Reachable.fresh rfl) rfl)
          ⟨rfl, rfl, fun _ => rfl⟩) rfl)
      2 { runB with Seq := 2 } rfl (by decide)).1⟩

/-- C5, counterexample. After `UpdateRun` of a record with status "deleted", the tombstone is
stored and its id is listed in the bucket of its env and in the bucket of its tag. -/
theorem tombstone_is_indexed :
    (UpdateRun NewStateManager tombstoneA).runs.lookup 1 = some { tombstoneA with Seq := 1 } ∧
    tombstoneA.Status = "deleted" ∧
    inIndex (UpdateRun NewStateManager tombstoneA).envIndex 2 1 = true ∧
    inIndex (UpdateRun NewStateManager tombstoneA).tagIndex 7 1 = true :=
  ⟨rfl, by decide, by decide, by decide⟩

/-- C5 as amended. In every state reached from `NewStateManager` by calls among which every
`RestoreFromSnapshot` takes a snapshot that files each record under its own id, every
tombstone (a record stored with status "deleted") has its id in `envIndex[env_id]` and in
`tagIndex[t]` for each of its tags: `UpdateRun` indexes a tombstone like any other record. -/
theorem tombstones_indexed (ops : List Op) (hops : ∀ op ∈ ops, op.restoresKeyed = true)
    (k : UUID) (r : RunState) (hl : (exec NewStateManager ops).runs.lookup k = some r)
    (_hdel : r.Status = "deleted") :
    inIndex (exec NewStateManager ops).envIndex r.EnvID r.ID = true ∧
      ∀ t ∈ r.Tags, inIndex (exec NewStateManager ops).tagIndex t r.ID = true :=
  (recordsIndexed_exec ops NewStateManager hops recordsIndexed_new k r hl).2

/-- Witness of C5: a record is inserted, then replaced by its tombstone. -/
theorem tombstones_indexed_witness :
    (∀ op ∈ [Op.updateRun runA, Op.updateRun tombstoneA], op.restoresKeyed = true) ∧
    (exec NewStateManager [Op.updateRun runA, Op.updateRun tombstoneA]).runs.lookup 1
      = some { tombstoneA with Seq := 2 } ∧
    ({ tombstoneA with Seq := 2 } : RunState).Status = "deleted" ∧
    inIndex (exec NewStateManager [Op.updateRun runA, Op.updateRun tombstoneA]).envIndex 2 1
      = true :=
  ⟨by decide, rfl, by decide,
    (tombstones_indexed [Op.updateRun runA, Op.updateRun tombstoneA]
      (by decide) 1 { tombstoneA with Seq := 2 } rfl (by decide)).1⟩

/-- C6, counterexample. Connection `connE` subscribes to env 2, the env of record 1. When
the `UpdateRun` of record 1 falls between `AddConnection` and the read of
`sendInitialState`, the channel gets the delta event and then the initial event of the
record, both with `seq` 1. When record 1 is stored with `seq` 1 and its next `UpdateRun`
falls between the read of `sendInitialState` and the send, the channel gets the delta event
with `seq` 2 and then the initial event with `seq` 1. -/
theorem delta_overtakes_initial :
    ((runSession connE { sm := NewStateManager, phase := .start, received := [] }
        [.handler, .update runA, .handler, .handler]).enqueued connE).map
        (fun e => (e.EventType, e.Data.ID, e.Data.Seq))
      = [("delta", 1, 1), ("initial", 1, 1)] ∧
    ((runSession connE { sm := NewStateManager, phase := .start, received := [] }
        [.update runA, .handler, .handler, .update runA, .handler]).enqueued connE).map
        (fun e => (e.EventType, e.Data.ID, e.Data.Seq))
      = [("delta", 1, 2), ("initial", 1, 1)] :=
  ⟨by decide, by decide⟩

/-- C6 as amended. Let the handler of connection `conn`, fresh from `NewConnection` and not
yet registered, go through `AddConnection`, the read of `sendInitialState`, each of its
sends and the stream loop, its steps interleaved in any way with `UpdateRun` calls that do
not wrap the counter, from a state whose records sit under their own ids with `seq` values
the counter has reached. Then among the events enqueued to `conn` that concern one record
id, in the order of the sends, every delta event carries a `seq` strictly larger than that
of every event enqueued before it, and there is at most one initial event. -/
theorem session_ordered (sm0 : StateManager) (conn : Connection) (turns : List Turn)
    (hstore : ∀ k r, sm0.runs.lookup k = some r → r.ID = k ∧ r.Seq ≤ sm0.sequence)
    (hfresh : conn.Events = [])
    (hnew : sm0.connections.lookup conn.ID = none)
    (hn : sm0.sequence + updateTurns turns < 2 ^ 64) :
    ((runSession conn { sm := sm0, phase := .start, received := [] } turns).enqueued
      conn).Pairwise EnqueueOrdered := by
  have h0 : SessionInv conn { sm := sm0, phase := .start, received := [] } := by
    refine ⟨hstore, ?_, ?_, hnew, rfl⟩
    · simp [Session.enqueued, queueOf, hnew]
    · simp [Session.enqueued, queueOf, hnew]
  exact (sessionInv_run conn hfresh turns _ hn h0).2.2.1

/-- Witness of C6: record 1 is updated before the handler registers, between its read and
its send, and twice more while the handler streams. -/
theorem session_ordered_witness :
    (∀ k r, NewStateManager.runs.lookup k = some r → r.ID = k ∧ r.Seq ≤ NewStateManager.sequence) ∧
    connE.Events = [] ∧
    NewStateManager.connections.lookup connE.ID = none ∧
    NewStateManager.sequence
      + updateTurns [.update runA, .handler, .handler, .update runA, .handler, .handler,
          .update runA, .handler, .update runA] < 2 ^ 64 ∧
    ((runSession connE { sm := NewStateManager, phase := .start, received := [] }
        [.update runA, .handler, .handler, .update runA, .handler, .handler,
          .update runA, .handler, .update runA]).enqueued connE).Pairwise EnqueueOrdered :=
  ⟨by intro k r h; simp [NewStateManager] at h, rfl, rfl, by decide,
    session_ordered NewStateManager connE
      [.update runA, .handler, .handler, .update runA, .handler, .handler,
        .update runA, .handler, .update runA]
      (by intro k r h; simp [NewStateManager] at h) rfl rfl (by decide)⟩

/-- C7. `UpdateRun` stores the stamped record and, for every connection id, leaves the
registration as it was except that a connection whose filter matches the record and whose
queue holds fewer than 256 events gets exactly one delta event (id the decimal `seq`, data
the stored record) appended at the tail; a connection with a full queue or a filter that does
not match keeps its queue, whatever the other connections' queues hold. -/
theorem UpdateRun_fanout (sm : StateManager) (run : RunState) :
    (UpdateRun sm run).runs.lookup run.ID
        = some { run with Seq := (sm.sequence + 1) % 2 ^ 64 } ∧
    ∀ id, (UpdateRun sm run).connections.lookup id
      = (sm.connections.lookup id).map (fun conn =>
          if matchesFilter { run with Seq := (sm.sequence + 1) % 2 ^ 64 } conn.Filter = true
              ∧ conn.Events.length < 256
          then { conn with
                 Events := conn.Events ++
                   [{ ID := toString ((sm.sequence + 1) % 2 ^ 64), EventType := "delta",
                      Data := { run with Seq := (sm.sequence + 1) % 2 ^ 64 } }] }
          else conn) := by
  refine ⟨by rw [UpdateRun_runs, AList.lookup_insert], fun id => ?_⟩
  rw [UpdateRun_connections]
  congr 1
  funext conn
  simp only [matchesFilter_seq, trySend, eventsCap, deltaEvent]
  by_cases hm : matchesFilter run conn.Filter = true <;>
    by_cases hl : conn.Events.length < 256 <;> simp [hm, hl]


/-- C8. In every state reached from `NewStateManager` by any calls (updates, removals,
snapshot restores, initial-state priming, connections made by `NewConnection` being added
and removed, the writer dequeuing or not), the queue of every connection holds at most 256
events. -/
theorem queues_bounded (ops : List Op) (hops : ∀ op ∈ ops, op.addsFresh = true) (id : UUID) :
    (queueOf (exec NewStateManager ops) id).length ≤ 256 := by
  have h := queuesBounded_exec ops NewStateManager hops
    (by intro id c hl; simp [NewStateManager] at hl)
  unfold queueOf
  cases hl : (exec NewStateManager ops).connections.lookup id with
  | none => simp
  | some c => simpa [eventsCap] using h id c hl

set_option maxRecDepth 100000 in
/-- Witness of C8: a subscriber that matches a record and never reads, primed once and then
fed 300 updates of that record. -/
theorem queues_bounded_witness :
    (∀ op ∈ Op.addConnection connE :: Op.sendInitial connE
        :: List.replicate 300 (Op.updateRun runA), op.addsFresh = true) ∧
    (queueOf (exec NewStateManager (Op.addConnection connE :: Op.sendInitial connE
        :: List.replicate 300 (Op.updateRun runA))) 9).length ≤ 256 :=
  ⟨by decide, queues_bounded _ (by decide) 9⟩

set_option maxRecDepth 100000 in
/-- C9, evaluation. After the insert frame of scenario 1 and a delete frame carrying the
same row in an `O` section, `GetMatchingRuns` with filter `run_id = X` returns the record
with the status it was inserted with, and the tombstone is stored under the zero uuid. -/
theorem delete_leaves_record_live :
    ((handleCopyData sampleCodecs 5 NewStateManager
          (xlogFrame 'I' (changeBody 16384 'N' rowX))).bind
        (fun sm => handleCopyData sampleCodecs 6 sm
          (xlogFrame 'D' (changeBody 16384 'O' rowX)))).bind
      (fun sm => Outcome.ok
        ((GetMatchingRuns sm filterX).map (fun r => (r.ID, r.Status)),
          (sm.runs.lookup 0).map (fun r => r.Status)))
    = Outcome.ok ([(idX, "QUEUED")], some "deleted") := by
  decide

/-- C10, evaluation. An XLogData frame whose insert body ends right after the 4-byte
relation oid makes `handleCopyData` read `data[4]` of a 4-byte slice: the call panics,
whatever the state, the clock and the library parsers. -/
theorem truncated_insert_panics (lib : Codecs) (now : Time) (sm : StateManager)
    (b0 b1 b2 b3 : Nat) :
    handleCopyData lib now sm (xlogFrame 'I' [b0, b1, b2, b3]) = Outcome.panic := by
  rfl

/-- C11, evaluation. An insert frame whose body has three bytes, one short of the relation
oid, is not skipped: `handleCopyData` returns without error after `UpdateRun` has stored the
record built from an empty column map, so the counter moves and the record map gains an
entry under the zero uuid. -/
theorem short_insert_stores_blank_record (lib : Codecs) (now : Time) (sm : StateManager)
    (b0 b1 b2 : Nat) :
    handleCopyData lib now sm (xlogFrame 'I' [b0, b1, b2])
        = Outcome.ok (UpdateRun sm (blankRun now)) ∧
      (UpdateRun sm (blankRun now)).sequence = (sm.sequence + 1) % 2 ^ 64 ∧
      (UpdateRun sm (blankRun now)).sequence ≠ sm.sequence ∧
      (UpdateRun sm (blankRun now)).runs.lookup 0
        = some { blankRun now with Seq := (sm.sequence + 1) % 2 ^ 64 } := by
  refine ⟨rfl, UpdateRun_sequence _ _, ?_, ?_⟩
  · rw [UpdateRun_sequence]
    omega
  · rw [UpdateRun_runs]
    exact AList.lookup_insert _

set_option maxRecDepth 100000 in
/-- C12, evaluation. For the six-column insert body whose last column is an empty text, the
decoder returns a `New` map with the first five keys and without the key `tags`, although
the column is a text column. -/
theorem empty_last_column_dropped :
    (parseChangeMessage "INSERT" (changeBody 16384 'N' (colsEmptyLast.map encodeColumn))).bind
        (fun change => Outcome.ok (change.New.map (fun m => (m.keys, m.lookup "tags"))))
      = Outcome.ok (some (["updated_at", "created_at", "status", "runtime_environment_id", "id"],
          none)) ∧
    columnText colsEmptyLast 5 = some "" := by
  decide

set_option maxRecDepth 100000 in
/-- C13, evaluation. After the insert frame of scenario 1, an update frame for the same row
with status EXECUTING, laid out as pgoutput sends it (with the old tuple behind `O`, or with
the new tuple only), leaves the record with status QUEUED and `seq` 1 and stores a second
record under the zero uuid with `seq` 2. -/
theorem update_frame_not_decoded :
    ((handleCopyData sampleCodecs 5 NewStateManager
          (xlogFrame 'I' (changeBody 16384 'N' (colsX.map encodeColumn)))).bind
        (fun sm => handleCopyData sampleCodecs 6 sm
          (xlogFrame 'U' (updateBody 16384 (some ('O', colsX)) colsExecuting)))).bind
      (fun sm => Outcome.ok
        ((GetMatchingRuns sm filterX).map (fun r => (r.ID, r.Status, r.Seq)),
          (sm.runs.lookup 0).map (fun r => (r.Status, r.Seq))))
      = Outcome.ok ([(idX, "QUEUED", 1)], some ("", 2)) ∧
    ((handleCopyData sampleCodecs 5 NewStateManager
          (xlogFrame 'I' (changeBody 16384 'N' (colsX.map encodeColumn)))).bind
        (fun sm => handleCopyData sampleCodecs 6 sm
          (xlogFrame 'U' (updateBody 16384 none colsExecuting)))).bind
      (fun sm => Outcome.ok
        ((GetMatchingRuns sm filterX).map (fun r => (r.ID, r.Status, r.Seq)),
          (sm.runs.lookup 0).map (fun r => (r.Status, r.Seq))))
      = Outcome.ok ([(idX, "QUEUED", 1)], some ("", 2)) :=
  ⟨by decide, by decide⟩

set_option maxRecDepth 100000 in
/-- C14, evaluation. In a six-column insert body whose second column is sent with tag `u`,
the decoder takes the four bytes after the tag for a length, gives up, and returns a `New`
map with the key `id` only: the status column behind it is not decoded. -/
theorem unchanged_toast_misparsed :
    (parseChangeMessage "INSERT" (changeBody 16384 'N' rowToast)).bind
        (fun change => Outcome.ok (change.New.map (fun m => (m.keys, m.lookup "status"))))
      = Outcome.ok (some (["id"], none)) ∧
    columnText colsExecuting 2 = some "EXECUTING" := by
  decide

set_option maxRecDepth 100000 in
/-- C15, counterexample. The insert frame of scenario 1 carries the valid instant
2024-01-01T00:00:05Z in its `updated_at` column; decoded at ingest time 7, the stored record
has `updated_at` 7, not the instant of the column. -/
theorem updated_at_column_not_parsed :
    (handleCopyData sampleCodecs 7 NewStateManager
        (xlogFrame 'I' (changeBody 16384 'N' (colsX.map encodeColumn)))).bind
      (fun sm => Outcome.ok ((sm.runs.lookup idX).map (fun r => r.UpdatedAt)))
      = Outcome.ok (some 7) ∧
    (columnText colsX 4).bind sampleCodecs.timeParse = some 63839664005 :=
  ⟨by decide, by decide⟩

/-- C15 as amended. For every well-formed insert frame whose tuple does not end in an empty
text, whatever its `updated_at` column holds, the decoder stores a record whose `updated_at`
is the ingest time (the value of `time.Now()` at decoding); the text of the column is kept
in the data map under `updated_at` and is not parsed. -/
theorem updated_at_is_ingest_time (lib : Codecs) (now : Time) (sm : StateManager) (oid : Nat)
    (cols : List (Option (List Nat))) (hfit : fitsWire cols = true)
    (hclosed : closedTuple cols [] = true) :
    ∃ run, handleCopyData lib now sm (xlogFrame 'I' (changeBody oid 'N' (cols.map encodeColumn)))
        = Outcome.ok (UpdateRun sm run) ∧
      run.UpdatedAt = now ∧ run.Data.lookup "updated_at" = columnText cols 4 :=
  ⟨_, handleInsert_wellFormed lib now sm oid cols hfit hclosed, rfl,
    lookup_storeColumns_zero cols 4 "updated_at" rfl⟩

/-- Witness of C15: the insert frame of scenario 1. -/
theorem updated_at_is_ingest_time_witness :
    fitsWire colsX = true ∧ closedTuple colsX [] = true ∧
    ∃ run, handleCopyData sampleCodecs 7 NewStateManager
          (xlogFrame 'I' (changeBody 16384 'N' (colsX.map encodeColumn)))
        = Outcome.ok (UpdateRun NewStateManager run) ∧
      run.UpdatedAt = 7 ∧ run.Data.lookup "updated_at" = columnText colsX 4 :=
  ⟨by decide, by decide,
    updated_at_is_ingest_time sampleCodecs 7 NewStateManager 16384 colsX (by decide) (by decide)⟩

set_option maxRecDepth 100000 in
/-- C16, counterexample. With the tags column written as the database array literal of one
uuid, the stored record has no tags. -/
theorem array_literal_tags_dropped :
    (handleCopyData sampleCodecs 7 NewStateManager
        (xlogFrame 'I' (changeBody 16384 'N' (colsLiteralTag.map encodeColumn)))).bind
      (fun sm => Outcome.ok ((sm.runs.lookup idX).map (fun r => r.Tags)))
      = Outcome.ok (some []) ∧
    columnText colsLiteralTag 5 = some "\x7b11111111-1111-1111-1111-111111111111\x7d" :=
  ⟨by decide, by decide⟩

/-- C16 as amended. For every well-formed insert frame whose tuple does not end in an empty
text, the tags of the stored record are what `json.Unmarshal` returns for the text of the
tags column, and the empty list when the column is null or `json.Unmarshal` rejects the
text, as it does for a database array literal. -/
theorem tags_follow_unmarshal (lib : Codecs) (now : Time) (sm : StateManager) (oid : Nat)
    (cols : List (Option (List Nat))) (hfit : fitsWire cols = true)
    (hclosed : closedTuple cols [] = true) :
    ∃ run, handleCopyData lib now sm (xlogFrame 'I' (changeBody oid 'N' (cols.map encodeColumn)))
        = Outcome.ok (UpdateRun sm run) ∧
      run.Tags = ((columnText cols 5).bind lib.unmarshalTags).getD [] := by
  refine ⟨_, handleInsert_wellFormed lib now sm oid cols hfit hclosed, ?_⟩
  simp only [lookup_storeColumns_zero cols 5 "tags" rfl]

/-- Witness of C16: the row of scenario 1 with a JSON array of one uuid as tags. -/
theorem tags_follow_unmarshal_witness :
    fitsWire colsJsonTag = true ∧ closedTuple colsJsonTag [] = true ∧
    ((columnText colsJsonTag 5).bind sampleCodecs.unmarshalTags).getD [] = [idX] ∧
    ∃ run, handleCopyData sampleCodecs 7 NewStateManager
          (xlogFrame 'I' (changeBody 16384 'N' (colsJsonTag.map encodeColumn)))
        = Outcome.ok (UpdateRun NewStateManager run) ∧
      run.Tags = ((columnText colsJsonTag 5).bind sampleCodecs.unmarshalTags).getD [] :=
  ⟨by decide, by decide, by decide,
    tags_follow_unmarshal sampleCodecs 7 NewStateManager 16384 colsJsonTag (by decide)
      (by decide)⟩

set_option maxRecDepth 100000 in
/-- C17, counterexample. For the row of scenario 1 followed by a seventh text column, the
decoder returns a `New` map with the six schema keys and no entry that carries the text of
the seventh column. -/
theorem seventh_column_not_retained :
    (parseChangeMessage "INSERT" (changeBody 16384 'N' (colsSeven.map encodeColumn))).bind
        (fun change => Outcome.ok (change.New.map (fun m =>
          (m.keys, (m.entries.map (fun e => e.2)).contains "extra"))))
      = Outcome.ok (some (["tags", "updated_at", "created_at", "status",
          "runtime_environment_id", "id"], false)) ∧
    columnText colsSeven 6 = some "extra" :=
  ⟨by decide, by decide⟩

/-- C17 as amended. For every well-formed insert frame whose tuple does not end in an empty
text, the data map of the stored record is the one gathered from the first six columns: a
column at position 6 or greater is read over and leaves no entry, and every key of the map is
one of the six schema keys. -/
theorem columns_beyond_schema_dropped (lib : Codecs) (now : Time) (sm : StateManager)
    (oid : Nat) (cols extra : List (Option (List Nat))) (hsix : 6 ≤ cols.length)
    (hfit : fitsWire (cols ++ extra) = true) (hclosed : closedTuple (cols ++ extra) [] = true) :
    ∃ run, handleCopyData lib now sm
          (xlogFrame 'I' (changeBody oid 'N' ((cols ++ extra).map encodeColumn)))
        = Outcome.ok (UpdateRun sm run) ∧
      run.Data = storeColumns ∅ 0 cols ∧ ∀ key ∈ run.Data.keys, key ∈ schemaKeys := by
  refine ⟨_, handleInsert_wellFormed lib now sm oid (cols ++ extra) hfit hclosed, ?_, ?_⟩
  · exact storeColumns_beyond cols extra ∅ 0 (by omega)
  · intro key hkey
    rcases storeColumns_keys (cols ++ extra) ∅ 0 key hkey with h | h
    · simp at h
    · exact h

/-- Witness of C17: the row of scenario 1 followed by a seventh column. -/
theorem columns_beyond_schema_dropped_witness :
    6 ≤ colsX.length ∧ fitsWire (colsX ++ [some (stringBytes "extra")]) = true ∧
    closedTuple (colsX ++ [some (stringBytes "extra")]) [] = true ∧
    ∃ run, handleCopyData sampleCodecs 7 NewStateManager
          (xlogFrame 'I' (changeBody 16384 'N'
            ((colsX ++ [some (stringBytes "extra")]).map encodeColumn)))
        = Outcome.ok (UpdateRun NewStateManager run) ∧
      run.Data = storeColumns ∅ 0 colsX ∧ ∀ key ∈ run.Data.keys, key ∈ schemaKeys :=
  ⟨by decide, by decide, by decide,
    columns_beyond_schema_dropped sampleCodecs 7 NewStateManager 16384 colsX
      [some (stringBytes "extra")] (by decide) (by decide) (by decide)⟩

set_option maxRecDepth 100000 in
/-- C18, counterexample. For the insert frame of scenario 1 under a header whose wal-end
field is 0x16B3748, the change the decoder returns has the empty string as its lsn. -/
theorem change_lsn_is_empty :
    (parseChangeMessage "INSERT"
        (((xlogFrameWith walHeader 'I' (changeBody 16384 'N' (colsX.map encodeColumn))).drop
          25).drop 1)).bind
      (fun change => Outcome.ok (change.LSN, change.New.map (fun m => m.keys.length)))
      = Outcome.ok ("", some 6) :=
  by decide

/-- C18 as amended. Every change the decoder returns carries the empty string as its lsn,
and what an XLogData frame does to the state does not depend on its 24-byte header: the
header is skipped unread. -/
theorem lsn_never_read (lib : Codecs) (now : Time) (sm : StateManager)
    (operation : String) (data : List Nat) (change : TaskRunChange)
    (header1 header2 : List Nat) (msgType : Char) (body : List Nat)
    (hchange : parseChangeMessage operation data = Outcome.ok change)
    (h1 : header1.length = 24) (h2 : header2.length = 24) :
    change.LSN = "" ∧
      handleCopyData lib now sm (xlogFrameWith header1 msgType body)
        = handleCopyData lib now sm (xlogFrameWith header2 msgType body) := by
  refine ⟨(parseChangeMessage_shape operation data change hchange).1, ?_⟩
  have key : ∀ header : List Nat, header.length = 24 →
      handleCopyData lib now sm (xlogFrameWith header msgType body)
        = parseLogicalMessage lib now sm (msgType.toNat :: body) := by
    intro header hh
    have hd : (header ++ msgType.toNat :: body).drop 24 = msgType.toNat :: body := by
      rw [← hh]; exact List.drop_left _ _
    simp [handleCopyData, xlogFrameWith, index, handleXLogData, bind, Outcome.bind, pure, hh, hd]
  rw [key header1 h1, key header2 h2]

/-- Witness of C18: the insert frame of scenario 1 under two different headers. -/
theorem lsn_never_read_witness :
    parseChangeMessage "INSERT" (changeBody 16384 'N' (colsX.map encodeColumn))
      = Outcome.ok { Operation := "INSERT", Old := some ∅,
                     New := some (storeColumns ∅ 0 colsX), LSN := "" } ∧
    walHeader.length = 24 ∧ (List.replicate 24 0).length = 24 ∧
    handleCopyData sampleCodecs 7 NewStateManager
        (xlogFrameWith walHeader 'I' (changeBody 16384 'N' (colsX.map encodeColumn)))
      = handleCopyData sampleCodecs 7 NewStateManager
        (xlogFrameWith (List.replicate 24 0) 'I'
          (changeBody 16384 'N' (colsX.map encodeColumn))) :=
  ⟨parseChangeMessage_insert 16384 colsX (by decide) (by decide), by decide, by decide,
    (lsn_never_read sampleCodecs 7 NewStateManager "INSERT"
      (changeBody 16384 'N' (colsX.map encodeColumn)) _ walHeader (List.replicate 24 0) 'I'
      (changeBody 16384 'N' (colsX.map encodeColumn))
      (parseChangeMessage_insert 16384 colsX (by decide) (by decide)) (by decide)
      (by decide)).2⟩

/-- C19. Given that zstd decompression undoes compression and that `gob` decoding returns a
snapshot with the same lsn, sequence and typed record fields as the one encoded:
`CreateSnapshot` of state `S` with lsn `L` succeeds, `LoadSnapshot` then returns a snapshot
whose lsn is `L`, and `RestoreFromSnapshot` of it into a fresh state gives the counter of `S`
and, under every id, a record with the typed fields of the record `S` holds there. -/
theorem snapshot_round_trip {B : Type} (codec : SnapshotCodec B) (now : Time)
    (S : StateManager) (L : String) (disk : Disk B)
    (hzstd : ∀ b, codec.decompress (codec.compress b) = some b)
    (hgob : ∀ s, ∃ b t, codec.gobEncode s = some b ∧ codec.gobDecode b = some t ∧
      s.sameTyped t) :
    ∃ disk' loaded, CreateSnapshot codec now S L disk = Outcome.ok disk' ∧
      LoadSnapshot codec disk' = Outcome.ok (some loaded) ∧
      loaded.LSN = L ∧
      (RestoreFromSnapshot NewStateManager loaded).sequence = S.sequence ∧
      ∀ k, ((RestoreFromSnapshot NewStateManager loaded).runs.lookup k).map RunState.typed
        = (S.runs.lookup k).map RunState.typed := by
  obtain ⟨b, t, henc, hdec, hlsn, hseq, hruns⟩ := hgob (takeSnapshot S L now)
  refine ⟨{ file := some (codec.compress b), temp := none }, t, ?_, ?_, hlsn, ?_, ?_⟩
  · simp only [CreateSnapshot, henc]
  · simp only [LoadSnapshot, hzstd, hdec]
  · rw [(RestoreFromSnapshot_runs_sequence NewStateManager t).2, hseq]; rfl
  · intro k
    rw [(RestoreFromSnapshot_runs_sequence NewStateManager t).1, hruns k]
    simp only [takeSnapshot, lookup_copyRuns]

/-- Witness of C19: a state with two records, the identity serialisation, an empty disk. -/
theorem snapshot_round_trip_witness :
    (∀ b, plainCodec.decompress (plainCodec.compress b) = some b) ∧
    (∀ s, ∃ b t, plainCodec.gobEncode s = some b ∧ plainCodec.gobDecode b = some t ∧
      s.sameTyped t) ∧
    ∃ disk' loaded,
      CreateSnapshot plainCodec 9 stateAB "0/16B3748" { file := none, temp := none }
        = Outcome.ok disk' ∧
      LoadSnapshot plainCodec disk' = Outcome.ok (some loaded) ∧
      loaded.LSN = "0/16B3748" ∧
      (RestoreFromSnapshot NewStateManager loaded).sequence = stateAB.sequence ∧
      ∀ k, ((RestoreFromSnapshot NewStateManager loaded).runs.lookup k).map RunState.typed
        = (stateAB.runs.lookup k).map RunState.typed :=
  ⟨fun _ => rfl, fun s => ⟨s, s, rfl, rfl, rfl, rfl, fun _ => rfl⟩,
    snapshot_round_trip plainCodec 9 stateAB "0/16B3748" { file := none, temp := none }
      (fun _ => rfl) (fun s => ⟨s, s, rfl, rfl, rfl, rfl, fun _ => rfl⟩)⟩

/-- C20. After `RestoreFromSnapshot`, whatever the prior state: the record map is the
snapshot's, the counter is the snapshot's, `envIndex` and `tagIndex` list exactly the ids of
the snapshot's records under their env and under each of their tags, with no empty bucket and
nothing left from the prior state, and the connection registry, the subscription indexes and
the recent-event rings are those of the prior state. -/
theorem RestoreFromSnapshot_exact (sm : StateManager) (snapshot : Snapshot) :
    (RestoreFromSnapshot sm snapshot).runs = snapshot.Runs ∧
    (RestoreFromSnapshot sm snapshot).sequence = snapshot.Sequence ∧
    (∀ env id, inIndex (RestoreFromSnapshot sm snapshot).envIndex env id = true ↔
      ∃ key r, snapshot.Runs.lookup key = some r ∧ r.EnvID = env ∧ r.ID = id) ∧
    (∀ tag id, inIndex (RestoreFromSnapshot sm snapshot).tagIndex tag id = true ↔
      ∃ key r, snapshot.Runs.lookup key = some r ∧ tag ∈ r.Tags ∧ r.ID = id) ∧
    (∀ env bucket, (RestoreFromSnapshot sm snapshot).envIndex.lookup env = some bucket →
      bucket.Nonempty) ∧
    (∀ tag bucket, (RestoreFromSnapshot sm snapshot).tagIndex.lookup tag = some bucket →
      bucket.Nonempty) ∧
    (RestoreFromSnapshot sm snapshot).connections = sm.connections ∧
    (RestoreFromSnapshot sm snapshot).subByRun = sm.subByRun ∧
    (RestoreFromSnapshot sm snapshot).subByEnv = sm.subByEnv ∧
    (RestoreFromSnapshot sm snapshot).subByTag = sm.subByTag ∧
    (RestoreFromSnapshot sm snapshot).recentEvents = sm.recentEvents := by
  have hmem : ∀ (P : UUID → RunState → Prop),
      (∃ e ∈ snapshot.Runs.entries, P e.1 e.2) ↔
        ∃ key r, snapshot.Runs.lookup key = some r ∧ P key r := by
    intro P
    constructor
    · rintro ⟨⟨key, r⟩, he, hp⟩
      exact ⟨key, r, AList.mem_lookup_iff.mpr he, hp⟩
    · rintro ⟨key, r, hl, hp⟩
      exact ⟨⟨key, r⟩, AList.mem_lookup_iff.mp hl, hp⟩
  have hempty : NoEmptyBucket (∅ : GoMap IdSet) := by
    intro k b hb; simp at hb
  unfold RestoreFromSnapshot
  refine ⟨foldl_addToIndexes_runs _ _, foldl_addToIndexes_sequence _ _, ?_, ?_, ?_, ?_,
    foldl_addToIndexes_connections _ _, (foldl_addToIndexes_subs _ _).1,
    (foldl_addToIndexes_subs _ _).2.1, (foldl_addToIndexes_subs _ _).2.2.1,
    (foldl_addToIndexes_subs _ _).2.2.2⟩
  · intro env id
    rw [(foldl_addToIndexes_inIndex _ env id _).1]
    simp only [inIndex_empty, Bool.false_eq_true, or_false]
    exact hmem (fun _ r => r.EnvID = env ∧ r.ID = id)
  · intro tag id
    rw [(foldl_addToIndexes_inIndex _ tag id _).2]
    simp only [inIndex_empty, Bool.false_eq_true, or_false]
    exact hmem (fun _ r => tag ∈ r.Tags ∧ r.ID = id)
  · exact (noEmptyBucket_foldl_addToIndexes _ _ hempty hempty).1
  · exact (noEmptyBucket_foldl_addToIndexes _ _ hempty hempty).2

set_option maxRecDepth 1000000 in
/-- C21, counterexample. With 257 records stored and a connection with the empty filter,
`GetMatchingRuns` returns 257 records and `sendInitialState` leaves 256 events in the new
connection's queue: one record gets no initial event. -/
theorem initial_priming_stops_at_capacity :
    ((GetMatchingRuns crowdedState connAll.Filter).length,
      (queueOf (sendInitialState (AddConnection crowdedState connAll) connAll) 8).length)
      = (257, 256) := by
  decide

/-- C21 as amended. For every state, every filter and every connection `NewConnection`
returns (its queue is empty), `AddConnection` followed by `sendInitialState` leaves in the
queue one event of type "initial" for each of the first 256 records that
`GetMatchingRuns` returns, in that order, with event id the decimal rendering of the
record's `seq` and data equal to the record; `sendInitialState` returns at the first send
that would block, so records beyond the 256th get no event. -/
theorem initial_priming (sm : StateManager) (filter : StreamFilter) (lastEventID : String)
    (id : UUID) :
    queueOf (sendInitialState (AddConnection sm (NewConnection filter lastEventID id))
        (NewConnection filter lastEventID id)) id
      = ((GetMatchingRuns sm filter).take 256).map
          (fun run => { ID := toString run.Seq, EventType := "initial", Data := run }) := by
  have hl : (AddConnection sm (NewConnection filter lastEventID id)).connections.lookup
      (NewConnection filter lastEventID id).ID = some (NewConnection filter lastEventID id) := by
    simp [AddConnection, AList.lookup_insert]
  unfold sendInitialState
  rw [hl]
  simp only [queueOf]
  have hid : (NewConnection filter lastEventID id).ID = id := rfl
  rw [hid, AList.lookup_insert]
  simp only [Option.map_some', Option.getD_some, GetMatchingRuns_AddConnection]
  rw [sendInitialLoop_take]
  simp [NewConnection, eventsCap]
  rfl

/-- C22. In every state reached from `NewStateManager` by calls in which connections are
registered under fresh ids and unregistered with the filter they were registered with (as
`handleStream` does), for every connection whose id is not registered: `AddConnection`
followed by `RemoveConnection` leaves the connection registry and `subByRun`, `subByEnv`,
`subByTag` with the same value under every key, the id of the connection is in no
subscription index, no bucket is empty, and the records, the record indexes, the sequence
counter and the recent-event rings are unchanged. -/
theorem add_then_remove_connection_restores (ops : List Op) (c : Connection)
    (hops : handlerCalls NewStateManager ops = true)
    (hfresh : (exec NewStateManager ops).connections.lookup c.ID = none) :
    (∀ id, (RemoveConnection (AddConnection (exec NewStateManager ops) c) c).connections.lookup id
        = (exec NewStateManager ops).connections.lookup id) ∧
    (∀ k, (RemoveConnection (AddConnection (exec NewStateManager ops) c) c).subByRun.lookup k
        = (exec NewStateManager ops).subByRun.lookup k) ∧
    (∀ k, (RemoveConnection (AddConnection (exec NewStateManager ops) c) c).subByEnv.lookup k
        = (exec NewStateManager ops).subByEnv.lookup k) ∧
    (∀ k, (RemoveConnection (AddConnection (exec NewStateManager ops) c) c).subByTag.lookup k
        = (exec NewStateManager ops).subByTag.lookup k) ∧
    (∀ k, inIndex (RemoveConnection (AddConnection (exec NewStateManager ops) c) c).subByRun
        k c.ID = false ∧
      inIndex (RemoveConnection (AddConnection (exec NewStateManager ops) c) c).subByEnv
        k c.ID = false ∧
      inIndex (RemoveConnection (AddConnection (exec NewStateManager ops) c) c).subByTag
        k c.ID = false) ∧
    (NoEmptyBucket (RemoveConnection (AddConnection (exec NewStateManager ops) c) c).subByRun ∧
      NoEmptyBucket (RemoveConnection (AddConnection (exec NewStateManager ops) c) c).subByEnv ∧
      NoEmptyBucket (RemoveConnection (AddConnection (exec NewStateManager ops) c) c).subByTag) ∧
    (RemoveConnection (AddConnection (exec NewStateManager ops) c) c).runs
      = (exec NewStateManager ops).runs ∧
    (RemoveConnection (AddConnection (exec NewStateManager ops) c) c).envIndex
      = (exec NewStateManager ops).envIndex ∧
    (RemoveConnection (AddConnection (exec NewStateManager ops) c) c).tagIndex
      = (exec NewStateManager ops).tagIndex ∧
    (RemoveConnection (AddConnection (exec NewStateManager ops) c) c).sequence
      = (exec NewStateManager ops).sequence ∧
    (RemoveConnection (AddConnection (exec NewStateManager ops) c) c).recentEvents
      = (exec NewStateManager ops).recentEvents := by
  have hs : SubsSound (exec NewStateManager ops) :=
    subsSound_exec ops NewStateManager hops subsSound_new
  have hadd := subsSound_AddConnection _ c hfresh hs
  have hrem : SubsSound (RemoveConnection (AddConnection (exec NewStateManager ops) c) c) := by
    refine subsSound_RemoveConnection _ c ?_ hadd
    simp [AddConnection, AList.lookup_insert]
  have hin := AddRemove_inIndex (exec NewStateManager ops) c hs hfresh
  obtain ⟨h1, h2, h3, n1, n2, n3⟩ := hs
  obtain ⟨-, -, -, m1, m2, m3⟩ := hrem
  refine ⟨AddRemove_connections _ c hfresh,
    index_ext _ _ m1 n1 (fun k id => (hin k id).1),
    index_ext _ _ m2 n2 (fun k id => (hin k id).2.1),
    index_ext _ _ m3 n3 (fun k id => (hin k id).2.2),
    fun k => ⟨?_, ?_, ?_⟩, ⟨m1, m2, m3⟩, rfl, rfl, rfl, rfl, rfl⟩
  · rw [(hin k c.ID).1, Bool.eq_false_iff]
    intro hh
    obtain ⟨c0, hl, -⟩ := h1 k c.ID hh
    rw [hfresh] at hl; cases hl
  · rw [(hin k c.ID).2.1, Bool.eq_false_iff]
    intro hh
    obtain ⟨c0, hl, -⟩ := h2 k c.ID hh
    rw [hfresh] at hl; cases hl
  · rw [(hin k c.ID).2.2, Bool.eq_false_iff]
    intro hh
    obtain ⟨c0, hl, -⟩ := h3 k c.ID hh
    rw [hfresh] at hl; cases hl

/-- Witness of C22: with the env subscriber `connE` (id 9) registered and two records
stored, the connection `connFull` (here under id 4; run 1, env 2, tag 7 twice) is added and removed. -/
theorem add_then_remove_connection_restores_witness :
    handlerCalls NewStateManager
      [Op.updateRun runA, .addConnection connE, .updateRun runB] = true ∧
    (exec NewStateManager
      [Op.updateRun runA, .addConnection connE, .updateRun runB]).connections.lookup
        { connFull with ID := 4 }.ID = none ∧
    ∀ k, (RemoveConnection (AddConnection (exec NewStateManager
        [Op.updateRun runA, .addConnection connE, .updateRun runB])
          { connFull with ID := 4 }) { connFull with ID := 4 }).subByEnv.lookup k
      = (exec NewStateManager
        [Op.updateRun runA, .addConnection connE, .updateRun runB]).subByEnv.lookup k :=
  ⟨by decide, by decide,
    (add_then_remove_connection_restores
      [Op.updateRun runA, .addConnection connE, .updateRun runB] { connFull with ID := 4 }
      (by decide) (by decide)).2.2.1⟩

/-- C23. From a state whose ring for record `id` is empty, along any calls other than
`RemoveRun` of that id and `RestoreFromSnapshot`, with the sequence counter not wrapping
(fewer than 2^64 updates): the ring `recentEvents[id]` is the last 128 of the delta events
the `UpdateRun` calls for `id` produced, oldest first; its length is the minimum of 128 and
the number of those calls, hence at most 128; its `seq` values are strictly increasing; and
each entry is the delta event of a record with that id. -/
theorem recent_ring_holds_last_128 (id : UUID) (s0 : StateManager) (ops : List Op)
    (hring : ringOf s0 id = [])
    (hops : ∀ op ∈ ops, ringCall id op = true)
    (hn : s0.sequence + countUpdates ops < 2 ^ 64) :
    ringOf (exec s0 ops) id = lastN 128 (producedFor id s0 ops) ∧
    (ringOf (exec s0 ops) id).length = min (countUpdatesFor id ops) 128 ∧
    (ringOf (exec s0 ops) id).length ≤ 128 ∧
    (ringOf (exec s0 ops) id).Pairwise (fun a b => a.Data.Seq < b.Data.Seq) ∧
    ∀ e ∈ ringOf (exec s0 ops) id,
      e.EventType = "delta" ∧ e.Data.ID = id ∧ e.ID = toString e.Data.Seq := by
  have h := ringOf_exec id ops s0 [] hops (by rw [hring, lastN_nil])
  rw [List.nil_append] at h
  have hlen : (ringOf (exec s0 ops) id).length = min (countUpdatesFor id ops) 128 := by
    rw [h, lastN_length, producedFor_length]
  refine ⟨h, hlen, by rw [hlen]; exact Nat.min_le_right _ _, ?_, ?_⟩
  · rw [h]
    exact (producedFor_sorted id ops s0 hops hn).2.sublist (lastN_sublist _ _)
  · intro e he
    rw [h] at he
    exact producedFor_shape id ops s0 e ((lastN_sublist _ _).subset he)

set_option maxRecDepth 1000000 in
/-- Witness of C23: 130 updates of record 1, then a record 2 is stored and removed; the
ring of record 1 holds 128 events. -/
theorem recent_ring_holds_last_128_witness :
    ringOf NewStateManager 1 = [] ∧
    (∀ op ∈ List.replicate 130 (Op.updateRun runA) ++ [.updateRun runB, .removeRun 2],
      ringCall 1 op = true) ∧
    NewStateManager.sequence
      + countUpdates (List.replicate 130 (Op.updateRun runA) ++ [.updateRun runB, .removeRun 2])
      < 2 ^ 64 ∧
    (ringOf (exec NewStateManager
      (List.replicate 130 (Op.updateRun runA) ++ [.updateRun runB, .removeRun 2])) 1).length
      = min (countUpdatesFor 1
          (List.replicate 130 (Op.updateRun runA) ++ [.updateRun runB, .removeRun 2])) 128 :=
  ⟨rfl, by decide, by decide,
    (recent_ring_holds_last_128 1 NewStateManager
      (List.replicate 130 (Op.updateRun runA) ++ [.updateRun runB, .removeRun 2])
      rfl (by decide) (by decide)).2.1⟩

/-- C24. In every state reached from `NewStateManager` by `UpdateRun` and `RemoveRun` (and
by any other call, a `RestoreFromSnapshot` taking a snapshot keyed by record id): an id
listed in `envIndex[e]` is the id of a stored record with env id `e`, an id listed in
`tagIndex[t]` is the id of a stored record whose tags include `t`, and no bucket of either
index is empty. In particular, after `UpdateRun` the id of the record is listed under no
env but its own and under no tag it does not carry, and after `RemoveRun` the id is listed
in no index. -/
theorem indexes_hold_no_stale_entries (ops : List Op)
    (hops : ∀ op ∈ ops, op.restoresKeyed = true) :
    (∀ e id, inIndex (exec NewStateManager ops).envIndex e id = true →
      ∃ r, (exec NewStateManager ops).runs.lookup id = some r ∧ r.EnvID = e) ∧
    (∀ t id, inIndex (exec NewStateManager ops).tagIndex t id = true →
      ∃ r, (exec NewStateManager ops).runs.lookup id = some r ∧ t ∈ r.Tags) ∧
    NoEmptyBucket (exec NewStateManager ops).envIndex ∧
    NoEmptyBucket (exec NewStateManager ops).tagIndex ∧
    (∀ run e, e ≠ run.EnvID →
      inIndex (UpdateRun (exec NewStateManager ops) run).envIndex e run.ID = false) ∧
    (∀ run t, t ∉ run.Tags →
      inIndex (UpdateRun (exec NewStateManager ops) run).tagIndex t run.ID = false) ∧
    (∀ id k, inIndex (RemoveRun (exec NewStateManager ops) id).envIndex k id = false ∧
      inIndex (RemoveRun (exec NewStateManager ops) id).tagIndex k id = false) := by
  have hk := recordsIndexed_exec ops NewStateManager hops recordsIndexed_new
  have hs := indexSound_exec ops NewStateManager hops recordsIndexed_new indexSound_new
  have hu := fun run => indexSound_UpdateRun (exec NewStateManager ops) run hk hs
  have hr := fun id => indexSound_RemoveRun (exec NewStateManager ops) id hk hs
  refine ⟨hs.1, hs.2.1, hs.2.2.1, hs.2.2.2, ?_, ?_, ?_⟩
  · intro run e hne
    rw [Bool.eq_false_iff]
    intro hin
    obtain ⟨r, hl, he⟩ := (hu run).1 e run.ID hin
    rw [UpdateRun_runs, AList.lookup_insert] at hl
    cases hl
    exact hne he.symm
  · intro run t hnt
    rw [Bool.eq_false_iff]
    intro hin
    obtain ⟨r, hl, ht⟩ := (hu run).2.1 t run.ID hin
    rw [UpdateRun_runs, AList.lookup_insert] at hl
    cases hl
    exact hnt ht
  · intro id k
    constructor
    · rw [Bool.eq_false_iff]
      intro hin
      obtain ⟨r, hl, -⟩ := (hr id).1 k id hin
      rw [RemoveRun_lookup_self] at hl; cases hl
    · rw [Bool.eq_false_iff]
      intro hin
      obtain ⟨r, hl, -⟩ := (hr id).2.1 k id hin
      rw [RemoveRun_lookup_self] at hl; cases hl

/-- Witness of C24: `runA` (env 2, tag 7) is stored, replaced by a record with the same id
in env 5 without tags, and `runB` is stored and removed; the old env 2 no longer lists
id 1. -/
theorem indexes_hold_no_stale_entries_witness :
    (∀ op ∈ [Op.updateRun runA, .updateRun runB, .removeRun 2], op.restoresKeyed = true) ∧
    inIndex (UpdateRun (exec NewStateManager [Op.updateRun runA, .updateRun runB, .removeRun 2])
      { runA with EnvID := 5, Tags := [] }).envIndex 2 1 = false :=
  ⟨by decide,
    (indexes_hold_no_stale_entries [Op.updateRun runA, .updateRun runB, .removeRun 2]
      (by decide)).2.2.2.2.1 { runA with EnvID := 5, Tags := [] } 2 (by decide)⟩

end Realtime
